import Mathlib

/-! The objectClass module of the directory database
(source4/dsdb/samdb/ldb_modules/objectclass.c)

A shallow embedding of the objectClass sorting module: the class hierarchy
sorter `objectclass_sort`, the DN normaliser `fix_dn`, the attribute validator
`fix_check_attributes`, the entry points `objectclass_add`, `objectclass_modify`
and `objectclass_rename`, their continuations `objectclass_do_add`,
`objectclass_do_mod` and `objectclass_do_rename`, and the callbacks.

Conventions of the embedding.

* C strings are `String`; an `ldb_val` holding a class name is a `String` too.
* A `NULL` pointer is `none`.  Dereferencing `NULL` is the outcome `exec.fault`.
* Loops whose termination depends on the data take a `fuel : Nat`; running out
  is the outcome `exec.out_of_fuel`.  A loop that never ends in C is one that
  returns `exec.out_of_fuel` for every amount of fuel.
* Allocation (`talloc`) never fails.
* The doubly linked lists of `dlinklist.h` are `List`s; a pointer to a node of
  a list is the position of the node in the list.
-/

namespace Objectclass

/-! ## Return codes and outcomes -/

/-- The `LDB_*` return codes used by the module. -/
inductive ldb_err where
  | LDB_SUCCESS
  | LDB_ERR_OPERATIONS_ERROR
  | LDB_ERR_NO_SUCH_ATTRIBUTE
  | LDB_ERR_UNDEFINED_ATTRIBUTE_TYPE
  | LDB_ERR_CONSTRAINT_VIOLATION
  | LDB_ERR_INVALID_ATTRIBUTE_SYNTAX
  | LDB_ERR_NO_SUCH_OBJECT
  | LDB_ERR_INVALID_DN_SYNTAX
  | LDB_ERR_UNWILLING_TO_PERFORM
  | LDB_ERR_NAMING_VIOLATION
  | LDB_ERR_OBJECT_CLASS_VIOLATION
  | LDB_ERR_OBJECT_CLASS_MODS_PROHIBITED
  | LDB_ERR_OTHER
  deriving DecidableEq, Repr

open ldb_err

/-- What running a piece of the C code does: it returns a value, it
dereferences a `NULL` pointer, or the loop budget of the model ran out. -/
inductive exec (α : Type) where
  | ret (a : α)
  | fault
  | out_of_fuel
  deriving DecidableEq, Repr

deriving instance DecidableEq for Except

/-- The largest value of a C `int` (32 bits). -/
def INT_MAX : Int := 2147483647

/-! ## Strings -/

/-- The characters of a string folded to lower case (ASCII), as the C library
compares them in `strcasecmp`. -/
def strlower (s : String) : List Char := s.data.map Char.toLower

/-- Modelled from the spec: `ldb_attr_cmp` (and `strcasecmp`) of the ldb
library, which is not part of the sources: the case-insensitive comparison of
two attribute or class names.  The callers only test the result against `0`,
so the model returns `0` for equal names and `1` otherwise. -/
def ldb_attr_cmp (a b : String) : Int := if strlower a = strlower b then 0 else 1

/-- Modelled from the spec: `strupper_talloc`, which is not part of the
sources: the string with every letter in upper case. -/
def strupper_talloc (s : String) : String := String.mk (s.data.map Char.toUpper)

/-! ## The schema view -/

/-- The fields of `struct dsdb_class` the module reads. -/
structure dsdb_class where
  lDAPDisplayName : String
  subClassOf : String
  subClass_order : Int
  isDefunct : Bool
  systemOnly : Bool
  rDNAttID : Option String
  defaultObjectCategory : String
  defaultHidingValue : Bool
  systemPossibleInferiors : List String
  objectClassCategory : Nat
  deriving DecidableEq, Repr

/-- The fields of `struct dsdb_attribute` the module reads. -/
structure dsdb_attribute where
  lDAPDisplayName : String
  systemFlags : Nat
  deriving DecidableEq, Repr

/-- A schema snapshot: the class and the attribute catalogue. -/
structure dsdb_schema where
  classes : List dsdb_class
  attributes : List dsdb_attribute
  deriving DecidableEq, Repr

/-- Modelled from the spec: `dsdb_class_by_lDAPDisplayName` (and its `_ldb_val`
variant) of the schema subsystem, which is not part of the sources:
`resolve_class(name) -> ClassRecord?`, the record of the catalogue whose name
is `name`, compared without regard to case. -/
def dsdb_class_by_lDAPDisplayName (schema : dsdb_schema) (name : String) : Option dsdb_class :=
  schema.classes.find? (fun c => ldb_attr_cmp c.lDAPDisplayName name == 0)

/-- Modelled from the spec: `dsdb_attribute_by_lDAPDisplayName` of the schema
subsystem, which is not part of the sources: `resolve_attribute(name) ->
AttributeRecord?`, the record of the catalogue whose name is `name`, compared
without regard to case. -/
def dsdb_attribute_by_lDAPDisplayName (schema : dsdb_schema) (name : String) :
    Option dsdb_attribute :=
  schema.attributes.find? (fun a => ldb_attr_cmp a.lDAPDisplayName name == 0)

/-! ## objectclass_sort -/

/-- A node of the `sorted` list: `struct class_list` without its links.  The
class pointer of the leading node is whatever the schema resolves `"top"` to,
`NULL` included. -/
structure class_list where
  objectclass : Option dsdb_class
  deriving DecidableEq, Repr

/-- Lines 131-154: every value is resolved; an unknown or defunct class ends
the call with `LDB_ERR_NO_SUCH_ATTRIBUTE`; a class other than `top` goes to the
end of `unsorted`. -/
def dump_values (class_by_name : String → Option dsdb_class) :
    List String → List dsdb_class → Except ldb_err (List dsdb_class)
  | [], unsorted => .ok unsorted
  | v :: values, unsorted =>
    match class_by_name v with
    | none => .error LDB_ERR_NO_SUCH_ATTRIBUTE
    | some c =>
      if c.isDefunct then .error LDB_ERR_NO_SUCH_ATTRIBUTE
      else if ldb_attr_cmp "top" c.lDAPDisplayName != 0 then
        dump_values class_by_name values (unsorted ++ [c])
      else dump_values class_by_name values unsorted

/-- Lines 164-168: the first node of `unsorted` whose name is `subClassOf`. -/
def find_poss_parent (unsorted : List dsdb_class) (subClassOf : String) : Option dsdb_class :=
  unsorted.find? (fun p => ldb_attr_cmp p.lDAPDisplayName subClassOf == 0)

/-- Lines 163-177: `current` walks `unsorted` (position `i`) while the list
grows at its end by the parents that are missing.  A parent name the schema
does not resolve puts a node with a `NULL` class at the end of the list; the
walk reaches it and its first comparison reads `current->objectclass->subClassOf`,
so the outcome is a fault. -/
def find_parent_chain (schema_present : Bool) (class_by_name : String → Option dsdb_class) :
    Nat → List dsdb_class → Nat → exec (List dsdb_class)
  | 0, _, _ => .out_of_fuel
  | fuel + 1, unsorted, i =>
    if !schema_present then .ret unsorted
    else
      match unsorted[i]? with
      | none => .ret unsorted
      | some current =>
        if (find_poss_parent unsorted current.subClassOf).isSome
            || ldb_attr_cmp "top" current.subClassOf == 0 then
          find_parent_chain schema_present class_by_name fuel unsorted (i + 1)
        else
          match class_by_name current.subClassOf with
          | none => .fault
          | some new_parent =>
            find_parent_chain schema_present class_by_name fuel (unsorted ++ [new_parent]) (i + 1)

/-- Lines 183-188: the scan for the node of lowest `subClass_order`; the result
is `current_lowest`, the position of the node and its class. -/
def scan_lowest : List dsdb_class → Nat → Int → Option (Nat × dsdb_class) →
    Option (Nat × dsdb_class)
  | [], _, _, current_lowest => current_lowest
  | current :: rest, pos, lowest, current_lowest =>
    if current.subClass_order < lowest then
      scan_lowest rest (pos + 1) current.subClass_order (some (pos, current))
    else scan_lowest rest (pos + 1) lowest current_lowest

/-- Lines 181-193, one pass of the body of the `do ... while`: the scan (which
runs only with a schema) and the move of `current_lowest` to the end of
`sorted`. -/
def select_pass (schema_present : Bool) (unsorted : List dsdb_class) (sorted : List class_list) :
    List dsdb_class × List class_list :=
  let current_lowest := if schema_present then scan_lowest unsorted 0 INT_MAX none else none
  match current_lowest with
  | some (pos, c) => (unsorted.eraseIdx pos, sorted ++ [⟨some c⟩])
  | none => (unsorted, sorted)

/-- Lines 179-194: `do { ... } while (unsorted);`. -/
def select_loop (schema_present : Bool) :
    Nat → List dsdb_class → List class_list → exec (List dsdb_class × List class_list)
  | 0, _, _ => .out_of_fuel
  | fuel + 1, unsorted, sorted =>
    let next := select_pass schema_present unsorted sorted
    if next.1.isEmpty then .ret next
    else select_loop schema_present fuel next.1 next.2

/-- Lines 89-215, `objectclass_sort`, over the two things it does with its
`schema` argument: testing it against `NULL` (`schema_present`) and handing it
to the class lookup (`class_by_name`).  Both come from the one pointer of the
call: `objectclass_sort` below is the call with a schema present, and
`objectclass_do_mod` makes the call with the pointer as fetched, the lookup
being `class_lookup` of that pointer. -/
def objectclass_sort_on (schema_present : Bool) (class_by_name : String → Option dsdb_class)
    (fuel : Nat) (values : List String) : exec (Except ldb_err (List class_list)) :=
  match dump_values class_by_name values [] with
  | .error e => .ret (.error e)
  | .ok unsorted =>
    let sorted : List class_list := [⟨class_by_name "top"⟩]
    match find_parent_chain schema_present class_by_name fuel unsorted 0 with
    | .fault => .fault
    | .out_of_fuel => .out_of_fuel
    | .ret unsorted =>
      match select_loop schema_present fuel unsorted sorted with
      | .fault => .fault
      | .out_of_fuel => .out_of_fuel
      | .ret (unsorted, sorted) =>
        if unsorted.isEmpty then .ret (.ok sorted)
        else if !schema_present then .ret (.ok (sorted ++ unsorted.map (fun c => ⟨some c⟩)))
        else .ret (.error LDB_ERR_OBJECT_CLASS_VIOLATION)

/-- The call `objectclass_sort(module, schema, mem_ctx, objectclass_element,
&sorted)` with a schema snapshot present; `values` are the values of
`objectclass_element`. -/
def objectclass_sort (schema : dsdb_schema) (fuel : Nat) (values : List String) :
    exec (Except ldb_err (List class_list)) :=
  objectclass_sort_on true (dsdb_class_by_lDAPDisplayName schema) fuel values

/-! ## Notions used to state the properties of the sorter -/

/-- What the class lookup has to satisfy for the sorter to make sense: the
record found carries the name asked for, and names that differ only in case
find the same record. -/
structure lookup_ok (class_by_name : String → Option dsdb_class) : Prop where
  name_eq : ∀ n c, class_by_name n = some c → strlower c.lDAPDisplayName = strlower n
  congr : ∀ n m, strlower n = strlower m → class_by_name n = class_by_name m

/-- The classes other than `top` that the values name, in input order. -/
def named_classes (class_by_name : String → Option dsdb_class) (values : List String) :
    List dsdb_class :=
  (values.filterMap class_by_name).filter (fun c => ldb_attr_cmp "top" c.lDAPDisplayName != 0)

/-- A value the first loop rejects: it does not resolve, or resolves to a
defunct class. -/
def bad_value (class_by_name : String → Option dsdb_class) (v : String) : Bool :=
  match class_by_name v with
  | none => true
  | some c => c.isDefunct

/-- The order the selection loop sorts by: `a` may stand before `b`. -/
def order_le (a b : dsdb_class) : Prop := a.subClass_order ≤ b.subClass_order

instance order_le_decidable : DecidableRel order_le :=
  fun a b => inferInstanceAs (Decidable (a.subClass_order ≤ b.subClass_order))

/-- The stable sort of a working list by `subClass_order`: records of equal
rank keep their order. -/
def sort_by_order (l : List dsdb_class) : List dsdb_class := l.insertionSort order_le

/-- The node of `sorted` that holds the class `c`. -/
def node (c : dsdb_class) : class_list := ⟨some c⟩

/-- The name of a class as the comparisons see it: folded to lower case. -/
def class_key (c : dsdb_class) : List Char := strlower c.lDAPDisplayName

/-- The parent named by `c` is `top`: the test `ldb_attr_cmp("top",
current->objectclass->subClassOf) == 0` of the parent-chain pass. -/
def top_parent (c : dsdb_class) : Prop := strlower "top" = strlower c.subClassOf

/-- Every record of `l` names `top` as its parent or has a record of `l` that
carries the name of its parent. -/
def parents_closed (l : List dsdb_class) : Prop :=
  ∀ e ∈ l, top_parent e ∨ ∃ p ∈ l, class_key p = strlower e.subClassOf

/-! ## Sample schemas -/

/-- A class record with the given name, parent name and rank; not defunct, not
system-only, without naming attribute, structural. -/
def plain_class (name parent : String) (order : Int) : dsdb_class :=
  { lDAPDisplayName := name, subClassOf := parent, subClass_order := order, isDefunct := false,
    systemOnly := false, rDNAttID := none, defaultObjectCategory := "", defaultHidingValue := false,
    systemPossibleInferiors := [], objectClassCategory := 1 }

/-- A small schema: `top`, `person` below it, `organizationalPerson` below
`person`, and `securityPrincipal`, a second child of `top` of the rank of
`person`. -/
def sample_schema : dsdb_schema :=
  { classes := [plain_class "top" "top" 0, plain_class "person" "top" 1,
      plain_class "organizationalPerson" "person" 2,
      plain_class "securityPrincipal" "top" 1],
    attributes := [] }

/-- A broken schema: `A` and `B` name each other as parent, so the ancestry of
neither reaches `top`. -/
def cycle_schema : dsdb_schema :=
  { classes := [plain_class "top" "top" 0, plain_class "A" "B" 1, plain_class "B" "A" 2],
    attributes := [] }

/-- A schema whose class `deep` has the rank `INT_MAX`. -/
def int_max_schema : dsdb_schema :=
  { classes := [plain_class "top" "top" 0, plain_class "deep" "top" INT_MAX],
    attributes := [] }

/-! ## Consistent schemas and ancestors -/

/-- A consistent schema: `top` resolves, and the parent name of every class
other than `top` resolves to a class of strictly lower rank.  (The ranks fall
along every ancestry, so every ancestry ends, and it can only end in `top`.) -/
def schema_consistent (schema : dsdb_schema) : Prop :=
  (dsdb_class_by_lDAPDisplayName schema "top").isSome = true ∧
  ∀ c ∈ schema.classes, class_key c ≠ strlower "top" →
    ∃ p ∈ dsdb_class_by_lDAPDisplayName schema c.subClassOf,
      p.subClass_order < c.subClass_order

instance schema_consistent_decidable (schema : dsdb_schema) :
    Decidable (schema_consistent schema) := by
  unfold schema_consistent; infer_instance

/-- Every rank of the schema is below `INT_MAX`, the start value of the scan. -/
def ranks_below_int_max (schema : dsdb_schema) : Prop :=
  ∀ c ∈ schema.classes, c.subClass_order < INT_MAX

instance ranks_below_int_max_decidable (schema : dsdb_schema) :
    Decidable (ranks_below_int_max schema) := by
  unfold ranks_below_int_max; infer_instance

/-- The class `a` is an ancestor of the class `c`: the parent of `c`, or an
ancestor of that parent; `top` has no ancestor. -/
inductive is_ancestor (schema : dsdb_schema) : dsdb_class → dsdb_class → Prop where
  | parent {c p : dsdb_class} : class_key c ≠ strlower "top" →
      dsdb_class_by_lDAPDisplayName schema c.subClassOf = some p → is_ancestor schema p c
  | step {c p a : dsdb_class} : class_key c ≠ strlower "top" →
      dsdb_class_by_lDAPDisplayName schema c.subClassOf = some p →
      is_ancestor schema a p → is_ancestor schema a c

/-- Every value names a class the schema knows and that is not defunct. -/
def values_known (schema : dsdb_schema) (values : List String) : Prop :=
  ∀ v ∈ values, bad_value (dsdb_class_by_lDAPDisplayName schema) v = false

instance values_known_decidable (schema : dsdb_schema) (values : List String) :
    Decidable (values_known schema values) := by
  unfold values_known; infer_instance

/-! ## Distinguished names -/

/-- A component of a distinguished name: attribute name and value. -/
structure ldb_dn_component where
  name : String
  value : String
  deriving DecidableEq, Repr

/-- Modelled from the spec: `struct ldb_dn` of the ldb library, which is not
part of the sources: a distinguished name is its sequence of components, the
leading (leftmost) one first, and the mark of the internal/control entries. -/
structure ldb_dn where
  special : Bool
  components : List ldb_dn_component
  deriving DecidableEq, Repr

/-- Modelled from the spec: `ldb_dn_is_special`: the name identifies an
internal/control entry. -/
def ldb_dn_is_special (dn : ldb_dn) : Bool := dn.special

/-- Modelled from the spec: `ldb_dn_get_comp_num`: the number of components. -/
def ldb_dn_get_comp_num (dn : ldb_dn) : Nat := dn.components.length

/-- Modelled from the spec: `ldb_dn_get_rdn_name`: the attribute name of the
leading component, `NULL` when the name has no component. -/
def ldb_dn_get_rdn_name (dn : ldb_dn) : Option String := dn.components.head?.map (·.name)

/-- Modelled from the spec: `ldb_dn_get_rdn_val`: the value of the leading
component, `NULL` when the name has no component. -/
def ldb_dn_get_rdn_val (dn : ldb_dn) : Option String := dn.components.head?.map (·.value)

/-- Modelled from the spec: `ldb_dn_copy`: a copy of the name. -/
def ldb_dn_copy (dn : ldb_dn) : ldb_dn := dn

/-- Modelled from the spec: `ldb_dn_add_child_fmt(dn, "X=X")`: the name with
the new leading component `name=value`; the result is the new `dn`, `none` if
the call returned `false` (it does not in the model). -/
def ldb_dn_add_child_fmt (dn : ldb_dn) (name value : String) : Option ldb_dn :=
  some { dn with components := ⟨name, value⟩ :: dn.components }

/-- Modelled from the spec: `ldb_dn_set_component(dn, num, name, val)`:
component `num` is replaced by `name=val`; `LDB_ERR_OTHER` when the name has no
such component. -/
def ldb_dn_set_component (dn : ldb_dn) (num : Nat) (name : String) (val : String) :
    ldb_err × ldb_dn :=
  if num < dn.components.length then
    (LDB_SUCCESS, { dn with components := dn.components.set num ⟨name, val⟩ })
  else (LDB_ERR_OTHER, dn)

/-- Modelled from the spec: `ldb_dn_get_linearized`: the components written
`name=value` and joined by commas. -/
def ldb_dn_get_linearized (dn : ldb_dn) : String :=
  ",".intercalate (dn.components.map (fun c => c.name ++ "=" ++ c.value))

/-- Modelled from the spec: `ldb_dn_compare` of the ldb library: `0` when the
two names have the same components, attribute names and values compared
without regard to case, and a non-zero value otherwise, also when one of the
names is `NULL`. -/
def ldb_dn_compare (dn0 dn1 : Option ldb_dn) : Int :=
  match dn0, dn1 with
  | some a, some b =>
    if a.components.map (fun c => (strlower c.name, strlower c.value))
        = b.components.map (fun c => (strlower c.name, strlower c.value)) then 0 else 1
  | _, _ => 1

/-! ## fix_dn -/

/-- Lines 304-342, `fix_dn`: the return code and `*fixed_dn`. -/
def fix_dn (newdn parent_dn : ldb_dn) : exec (ldb_err × ldb_dn) :=
  let fixed_dn := ldb_dn_copy parent_dn
  match (ldb_dn_get_rdn_name newdn).map strupper_talloc with
  | none => .ret (LDB_ERR_OPERATIONS_ERROR, fixed_dn)
  | some upper_rdn_attr =>
    match ldb_dn_add_child_fmt fixed_dn "X" "X" with
    | none => .ret (LDB_ERR_OPERATIONS_ERROR, fixed_dn)
    | some fixed_dn =>
      match ldb_dn_get_rdn_val newdn with
      | none => .fault
      | some rdn_val => .ret (ldb_dn_set_component fixed_dn 0 upper_rdn_attr rdn_val)

/-! ## Messages and fix_check_attributes -/

/-- An element of a message: `struct ldb_message_element`. -/
structure ldb_message_element where
  flags : Nat
  name : String
  values : List String
  deriving DecidableEq, Repr

/-- A message: `struct ldb_message`, the name of the entry and its elements in
order. -/
structure ldb_message where
  dn : ldb_dn
  elements : List ldb_message_element
  deriving DecidableEq, Repr

/-- The request types: `enum ldb_request_type`. -/
inductive ldb_request_type where
  | LDB_SEARCH
  | LDB_ADD
  | LDB_MODIFY
  | LDB_DELETE
  | LDB_RENAME
  | LDB_EXTENDED
  deriving DecidableEq, Repr

open ldb_request_type

/-- Modelled from the spec: `DS_FLAG_ATTR_IS_CONSTRUCTED` of
`libds/common/flags.h`, which is not part of the sources: the bit of an
attribute's `systemFlags` that marks a constructed attribute. -/
def DS_FLAG_ATTR_IS_CONSTRUCTED : Nat := 0x00000004

/-- Modelled from the spec: `strcasecmp` of the C library: `0` when the two
strings are equal without regard to case, non-zero otherwise. -/
def strcasecmp (a b : String) : Int := if strlower a = strlower b then 0 else 1

/-- Lines 351-375, the loop of `fix_check_attributes` over the elements: the
return code and the elements as the loop leaves them.  The elements before the
one that ends the loop have been renamed, the ones behind it are untouched. -/
def fix_check_elements (schema : dsdb_schema) (op : ldb_request_type) :
    List ldb_message_element → ldb_err × List ldb_message_element
  | [] => (LDB_SUCCESS, [])
  | el :: rest =>
    match dsdb_attribute_by_lDAPDisplayName schema el.name with
    | none =>
      if strcasecmp el.name "clearTextPassword" != 0 then
        (LDB_ERR_NO_SUCH_ATTRIBUTE, el :: rest)
      else
        let r := fix_check_elements schema op rest
        (r.1, el :: r.2)
    | some attr =>
      let el' := { el with name := attr.lDAPDisplayName }
      if attr.systemFlags &&& DS_FLAG_ATTR_IS_CONSTRUCTED != 0 then
        if op = LDB_ADD then (LDB_ERR_UNDEFINED_ATTRIBUTE_TYPE, el' :: rest)
        else (LDB_ERR_CONSTRAINT_VIOLATION, el' :: rest)
      else
        let r := fix_check_elements schema op rest
        (r.1, el' :: r.2)

/-- Lines 345-378, `fix_check_attributes`: the return code and the message,
whose element names the function rewrites in place. -/
def fix_check_attributes (schema : dsdb_schema) (msg : ldb_message) (op : ldb_request_type) :
    ldb_err × ldb_message :=
  let r := fix_check_elements schema op msg.elements
  (r.1, { msg with elements := r.2 })

/-- What one element does to the validation, as the specification has it: an
element whose name does not resolve and is not `clearTextPassword` yields
`LDB_ERR_NO_SUCH_ATTRIBUTE`; an element that resolves to a constructed
attribute yields `LDB_ERR_UNDEFINED_ATTRIBUTE_TYPE` for an add and
`LDB_ERR_CONSTRAINT_VIOLATION` for any other operation; every other element
is accepted. -/
def offence (schema : dsdb_schema) (op : ldb_request_type) (el : ldb_message_element) :
    Option ldb_err :=
  match dsdb_attribute_by_lDAPDisplayName schema el.name with
  | none => if strlower el.name = strlower "clearTextPassword" then none
      else some LDB_ERR_NO_SUCH_ATTRIBUTE
  | some a =>
    if a.systemFlags &&& DS_FLAG_ATTR_IS_CONSTRUCTED = 0 then none
    else if op = LDB_ADD then some LDB_ERR_UNDEFINED_ATTRIBUTE_TYPE
    else some LDB_ERR_CONSTRAINT_VIOLATION

/-- The parent of `CN=Users,DC=example,DC=com`, as components. -/
def users_dn : ldb_dn :=
  { special := false, components := [⟨"CN", "Users"⟩, ⟨"DC", "example"⟩, ⟨"DC", "com"⟩] }

/-- The proposed name `cn=Admins,cn=Users,dc=EXAMPLE,dc=com`, as components. -/
def admins_dn : ldb_dn :=
  { special := false,
    components := [⟨"cn", "Admins"⟩, ⟨"cn", "Users"⟩, ⟨"dc", "EXAMPLE"⟩, ⟨"dc", "com"⟩] }

/-! ## Message helpers -/

/-- The loop of `ldb_msg_find_element` from position `i` on. -/
def find_element_from (attr_name : String) :
    List ldb_message_element → Nat → Option (Nat × ldb_message_element)
  | [], _ => none
  | el :: rest, i =>
    if ldb_attr_cmp el.name attr_name == 0 then some (i, el)
    else find_element_from attr_name rest (i + 1)

/-- Modelled from the spec: `ldb_msg_find_element` of the ldb library, which is
not part of the sources: the first element of the message whose name is
`attr_name` (compared without regard to case), with its position; `NULL` when
there is none. -/
def ldb_msg_find_element (msg : ldb_message) (attr_name : String) :
    Option (Nat × ldb_message_element) :=
  find_element_from attr_name msg.elements 0

/-- Modelled from the spec: `ldb_msg_remove_element`: the message without the
element at the given position. -/
def ldb_msg_remove_element (msg : ldb_message) (pos : Nat) : ldb_message :=
  { msg with elements := msg.elements.eraseIdx pos }

/-- Modelled from the spec: `ldb_msg_remove_attr`: the message without its
element named `attr` (the one `ldb_msg_find_element` finds). -/
def ldb_msg_remove_attr (msg : ldb_message) (attr : String) : ldb_message :=
  match ldb_msg_find_element msg attr with
  | some (pos, _) => ldb_msg_remove_element msg pos
  | none => msg

/-- Modelled from the spec: `ldb_msg_add_empty`: a new element without values
at the end of the message. -/
def ldb_msg_add_empty (msg : ldb_message) (attr_name : String) (flags : Nat) : ldb_message :=
  { msg with elements := msg.elements ++ [⟨flags, attr_name, []⟩] }

/-- Modelled from the spec: `ldb_msg_add_string`: the value is appended to the
element named `attr_name`; the element is created at the end of the message
when there is none. -/
def ldb_msg_add_string (msg : ldb_message) (attr_name : String) (str : String) : ldb_message :=
  match ldb_msg_find_element msg attr_name with
  | some (pos, el) =>
    { msg with elements := msg.elements.set pos { el with values := el.values ++ [str] } }
  | none => { msg with elements := msg.elements ++ [⟨0, attr_name, [str]⟩] }

/-! ## The add transform -/

/-- What the add transform reads from the ldb context and the module, none of
which is part of the sources: the schema snapshot (`dsdb_get_schema`, `NULL`
before the schema is loaded), the root base DN (`ldb_get_root_basedn`), the
module's private `store_extended_dn_in_ldb` flag (`NULL` when the opaque is not
set), the reduction of a DN string to its bare form (`ldb_dn_new` followed by
`ldb_dn_alloc_linearized`), the C library's `strtol` and `%d` formatting, and
`ldb_msg_sanity_check`. -/
structure ldb_context where
  schema : Option dsdb_schema
  root_basedn : Option ldb_dn
  dn_format : Option Bool
  strip_extended : String → Option String
  strtol : String → Int
  format_int : Int → String
  ldb_msg_sanity_check : ldb_message → ldb_err

/-- An entry reply of a search: `struct ldb_reply` of type `LDB_REPLY_ENTRY`. -/
structure ldb_reply where
  message : Option ldb_message
  deriving DecidableEq, Repr

/-- A request: `struct ldb_request`, with the members of `op` the module reads
and the OIDs of the controls. -/
structure ldb_request where
  operation : ldb_request_type
  message : ldb_message
  olddn : ldb_dn
  newdn : ldb_dn
  controls : List String
  deriving DecidableEq, Repr

/-- The OID of the relax control: `LDB_CONTROL_RELAX_OID`. -/
def LDB_CONTROL_RELAX_OID : String := "1.3.6.1.4.1.4203.666.5.12"

/-- Modelled from the spec: `ldb_request_get_control`: the request carries the
control. -/
def ldb_request_get_control (req : ldb_request) (oid : String) : Bool := req.controls.contains oid

/-- The per-request context: `struct oc_context` (the module and the step
function are fixed by the caller). -/
structure oc_context where
  req : ldb_request
  search_res : Option ldb_reply
  deriving DecidableEq, Repr

/-- How a step of the module ends: it returns a code and sends nothing down,
or it ends in `ldb_next_request` with the request it built. -/
inductive oc_result where
  | done (ret : ldb_err)
  | next_request (req : ldb_request)
  deriving DecidableEq, Repr

/-- Modelled from the spec: the structural kind of a class:
`objectClassCategory` 1. -/
def is_structural (c : dsdb_class) : Bool := c.objectClassCategory == 1

/-- Modelled from the spec: `get_last_structural_class` of the module
utilities, which are not part of the sources: the most specific structural
class of the chain, that is the last value of the element that resolves to a
class of structural kind. -/
def get_last_structural_class (schema : dsdb_schema) (element : ldb_message_element) :
    Option dsdb_class :=
  ((element.values.filterMap (dsdb_class_by_lDAPDisplayName schema)).filter is_structural).getLast?

/-- Modelled from the spec: the `systemFlags` bits of `libds/common/flags.h`,
which is not part of the sources. -/
def SYSTEM_FLAG_ATTR_IS_RDN : Nat := 0x00000020

/-- Modelled from the spec: see `SYSTEM_FLAG_ATTR_IS_RDN`. -/
def SYSTEM_FLAG_DISALLOW_MOVE_ON_DELETE : Nat := 0x02000000

/-- Modelled from the spec: see `SYSTEM_FLAG_ATTR_IS_RDN`. -/
def SYSTEM_FLAG_CONFIG_ALLOW_LIMITED_MOVE : Nat := 0x10000000

/-- Modelled from the spec: see `SYSTEM_FLAG_ATTR_IS_RDN`. -/
def SYSTEM_FLAG_CONFIG_ALLOW_RENAME : Nat := 0x40000000

/-- The bit pattern of an `int32_t`: the value modulo `2^32`. -/
def to_int32_bits (v : Int) : Nat := (v % 4294967296).toNat

/-- The value of an `int32_t` bit pattern. -/
def of_int32_bits (n : Nat) : Int := if n < 2147483648 then n else (n : Int) - 4294967296

/-- Modelled from the spec: `ldb_msg_find_attr_as_int`: the first value of the
element read by `strtol`, as the bit pattern of the `int` returned; the
default when the message has no such element or the element no value. -/
def ldb_msg_find_attr_as_int (ldb : ldb_context) (msg : ldb_message) (attr_name : String)
    (default_value : Nat) : Nat :=
  match ldb_msg_find_element msg attr_name with
  | some (_, el) =>
    match el.values.head? with
    | some v => to_int32_bits (ldb.strtol v)
    | none => default_value
  | none => default_value

/-- Modelled from the spec: `samdb_msg_add_int`: the integer, printed with
`%d`, is added as a string value. -/
def samdb_msg_add_int (ldb : ldb_context) (msg : ldb_message) (attr_name : String) (v : Nat) :
    ldb_message :=
  ldb_msg_add_string msg attr_name (ldb.format_int (of_int32_bits v))

/-- Lines 527-542: the class names of the sorted list are added, in order, as
values of `objectClass`; reading the name through a `NULL` class is a
fault. -/
def add_sorted_classes : List class_list → ldb_message → exec ldb_message
  | [], msg => .ret msg
  | current :: rest, msg =>
    match current.objectclass with
    | none => .fault
    | some c => add_sorted_classes rest (ldb_msg_add_string msg "objectClass" c.lDAPDisplayName)

/-- Lines 580-593: the scan of `systemPossibleInferiors` of one class of the
parent.  The source has the scan twice, with and without the relax control. -/
def inferiors_allow (objectclass sclass : dsdb_class) : Bool :=
  sclass.systemPossibleInferiors.any (fun inf => ldb_attr_cmp objectclass.lDAPDisplayName inf == 0)

/-- Lines 569-594: the loop over the `objectClass` values of the parent entry;
the result is `allowed_class`. -/
def allowed_class_loop (schema : dsdb_schema) (relax : Bool) (objectclass : dsdb_class) :
    List String → Bool
  | [] => false
  | v :: values =>
    match dsdb_class_by_lDAPDisplayName schema v with
    | none => allowed_class_loop schema relax objectclass values
    | some sclass =>
      if relax then
        if inferiors_allow objectclass sclass then true
        else allowed_class_loop schema relax objectclass values
      else
        if inferiors_allow objectclass sclass then true
        else allowed_class_loop schema relax objectclass values

/-- Lines 643-658: the fixed `systemFlags` bits of the structural class. -/
def class_systemFlags (objectclass : dsdb_class) (systemFlags : Nat) : Nat :=
  let systemFlags :=
    if ldb_attr_cmp objectclass.lDAPDisplayName "attributeSchema" == 0 then
      systemFlags &&& (0xFFFFFFFF ^^^ SYSTEM_FLAG_ATTR_IS_RDN)
    else systemFlags
  if ldb_attr_cmp objectclass.lDAPDisplayName "server" == 0 then
    systemFlags ||| (SYSTEM_FLAG_DISALLOW_MOVE_ON_DELETE ||| SYSTEM_FLAG_CONFIG_ALLOW_RENAME
      ||| SYSTEM_FLAG_CONFIG_ALLOW_LIMITED_MOVE)
  else if ldb_attr_cmp objectclass.lDAPDisplayName "site" == 0
      || ldb_attr_cmp objectclass.lDAPDisplayName "serverContainer" == 0
      || ldb_attr_cmp objectclass.lDAPDisplayName "ntDSDSA" == 0 then
    systemFlags ||| SYSTEM_FLAG_DISALLOW_MOVE_ON_DELETE
  else if ldb_attr_cmp objectclass.lDAPDisplayName "siteLink" == 0
      || ldb_attr_cmp objectclass.lDAPDisplayName "siteLinkBridge" == 0
      || ldb_attr_cmp objectclass.lDAPDisplayName "nTDSConnection" == 0 then
    systemFlags ||| SYSTEM_FLAG_CONFIG_ALLOW_RENAME
  else systemFlags

/-- Lines 609-625: the default `objectCategory`; a `NULL` value ends the
transform with `LDB_ERR_OPERATIONS_ERROR`. -/
def add_objectCategory (ldb : ldb_context) (objectclass : dsdb_class) (msg : ldb_message) :
    Except ldb_err ldb_message :=
  if (ldb_msg_find_element msg "objectCategory").isNone then
    let value :=
      if ldb.dn_format = some false then ldb.strip_extended objectclass.defaultObjectCategory
      else some objectclass.defaultObjectCategory
    match value with
    | none => .error LDB_ERR_OPERATIONS_ERROR
    | some value => .ok (ldb_msg_add_string msg "objectCategory" value)
  else .ok msg

/-- Lines 626-629: the default `showInAdvancedViewOnly`. -/
def add_showInAdvancedViewOnly (objectclass : dsdb_class) (msg : ldb_message) : ldb_message :=
  if (ldb_msg_find_element msg "showInAdvancedViewOnly").isNone
      && objectclass.defaultHidingValue == true then
    ldb_msg_add_string msg "showInAdvancedViewOnly" "TRUE"
  else msg

/-- Lines 631-664: the `systemFlags` of the new entry. -/
def add_systemFlags (ldb : ldb_context) (objectclass : dsdb_class) (msg : ldb_message) :
    ldb_message :=
  let el := ldb_msg_find_element msg "systemFlags"
  let systemFlags := ldb_msg_find_attr_as_int ldb msg "systemFlags" 0
  let msg :=
    match el with
    | some (pos, _) => ldb_msg_remove_element msg pos
    | none => msg
  let systemFlags := class_systemFlags objectclass systemFlags
  if el.isSome || systemFlags != 0 then samdb_msg_add_int ldb msg "systemFlags" systemFlags
  else msg

/-- Lines 609-664: the defaults and the `systemFlags`. -/
def add_defaults (ldb : ldb_context) (objectclass : dsdb_class) (msg : ldb_message) :
    Except ldb_err ldb_message :=
  match add_objectCategory ldb objectclass msg with
  | .error ret => .error ret
  | .ok msg => .ok (add_systemFlags ldb objectclass (add_showInAdvancedViewOnly objectclass msg))

/-- Lines 501-545: the `objectClass` element is replaced by one that holds the
sorted chain. -/
def rebuild_objectclass (schema : dsdb_schema) (fuel : Nat) (msg : ldb_message) :
    exec (Except ldb_err ldb_message) :=
  match ldb_msg_find_element msg "objectClass" with
  | none => .ret (.error LDB_ERR_OPERATIONS_ERROR)
  | some (_, objectclass_element) =>
    match objectclass_sort schema fuel objectclass_element.values with
    | .fault => .fault
    | .out_of_fuel => .out_of_fuel
    | .ret (.error ret) => .ret (.error ret)
    | .ret (.ok sorted) =>
      let msg := ldb_msg_remove_attr msg "objectClass"
      let msg := ldb_msg_add_empty msg "objectClass" 0
      match add_sorted_classes sorted msg with
      | .fault => .fault
      | .out_of_fuel => .out_of_fuel
      | .ret msg => .ret (.ok msg)

/-- Lines 556-563: the RDN attribute of the entry against the `rDNAttID` of the
structural class; the result is true when the check fails.  Comparing a `NULL`
RDN name is a fault. -/
def rdn_mismatch (objectclass : dsdb_class) (rdn_name : Option String) : exec Bool :=
  match objectclass.rDNAttID with
  | none => .ret false
  | some rDNAttID =>
    match rdn_name with
    | none => .fault
    | some rdn_name => .ret (ldb_attr_cmp rdn_name rDNAttID != 0)

/-- Lines 565-601: the allowed-child check; the result is true when the check
fails.  Without a parent entry there is no check. -/
def child_not_allowed (schema : dsdb_schema) (ac : oc_context) (objectclass : dsdb_class) :
    Bool :=
  match ac.search_res with
  | none => false
  | some res =>
    match res.message with
    | none => false
    | some parent =>
      match ldb_msg_find_element parent "objectClass" with
      | some (_, oc_el) =>
        !allowed_class_loop schema (ldb_request_get_control ac.req LDB_CONTROL_RELAX_OID)
          objectclass oc_el.values
      | none => true

/-- Lines 547-607: the policy checks on the rebuilt message; they end with an
error code or with the structural class. -/
def check_structural_class (schema : dsdb_schema) (ac : oc_context) (msg : ldb_message) :
    exec (Except ldb_err dsdb_class) :=
  match ldb_msg_find_element msg "objectClass" with
  | none => .fault
  | some (_, objectclass_element) =>
    match get_last_structural_class schema objectclass_element with
    | none => .ret (.error LDB_ERR_NAMING_VIOLATION)
    | some objectclass =>
      match rdn_mismatch objectclass (ldb_dn_get_rdn_name msg.dn) with
      | .fault => .fault
      | .out_of_fuel => .out_of_fuel
      | .ret true => .ret (.error LDB_ERR_NAMING_VIOLATION)
      | .ret false =>
        if child_not_allowed schema ac objectclass then .ret (.error LDB_ERR_NAMING_VIOLATION)
        else if objectclass.systemOnly
            && !ldb_request_get_control ac.req LDB_CONTROL_RELAX_OID then
          .ret (.error LDB_ERR_UNWILLING_TO_PERFORM)
        else .ret (.ok objectclass)

/-- Lines 494-665: the part of the add transform that runs with a schema; it
ends with an error code or with the rebuilt message. -/
def do_add_with_schema (ldb : ldb_context) (schema : dsdb_schema) (ac : oc_context)
    (fuel : Nat) (msg : ldb_message) : exec (Except ldb_err ldb_message) :=
  match fix_check_attributes schema msg ac.req.operation with
  | (ret, msg) =>
    if ret ≠ LDB_SUCCESS then .ret (.error ret)
    else
      match rebuild_objectclass schema fuel msg with
      | .fault => .fault
      | .out_of_fuel => .out_of_fuel
      | .ret (.error ret) => .ret (.error ret)
      | .ret (.ok msg) =>
        match check_structural_class schema ac msg with
        | .fault => .fault
        | .out_of_fuel => .out_of_fuel
        | .ret (.error ret) => .ret (.error ret)
        | .ret (.ok objectclass) => .ret (add_defaults ldb objectclass msg)

/-- Lines 439-686, `objectclass_do_add`. -/
def objectclass_do_add (ldb : ldb_context) (ac : oc_context) (fuel : Nat) : exec oc_result :=
  let schema := ldb.schema
  let msg := ac.req.message
  let parent_checked : exec (Except ldb_err ldb_message) :=
    match ac.search_res with
    | none =>
      if ldb_dn_compare ldb.root_basedn (some msg.dn) = 0 then .ret (.ok msg)
      else .ret (.error LDB_ERR_NO_SUCH_OBJECT)
    | some res =>
      match res.message with
      | none => .fault
      | some parent =>
        match fix_dn ac.req.message.dn parent.dn with
        | .fault => .fault
        | .out_of_fuel => .out_of_fuel
        | .ret (ret, fixed_dn) =>
          if ret ≠ LDB_SUCCESS then .ret (.error ret)
          else .ret (.ok { msg with dn := fixed_dn })
  match parent_checked with
  | .fault => .fault
  | .out_of_fuel => .out_of_fuel
  | .ret (.error ret) => .ret (.done ret)
  | .ret (.ok msg) =>
    let transformed : exec (Except ldb_err ldb_message) :=
      match schema with
      | some schema => do_add_with_schema ldb schema ac fuel msg
      | none => .ret (.ok msg)
    match transformed with
    | .fault => .fault
    | .out_of_fuel => .out_of_fuel
    | .ret (.error ret) => .ret (.done ret)
    | .ret (.ok msg) =>
      let ret := ldb.ldb_msg_sanity_check msg
      if ret ≠ LDB_SUCCESS then .ret (.done ret)
      else .ret (.next_request { ac.req with operation := LDB_ADD, message := msg })

/-! ## A sample directory -/

/-- A schema for the add transform: the abstract class `top`, the structural
classes `person`, `organizationalPerson` and `container`, of which `container`
allows `organizationalPerson` and `container` below it, and a few attributes,
`canonicalName` being constructed. -/
def directory_schema : dsdb_schema :=
  { classes := [{ plain_class "top" "top" 0 with objectClassCategory := 2 },
      plain_class "person" "top" 1,
      plain_class "organizationalPerson" "person" 2,
      { plain_class "container" "top" 1 with
        systemPossibleInferiors := ["organizationalPerson", "container"] }],
    attributes := [⟨"objectClass", 0⟩, ⟨"cn", 0⟩, ⟨"sn", 0⟩, ⟨"systemFlags", 0⟩,
      ⟨"objectCategory", 0⟩, ⟨"canonicalName", 4⟩] }

/-- A context with the sample schema; the external functions are the simplest
ones. -/
def directory_ldb : ldb_context :=
  { schema := some directory_schema,
    root_basedn := some { special := false, components := [⟨"DC", "example"⟩, ⟨"DC", "com"⟩] },
    dn_format := none,
    strip_extended := fun s => some s,
    strtol := fun _ => 0,
    format_int := fun _ => "0",
    ldb_msg_sanity_check := fun _ => LDB_SUCCESS }

/-- The add of `cn=Admins,cn=Users,dc=EXAMPLE,dc=com` with the classes
`person`, `top`, `organizationalPerson`, the parent `CN=Users,DC=example,DC=com`
having been found as a `container`. -/
def admins_add : oc_context :=
  { req :=
      { operation := LDB_ADD,
        message :=
          { dn := admins_dn,
            elements := [⟨0, "objectclass", ["person", "top", "organizationalPerson"]⟩,
              ⟨0, "CN", ["Admins"]⟩] },
        olddn := ⟨false, []⟩, newdn := ⟨false, []⟩, controls := [] },
    search_res := some
      { message := some { dn := users_dn, elements := [⟨0, "objectClass", ["top", "container"]⟩] } } }

/-- A message whose attribute names are not in canonical case, with the
pseudo-attribute `clearTextPassword`. -/
def password_message : ldb_message :=
  { dn := admins_dn,
    elements := [⟨0, "OBJECTCLASS", ["person"]⟩, ⟨0, "Cn", ["Admins"]⟩,
      ⟨0, "cleartextpassword", ["secret"]⟩] }

/-- The element carries the attribute name, compared without regard to case:
the test of `ldb_msg_find_element`. -/
def is_named (attr_name : String) (el : ldb_message_element) : Bool :=
  ldb_attr_cmp el.name attr_name == 0

/-- Two elements that differ at most in the case of the letters of their
names. -/
def same_element (el el' : ldb_message_element) : Prop :=
  strlower el'.name = strlower el.name ∧ el'.values = el.values ∧ el'.flags = el.flags

/-- The request the add transform forwards for `admins_add`: the name
normalised against the parent, the attribute names in canonical case, the
classes sorted, the default `objectCategory` of the sample class, and no
`systemFlags`. -/
def admins_add_forwarded : ldb_request :=
  { operation := LDB_ADD,
    message :=
      { dn := { special := false,
                components := [⟨"CN", "Admins"⟩, ⟨"CN", "Users"⟩, ⟨"DC", "example"⟩,
                  ⟨"DC", "com"⟩] },
        elements := [⟨0, "cn", ["Admins"]⟩,
          ⟨0, "objectClass", ["top", "person", "organizationalPerson"]⟩,
          ⟨0, "objectCategory", [""]⟩] },
    olddn := ⟨false, []⟩, newdn := ⟨false, []⟩, controls := [] }

/-! ## The stages of the add transform -/

/-- Lines 464-493 of `objectclass_do_add`: the check for a parent; it ends with
an error code or with the message whose DN is settled (the supplied DN when
the entry is the root of the tree, the DN fixed against the parent
otherwise). -/
def check_parent (ldb : ldb_context) (ac : oc_context) : exec (Except ldb_err ldb_message) :=
  match ac.search_res with
  | none =>
    if ldb_dn_compare ldb.root_basedn (some ac.req.message.dn) = 0 then .ret (.ok ac.req.message)
    else .ret (.error LDB_ERR_NO_SUCH_OBJECT)
  | some res =>
    match res.message with
    | none => .fault
    | some parent =>
      match fix_dn ac.req.message.dn parent.dn with
      | .fault => .fault
      | .out_of_fuel => .out_of_fuel
      | .ret (ret, fixed_dn) =>
        if ret ≠ LDB_SUCCESS then .ret (.error ret)
        else .ret (.ok { ac.req.message with dn := fixed_dn })

/-- Lines 667-686 of `objectclass_do_add`: the sanity check of the message and
the add request sent down. -/
def finish_add (ldb : ldb_context) (ac : oc_context) (msg : ldb_message) : oc_result :=
  if ldb.ldb_msg_sanity_check msg ≠ LDB_SUCCESS then .done (ldb.ldb_msg_sanity_check msg)
  else .next_request { ac.req with operation := LDB_ADD, message := msg }

/-- Lines 494-686 of `objectclass_do_add`: what the transform does with the
message once the check for a parent is passed. -/
def do_add_transform (ldb : ldb_context) (ac : oc_context) (fuel : Nat) (msg : ldb_message) :
    exec oc_result :=
  match (match ldb.schema with
      | some schema => do_add_with_schema ldb schema ac fuel msg
      | none => exec.ret (Except.ok msg)) with
  | .fault => .fault
  | .out_of_fuel => .out_of_fuel
  | .ret (.error ret) => .ret (.done ret)
  | .ret (.ok msg) => .ret (finish_add ldb ac msg)

/-- The add has passed the check for a parent, the attribute validation and
the sorting of its classes, and `msg` is the message with the `objectClass`
element rebuilt: the policy checks of lines 547-607 are next. -/
def add_reaches_checks (ldb : ldb_context) (schema : dsdb_schema) (ac : oc_context)
    (fuel : Nat) (msg : ldb_message) : Prop :=
  ∃ msg0 msg1, check_parent ldb ac = .ret (.ok msg0) ∧
    fix_check_attributes schema msg0 ac.req.operation = (LDB_SUCCESS, msg1) ∧
    rebuild_objectclass schema fuel msg1 = .ret (.ok msg)

/-- Lines 603-607 of `objectclass_do_add`, and what follows a structural class
that passed them: the gate for system-only classes, then the defaults, the
sanity check and the request sent down. -/
def system_only_gate (ldb : ldb_context) (ac : oc_context) (objectclass : dsdb_class)
    (msg : ldb_message) : oc_result :=
  if objectclass.systemOnly && !ldb_request_get_control ac.req LDB_CONTROL_RELAX_OID then
    .done LDB_ERR_UNWILLING_TO_PERFORM
  else
    match add_defaults ldb objectclass msg with
    | .error ret => .done ret
    | .ok msg => finish_add ldb ac msg

/-- Lines 565-607 of `objectclass_do_add`, and what follows: the allowed-child
check, then the gate for system-only classes. -/
def allowed_child_gate (ldb : ldb_context) (schema : dsdb_schema) (ac : oc_context)
    (objectclass : dsdb_class) (msg : ldb_message) : oc_result :=
  if child_not_allowed schema ac objectclass then .done LDB_ERR_NAMING_VIOLATION
  else system_only_gate ldb ac objectclass msg

/-! ## The entry points -/

/-- The completion callback a request sent down carries: the one of the
original request (the request is passed on untouched), `oc_op_callback`, or
`oc_modify_callback`. -/
inductive oc_callback where
  | original
  | oc_op_callback
  | oc_modify_callback
  deriving DecidableEq, Repr

/-- The step function a context resumes with: `ac->step_fn`. -/
inductive oc_step_fn where
  | objectclass_do_add
  | objectclass_do_mod
  | objectclass_do_rename
  deriving DecidableEq, Repr

/-- What an entry point or a callback of the module does: it returns a code
and sends nothing down; it sends a write request down (`ldb_next_request`)
with a completion callback; or it sends down a search for one entry (scope
`LDB_SCOPE_BASE`, filter `(objectClass=*)`) with `get_search_callback` as
callback and a step function to resume with. -/
inductive oc_action where
  | done (ret : ldb_err)
  | next_request (req : ldb_request) (callback : oc_callback)
  | search (base : ldb_dn) (attrs : List String) (controls : List String)
      (step_fn : oc_step_fn)
  deriving DecidableEq, Repr

/-- The action of a step that ran to its end: the request it sent down
carries `oc_op_callback`. -/
def step_action : oc_result → oc_action
  | .done ret => .done ret
  | .next_request req => .next_request req .oc_op_callback

/-- Modelled from the spec: `ldb_dn_get_parent` of the ldb library: the name
without its leading component, `NULL` when the name has no component. -/
def ldb_dn_get_parent (dn : ldb_dn) : Option ldb_dn :=
  match dn.components with
  | [] => none
  | _ :: rest => some { dn with components := rest }

/-- Lines 382-437, `objectclass_add`. -/
def objectclass_add (ldb : ldb_context) (req : ldb_request) (fuel : Nat) : exec oc_action :=
  if ldb_dn_is_special req.message.dn then .ret (.next_request req .original)
  else if (ldb_msg_find_element req.message "objectClass").isNone then
    .ret (.done LDB_ERR_OBJECT_CLASS_VIOLATION)
  else
    let ac : oc_context := { req := req, search_res := none }
    if ldb_dn_get_comp_num ac.req.message.dn = 1 then
      match objectclass_do_add ldb ac fuel with
      | .fault => .fault
      | .out_of_fuel => .out_of_fuel
      | .ret r => .ret (step_action r)
    else
      match ldb_dn_get_parent ac.req.message.dn with
      | none => .ret (.done LDB_ERR_OPERATIONS_ERROR)
      | some parent_dn =>
        .ret (.search parent_dn ["objectGUID", "objectClass"] [] .objectclass_do_add)

/-- Modelled from the spec: the modification flags of `ldb.h`, which is not
part of the sources: `LDB_FLAG_MOD_MASK`. -/
def LDB_FLAG_MOD_MASK : Nat := 0x3

/-- Modelled from the spec: see `LDB_FLAG_MOD_MASK`. -/
def LDB_FLAG_MOD_ADD : Nat := 1

/-- Modelled from the spec: see `LDB_FLAG_MOD_MASK`. -/
def LDB_FLAG_MOD_REPLACE : Nat := 2

/-- Modelled from the spec: see `LDB_FLAG_MOD_MASK`. -/
def LDB_FLAG_MOD_DELETE : Nat := 3

/-- Lines 735-757 of `objectclass_modify`: the modification does not touch
`objectClass`; the attribute names are validated and the modification is sent
down. -/
def modify_without_objectclass (schema : dsdb_schema) (req : ldb_request) : oc_action :=
  match fix_check_attributes schema req.message req.operation with
  | (ret, msg) =>
    if ret ≠ LDB_SUCCESS then .done ret
    else .next_request { req with operation := LDB_MODIFY, message := msg } .oc_op_callback

/-- Lines 766-840 of `objectclass_modify`, the case `LDB_FLAG_MOD_REPLACE`: the
attribute names are validated, the values of the `objectClass` element are
sorted and the element is rebuilt as a replace of the sorted chain. -/
def modify_replace (ldb : ldb_context) (schema : dsdb_schema) (req : ldb_request) (fuel : Nat)
    (objectclass_element : ldb_message_element) : exec oc_action :=
  match fix_check_attributes schema req.message req.operation with
  | (ret, msg) =>
    if ret ≠ LDB_SUCCESS then .ret (.done ret)
    else
      match objectclass_sort schema fuel objectclass_element.values with
      | .fault => .fault
      | .out_of_fuel => .out_of_fuel
      | .ret (.error ret) => .ret (.done ret)
      | .ret (.ok sorted) =>
        let msg := ldb_msg_remove_attr msg "objectClass"
        let msg := ldb_msg_add_empty msg "objectClass" LDB_FLAG_MOD_REPLACE
        match add_sorted_classes sorted msg with
        | .fault => .fault
        | .out_of_fuel => .out_of_fuel
        | .ret msg =>
          if ldb.ldb_msg_sanity_check msg ≠ LDB_SUCCESS then
            .ret (.done (ldb.ldb_msg_sanity_check msg))
          else
            .ret (.next_request { req with operation := LDB_MODIFY, message := msg }
              .oc_op_callback)

/-- Lines 843-869 of `objectclass_modify`, "in any other case": the attribute
names are validated and the modification is sent down with
`oc_modify_callback`. -/
def modify_other (schema : dsdb_schema) (req : ldb_request) : oc_action :=
  match fix_check_attributes schema req.message req.operation with
  | (ret, msg) =>
    if ret ≠ LDB_SUCCESS then .done ret
    else .next_request { req with operation := LDB_MODIFY, message := msg } .oc_modify_callback

/-- Lines 692-870, `objectclass_modify`. -/
def objectclass_modify (ldb : ldb_context) (req : ldb_request) (fuel : Nat) : exec oc_action :=
  if ldb_dn_is_special req.message.dn then .ret (.next_request req .original)
  else
    match ldb.schema with
    | none => .ret (.next_request req .original)
    | some schema =>
      if req.message.elements.length = 0 then .ret (.done LDB_ERR_UNWILLING_TO_PERFORM)
      else
        match ldb_msg_find_element req.message "objectClass" with
        | none => .ret (modify_without_objectclass schema req)
        | some (_, objectclass_element) =>
          if objectclass_element.flags &&& LDB_FLAG_MOD_MASK = LDB_FLAG_MOD_DELETE then
            if objectclass_element.values.length = 0 then
              .ret (.done LDB_ERR_OBJECT_CLASS_MODS_PROHIBITED)
            else .ret (modify_other schema req)
          else if objectclass_element.flags &&& LDB_FLAG_MOD_MASK = LDB_FLAG_MOD_REPLACE then
            modify_replace ldb schema req fuel objectclass_element
          else .ret (modify_other schema req)

/-- The kinds of reply: `enum ldb_reply_type`. -/
inductive ldb_reply_type where
  | LDB_REPLY_ENTRY
  | LDB_REPLY_REFERRAL
  | LDB_REPLY_DONE
  deriving DecidableEq, Repr

/-- A reply as a callback receives it (`ares`): its error code, its kind, the
entry it carries, and its controls and response, which the module only passes
on. -/
structure ldb_ares where
  error : ldb_err
  type : ldb_reply_type
  message : Option ldb_message
  controls : List String
  response : Option String
  deriving DecidableEq, Repr

/-- What a callback does with a reply: it ends the operation with
`ldb_module_done` (code, controls and response handed to the caller of the
module), or it goes on with an action of the module. -/
inductive oc_reply_action where
  | module_done (controls : List String) (response : Option String) (error : ldb_err)
  | go_on (action : oc_action)
  deriving DecidableEq, Repr

/-- Lines 872-917, `oc_modify_callback`: the completion of the modification
that `objectclass_modify` sent down "in any other case".  A failure is handed
to the caller; after a success the entry is looked up for its `objectClass`,
with `objectclass_do_mod` as the step to resume with. -/
def oc_modify_callback (ac : oc_context) (ares : Option ldb_ares) : oc_reply_action :=
  match ares with
  | none => .module_done [] none LDB_ERR_OPERATIONS_ERROR
  | some ares =>
    if ares.error ≠ LDB_SUCCESS then .module_done ares.controls ares.response ares.error
    else if ares.type ≠ .LDB_REPLY_DONE then .module_done [] none LDB_ERR_OPERATIONS_ERROR
    else .go_on (.search ac.req.message.dn ["objectClass"] [] .objectclass_do_mod)

/-- Lines 267-290, `oc_op_callback`: the completion of a request the module
sent down as its last: the reply is handed to the caller. -/
def oc_op_callback (ares : Option ldb_ares) : oc_reply_action :=
  match ares with
  | none => .module_done [] none LDB_ERR_OPERATIONS_ERROR
  | some ares =>
    if ares.error ≠ LDB_SUCCESS then .module_done ares.controls ares.response ares.error
    else if ares.type ≠ .LDB_REPLY_DONE then .module_done [] none LDB_ERR_OPERATIONS_ERROR
    else .module_done ares.controls ares.response ares.error

/-! ## A sample directory with naming rules -/

/-- The digits at the head of a text, read as a decimal number. -/
def read_digits : List Char → Nat → Nat
  | [], acc => acc
  | c :: rest, acc => if c.isDigit then read_digits rest (acc * 10 + (c.toNat - 48)) else acc

/-- A `strtol` for decimal texts: an optional minus sign and digits. -/
def decimal_strtol (s : String) : Int :=
  match s.data with
  | '-' :: rest => -(read_digits rest 0 : Int)
  | cs => (read_digits cs 0 : Int)

/-- The `%d` text of an integer. -/
def decimal_format (v : Int) : String := toString v

/-- A schema with naming rules: `organizationalPerson` is named by `cn`,
`container` allows `organizationalPerson`, `container` and `crossRefContainer`
below it, and `crossRefContainer` is system-only. -/
def policy_schema : dsdb_schema :=
  { classes := [{ plain_class "top" "top" 0 with objectClassCategory := 2 },
      plain_class "person" "top" 1,
      { plain_class "organizationalPerson" "person" 2 with rDNAttID := some "cn" },
      { plain_class "container" "top" 1 with
        systemPossibleInferiors := ["organizationalPerson", "container", "crossRefContainer"] },
      { plain_class "crossRefContainer" "top" 1 with systemOnly := true }],
    attributes := [⟨"objectClass", 0⟩, ⟨"cn", 0⟩, ⟨"ou", 0⟩, ⟨"systemFlags", 0⟩,
      ⟨"objectCategory", 0⟩] }

/-- A context with the schema `policy_schema` and decimal numbers. -/
def policy_ldb : ldb_context :=
  { schema := some policy_schema,
    root_basedn := some { special := false, components := [⟨"DC", "example"⟩, ⟨"DC", "com"⟩] },
    dn_format := none,
    strip_extended := fun s => some s,
    strtol := decimal_strtol,
    format_int := decimal_format,
    ldb_msg_sanity_check := fun _ => LDB_SUCCESS }

/-- The add of `admins_add` when the lookup of the parent found no entry. -/
def orphan_add : oc_context := { admins_add with search_res := none }

/-- The add of the root of the tree, `DC=example,DC=com`, as a `container`,
for which no parent was looked up. -/
def root_add : oc_context :=
  { req :=
      { operation := LDB_ADD,
        message :=
          { dn := { special := false, components := [⟨"dc", "EXAMPLE"⟩, ⟨"dc", "com"⟩] },
            elements := [⟨0, "objectClass", ["container"]⟩] },
        olddn := ⟨false, []⟩, newdn := ⟨false, []⟩, controls := [] },
    search_res := none }

/-- An add request without `objectClass`. -/
def classless_request : ldb_request :=
  { operation := LDB_ADD,
    message := { dn := admins_dn, elements := [⟨0, "cn", ["Admins"]⟩] },
    olddn := ⟨false, []⟩, newdn := ⟨false, []⟩, controls := [] }

/-- The message of `admins_add` when it reaches the policy checks: the DN
fixed against the parent, the names in canonical case, the classes sorted. -/
def admins_rebuilt : ldb_message :=
  { dn := { special := false,
            components := [⟨"CN", "Admins"⟩, ⟨"CN", "Users"⟩, ⟨"DC", "example"⟩, ⟨"DC", "com"⟩] },
    elements := [⟨0, "cn", ["Admins"]⟩,
      ⟨0, "objectClass", ["top", "person", "organizationalPerson"]⟩] }

/-- The class `organizationalPerson` of `policy_schema`. -/
def policy_organizationalPerson : dsdb_class :=
  { plain_class "organizationalPerson" "person" 2 with rDNAttID := some "cn" }

/-- The add of `cn=Partitions,cn=Users,dc=EXAMPLE,dc=com` as a
`crossRefContainer`, a system-only class, under the container found as
parent; the request carries no control. -/
def crossref_add : oc_context :=
  { req :=
      { operation := LDB_ADD,
        message :=
          { dn := { special := false,
                    components := [⟨"cn", "Partitions"⟩, ⟨"cn", "Users"⟩, ⟨"dc", "EXAMPLE"⟩,
                      ⟨"dc", "com"⟩] },
            elements := [⟨0, "objectClass", ["crossRefContainer"]⟩] },
        olddn := ⟨false, []⟩, newdn := ⟨false, []⟩, controls := [] },
    search_res := some
      { message := some { dn := users_dn, elements := [⟨0, "objectClass", ["top", "container"]⟩] } } }

/-- The message of `crossref_add` when it reaches the policy checks. -/
def crossref_rebuilt : ldb_message :=
  { dn := { special := false,
            components := [⟨"CN", "Partitions"⟩, ⟨"CN", "Users"⟩, ⟨"DC", "example"⟩,
              ⟨"DC", "com"⟩] },
    elements := [⟨0, "objectClass", ["top", "crossRefContainer"]⟩] }

/-- The class `crossRefContainer` of `policy_schema`. -/
def policy_crossRefContainer : dsdb_class :=
  { plain_class "crossRefContainer" "top" 1 with systemOnly := true }

/-- The add of `admins_add` with a `systemFlags` value supplied by the
client. -/
def flags_add (v : String) : oc_context :=
  { admins_add with
    req := { admins_add.req with
      message := { admins_add.req.message with
        elements := admins_add.req.message.elements ++ [⟨0, "systemFlags", [v]⟩] } } }

/-- The request the add transform sends down for `flags_add` in the sample
directory with naming rules, when the forwarded `systemFlags` value is `v`. -/
def flags_add_forwarded (v : String) : ldb_request :=
  { operation := LDB_ADD,
    message :=
      { dn := { special := false,
                components := [⟨"CN", "Admins"⟩, ⟨"CN", "Users"⟩, ⟨"DC", "example"⟩,
                  ⟨"DC", "com"⟩] },
        elements := [⟨0, "cn", ["Admins"]⟩,
          ⟨0, "objectClass", ["top", "person", "organizationalPerson"]⟩,
          ⟨0, "objectCategory", [(plain_class "organizationalPerson" "person" 2).defaultObjectCategory]⟩,
          ⟨0, "systemFlags", [v]⟩] },
    olddn := ⟨false, []⟩, newdn := ⟨false, []⟩, controls := [] }

/-- The message of `flags_add v` when it reaches the policy checks: the DN fixed
against the parent, the names in canonical case, the classes sorted. -/
def flags_rebuilt (v : String) : ldb_message :=
  { dn := { special := false,
            components := [⟨"CN", "Admins"⟩, ⟨"CN", "Users"⟩, ⟨"DC", "example"⟩, ⟨"DC", "com"⟩] },
    elements := [⟨0, "cn", ["Admins"]⟩, ⟨0, "systemFlags", [v]⟩,
      ⟨0, "objectClass", ["top", "person", "organizationalPerson"]⟩] }

/-! ## Sample modifications -/

/-- A modify of `cn=Admins,cn=Users,dc=EXAMPLE,dc=com` that deletes the whole
`objectClass` attribute (a delete without values) and also names an attribute
the schema does not know. -/
def delete_all_modify : ldb_request :=
  { operation := LDB_MODIFY,
    message :=
      { dn := admins_dn,
        elements := [⟨LDB_FLAG_MOD_DELETE, "objectClass", []⟩,
          ⟨LDB_FLAG_MOD_REPLACE, "bogus", ["x"]⟩] },
    olddn := ⟨false, []⟩, newdn := ⟨false, []⟩, controls := [] }

/-- A modify that replaces the `objectClass` attribute by the empty set. -/
def replace_none_modify : ldb_request :=
  { operation := LDB_MODIFY,
    message := { dn := admins_dn, elements := [⟨LDB_FLAG_MOD_REPLACE, "objectClass", []⟩] },
    olddn := ⟨false, []⟩, newdn := ⟨false, []⟩, controls := [] }

/-- A modify that deletes the whole `objectClass` attribute and nothing
else. -/
def delete_none_modify : ldb_request :=
  { operation := LDB_MODIFY,
    message := { dn := admins_dn, elements := [⟨LDB_FLAG_MOD_DELETE, "objectClass", []⟩] },
    olddn := ⟨false, []⟩, newdn := ⟨false, []⟩, controls := [] }

/-- A modify that deletes the value `organizationalPerson` from the
`objectClass` attribute, written `OBJECTCLASS`. -/
def delete_person_modify : ldb_request :=
  { operation := LDB_MODIFY,
    message :=
      { dn := admins_dn,
        elements := [⟨LDB_FLAG_MOD_DELETE, "OBJECTCLASS", ["organizationalPerson"]⟩] },
    olddn := ⟨false, []⟩, newdn := ⟨false, []⟩, controls := [] }

/-! ## The rename path -/

/-- Modelled from the spec: `LDB_CONTROL_SHOW_DELETED_OID` of `ldb.h`, which is
not part of the sources. -/
def LDB_CONTROL_SHOW_DELETED_OID : String := "1.2.840.113556.1.4.417"

/-- The components of a name as the comparisons of the ldb library see them:
attribute names and values folded to lower case. -/
def dn_key (dn : ldb_dn) : List (List Char × List Char) :=
  dn.components.map (fun c => (strlower c.name, strlower c.value))

/-- Modelled from the spec: `ldb_dn_compare_base` of the ldb library, which is
not part of the sources: `0` when `base` is `dn` or an ancestor of it, that is
when the components of `base` are the trailing components of `dn` (compared
without regard to case), and a non-zero value otherwise. -/
def ldb_dn_compare_base (base dn : ldb_dn) : Int :=
  if dn_key base <:+ dn_key dn then 0 else 1

/-- Lines 1018-1082, `objectclass_rename`. -/
def objectclass_rename (req : ldb_request) : oc_action :=
  if ldb_dn_is_special req.newdn then .next_request req .original
  else if ldb_dn_compare_base req.olddn req.newdn = 0
      ∧ ldb_dn_compare (some req.olddn) (some req.newdn) ≠ 0 then
    .done LDB_ERR_UNWILLING_TO_PERFORM
  else
    match ldb_dn_get_parent req.newdn with
    | none => .done LDB_ERR_OPERATIONS_ERROR
    | some parent_dn =>
      .search parent_dn [] [LDB_CONTROL_SHOW_DELETED_OID] .objectclass_do_rename

/-- Lines 1084-1125, `objectclass_do_rename`. -/
def objectclass_do_rename (ac : oc_context) : exec oc_result :=
  match ac.search_res with
  | none => .ret (.done LDB_ERR_UNWILLING_TO_PERFORM)
  | some res =>
    match res.message with
    | none => .fault
    | some parent =>
      match fix_dn ac.req.newdn parent.dn with
      | .fault => .fault
      | .out_of_fuel => .out_of_fuel
      | .ret (ret, fixed_dn) =>
        if ret ≠ LDB_SUCCESS then .ret (.done ret)
        else
          .ret (.next_request
            { ac.req with operation := LDB_RENAME, olddn := ac.req.olddn, newdn := fixed_dn })

/-! ## The second step of a modification -/

/-- The class lookup as `objectclass_sort` makes it with the schema pointer it
was given.  Modelled from the spec: the lookup through a `NULL` schema is not
defined by the sources; the model lets it resolve no name. -/
def class_lookup (schema : Option dsdb_schema) (name : String) : Option dsdb_class :=
  match schema with
  | some schema => dsdb_class_by_lDAPDisplayName schema name
  | none => none

/-- Lines 919-1014, `objectclass_do_mod`. -/
def objectclass_do_mod (ldb : ldb_context) (ac : oc_context) (fuel : Nat) : exec oc_result :=
  match ac.search_res with
  | none => .ret (.done LDB_ERR_OPERATIONS_ERROR)
  | some res =>
    let schema := ldb.schema
    match res.message with
    | none => .fault
    | some entry =>
      match ldb_msg_find_element entry "objectClass" with
      | none => .ret (.done LDB_ERR_OPERATIONS_ERROR)
      | some (_, objectclass_element) =>
        let msg : ldb_message := { dn := ac.req.message.dn, elements := [] }
        match objectclass_sort_on schema.isSome (class_lookup schema) fuel
            objectclass_element.values with
        | .fault => .fault
        | .out_of_fuel => .out_of_fuel
        | .ret (.error ret) => .ret (.done ret)
        | .ret (.ok sorted) =>
          let msg := ldb_msg_add_empty msg "objectClass" LDB_FLAG_MOD_REPLACE
          match add_sorted_classes sorted msg with
          | .fault => .fault
          | .out_of_fuel => .out_of_fuel
          | .ret msg =>
            if ldb.ldb_msg_sanity_check msg ≠ LDB_SUCCESS then
              .ret (.done (ldb.ldb_msg_sanity_check msg))
            else .ret (.next_request { ac.req with operation := LDB_MODIFY, message := msg })

/-! ## The search callback and the course of an operation -/

/-- The function behind a step selector: `ac->step_fn(ac)`. -/
def run_step_fn (ldb : ldb_context) (fuel : Nat) : oc_step_fn → oc_context → exec oc_result
  | .objectclass_do_add, ac => objectclass_do_add ldb ac fuel
  | .objectclass_do_mod, ac => objectclass_do_mod ldb ac fuel
  | .objectclass_do_rename, ac => objectclass_do_rename ac

/-- Lines 217-265, `get_search_callback`, for one reply of the search: the
context as the callback leaves it, and what the callback did: `none` when it
returned `LDB_SUCCESS` and the operation waits for the next reply, the end of
the operation (`ldb_module_done`), or the request the step function sent down
(with `oc_op_callback`). -/
def get_search_callback (step_fn : oc_context → exec oc_result) (ac : oc_context)
    (ares : Option ldb_ares) : exec (oc_context × Option oc_reply_action) :=
  match ares with
  | none => .ret (ac, some (.module_done [] none LDB_ERR_OPERATIONS_ERROR))
  | some ares =>
    if ares.error ≠ LDB_SUCCESS ∧ ares.error ≠ LDB_ERR_NO_SUCH_OBJECT then
      .ret (ac, some (.module_done ares.controls ares.response ares.error))
    else
      match ares.type with
      | .LDB_REPLY_ENTRY =>
        if ac.search_res.isSome then
          .ret (ac, some (.module_done [] none LDB_ERR_OPERATIONS_ERROR))
        else .ret ({ ac with search_res := some ⟨ares.message⟩ }, none)
      | .LDB_REPLY_REFERRAL => .ret (ac, none)
      | .LDB_REPLY_DONE =>
        match step_fn ac with
        | .fault => .fault
        | .out_of_fuel => .out_of_fuel
        | .ret (.done ret) =>
          if ret ≠ LDB_SUCCESS then .ret (ac, some (.module_done [] none ret))
          else .ret (ac, none)
        | .ret (.next_request req) =>
          .ret (ac, some (.go_on (.next_request req .oc_op_callback)))

/-- Modelled from the spec: the stages below the module, which are not part of
the sources, as far as one operation meets them: the entry a base search finds
under a name (`none` when there is no such entry), and the terminal reply to a
write request (add, modify or rename) sent down. -/
structure downstream where
  lookup : ldb_dn → Option ldb_message
  write_reply : ldb_request → ldb_ares

/-- Modelled from the spec: the replies to a base search, in the order they are
delivered: the entry found, if there is one, and then the terminal reply, which
carries `LDB_ERR_NO_SUCH_OBJECT` when no entry was found. -/
def search_replies (env : downstream) (base : ldb_dn) : List ldb_ares :=
  match env.lookup base with
  | some entry =>
    [⟨LDB_SUCCESS, .LDB_REPLY_ENTRY, some entry, [], none⟩,
      ⟨LDB_SUCCESS, .LDB_REPLY_DONE, none, [], none⟩]
  | none => [⟨LDB_ERR_NO_SUCH_OBJECT, .LDB_REPLY_DONE, none, [], none⟩]

/-- The replies of a search handed to `get_search_callback` one after the
other, until the callback ends the operation or sends a request down; `none`
when the replies are used up before that. -/
def deliver_search (step_fn : oc_context → exec oc_result) :
    oc_context → List ldb_ares → exec (oc_context × Option oc_reply_action)
  | ac, [] => .ret (ac, none)
  | ac, ares :: rest =>
    match get_search_callback step_fn ac (some ares) with
    | .fault => .fault
    | .out_of_fuel => .out_of_fuel
    | .ret (ac, some r) => .ret (ac, some r)
    | .ret (ac, none) => deliver_search step_fn ac rest

/-- The course of one operation, as seen from outside the module: the searches
and the write requests it sent down, in order, and the code of the reply its
caller received (`none` while the operation is pending). -/
structure oc_trace where
  searches : List ldb_dn
  writes : List ldb_request
  final : Option ldb_err
  deriving DecidableEq, Repr

/-- Modelled from the spec: how an operation goes on from an action of the
module: a returned code ends it; a request passed on with the callback of the
original request ends with the reply of the stages below; a request sent down
with a callback of the module has its terminal reply handed to that callback;
the replies of a search are handed to `get_search_callback`.  The count bounds
the number of actions that follow one another. -/
def run_action (ldb : ldb_context) (env : downstream) (fuel : Nat) :
    Nat → oc_context → oc_action → exec oc_trace
  | 0, _, _ => .out_of_fuel
  | _ + 1, _, .done ret => .ret ⟨[], [], some ret⟩
  | depth + 1, ac, .next_request req callback =>
    match callback with
    | .original => .ret ⟨[], [req], some (env.write_reply req).error⟩
    | .oc_op_callback =>
      match oc_op_callback (some (env.write_reply req)) with
      | .module_done _ _ error => .ret ⟨[], [req], some error⟩
      | .go_on action =>
        match run_action ldb env fuel depth ac action with
        | .fault => .fault
        | .out_of_fuel => .out_of_fuel
        | .ret t => .ret ⟨t.searches, req :: t.writes, t.final⟩
    | .oc_modify_callback =>
      match oc_modify_callback ac (some (env.write_reply req)) with
      | .module_done _ _ error => .ret ⟨[], [req], some error⟩
      | .go_on action =>
        match run_action ldb env fuel depth ac action with
        | .fault => .fault
        | .out_of_fuel => .out_of_fuel
        | .ret t => .ret ⟨t.searches, req :: t.writes, t.final⟩
  | depth + 1, ac, .search base _ _ step_fn =>
    match deliver_search (run_step_fn ldb fuel step_fn) ac (search_replies env base) with
    | .fault => .fault
    | .out_of_fuel => .out_of_fuel
    | .ret (_, none) => .ret ⟨[base], [], none⟩
    | .ret (_, some (.module_done _ _ error)) => .ret ⟨[base], [], some error⟩
    | .ret (ac, some (.go_on action)) =>
      match run_action ldb env fuel depth ac action with
      | .fault => .fault
      | .out_of_fuel => .out_of_fuel
      | .ret t => .ret ⟨base :: t.searches, t.writes, t.final⟩

/-- The course of an operation whose entry point took the action `action`. -/
def run_entry (ldb : ldb_context) (env : downstream) (req : ldb_request) (fuel : Nat)
    (action : exec oc_action) : exec oc_trace :=
  match action with
  | .fault => .fault
  | .out_of_fuel => .out_of_fuel
  | .ret action => run_action ldb env fuel 4 ⟨req, none⟩ action

/-- The course of an add: the `add` operation of `ldb_objectclass_module_ops`
(lines 1143-1149). -/
def run_add (ldb : ldb_context) (env : downstream) (req : ldb_request) (fuel : Nat) :
    exec oc_trace :=
  run_entry ldb env req fuel (objectclass_add ldb req fuel)

/-- The course of a modify: the `modify` operation of
`ldb_objectclass_module_ops`. -/
def run_modify (ldb : ldb_context) (env : downstream) (req : ldb_request) (fuel : Nat) :
    exec oc_trace :=
  run_entry ldb env req fuel (objectclass_modify ldb req fuel)

/-- The course of a rename: the `rename` operation of
`ldb_objectclass_module_ops`. -/
def run_rename (ldb : ldb_context) (env : downstream) (req : ldb_request) (fuel : Nat) :
    exec oc_trace :=
  run_entry ldb env req fuel (.ret (objectclass_rename req))

/-! ## Sample requests on control entries and renames -/

/-- The name of a control entry, `@INDEXLIST`. -/
def indexlist_dn : ldb_dn := { special := true, components := [] }

/-- An add of the control entry, without `objectClass`. -/
def special_add : ldb_request :=
  { operation := LDB_ADD,
    message := { dn := indexlist_dn, elements := [⟨0, "@IDXATTR", ["cn"]⟩] },
    olddn := ⟨false, []⟩, newdn := ⟨false, []⟩, controls := [] }

/-- A modify of the control entry without elements. -/
def special_empty_modify : ldb_request :=
  { operation := LDB_MODIFY,
    message := { dn := indexlist_dn, elements := [] },
    olddn := ⟨false, []⟩, newdn := ⟨false, []⟩, controls := [] }

/-- A modify of the control entry that deletes the whole `objectClass`
attribute. -/
def special_delete_modify : ldb_request :=
  { operation := LDB_MODIFY,
    message := { dn := indexlist_dn, elements := [⟨LDB_FLAG_MOD_DELETE, "objectClass", []⟩] },
    olddn := ⟨false, []⟩, newdn := ⟨false, []⟩, controls := [] }

/-- A rename of `cn=Admins,cn=Users,dc=EXAMPLE,dc=com` to the name of the
control entry. -/
def special_rename : ldb_request :=
  { operation := LDB_RENAME,
    message := { dn := ⟨false, []⟩, elements := [] },
    olddn := admins_dn, newdn := indexlist_dn, controls := [] }

/-- A rename from `olddn` to `newdn`. -/
def rename_request (olddn newdn : ldb_dn) : ldb_request :=
  { operation := LDB_RENAME,
    message := { dn := ⟨false, []⟩, elements := [] },
    olddn := olddn, newdn := newdn, controls := [] }

/-- The name `cn=Sub,CN=ADMINS,cn=users,dc=example,dc=com`, below the entry
`cn=Admins,cn=Users,dc=EXAMPLE,dc=com`. -/
def below_admins_dn : ldb_dn :=
  { special := false,
    components := [⟨"cn", "Sub"⟩, ⟨"CN", "ADMINS"⟩, ⟨"cn", "users"⟩, ⟨"dc", "example"⟩,
      ⟨"dc", "com"⟩] }

/-- The name `cn=Operators,cn=Users,dc=EXAMPLE,dc=com`, next to the entry
`cn=Admins,cn=Users,dc=EXAMPLE,dc=com`. -/
def operators_dn : ldb_dn :=
  { special := false,
    components := [⟨"cn", "Operators"⟩, ⟨"cn", "Users"⟩, ⟨"dc", "EXAMPLE"⟩, ⟨"dc", "com"⟩] }

/-- The element does not carry the name `objectClass`. -/
def not_objectClass (el : ldb_message_element) : Bool := !is_named "objectClass" el

/-- A modify that replaces the classes of `cn=Admins,…` by
`organizationalPerson` and sets `sn`, the attribute names in a case of the
client's own. -/
def replace_modify : ldb_request :=
  { operation := LDB_MODIFY,
    message :=
      { dn := admins_dn,
        elements := [⟨LDB_FLAG_MOD_ADD, "SN", ["Smith"]⟩,
          ⟨LDB_FLAG_MOD_REPLACE, "OBJECTCLASS", ["organizationalPerson"]⟩,
          ⟨LDB_FLAG_MOD_DELETE, "CN", []⟩] },
    olddn := ⟨false, []⟩, newdn := ⟨false, []⟩, controls := [] }

/-- The modification sent down for `replace_modify`. -/
def replace_modify_forwarded : ldb_request :=
  { operation := LDB_MODIFY,
    message :=
      { dn := admins_dn,
        elements := [⟨LDB_FLAG_MOD_ADD, "sn", ["Smith"]⟩,
          ⟨LDB_FLAG_MOD_DELETE, "cn", []⟩,
          ⟨LDB_FLAG_MOD_REPLACE, "objectClass", ["top", "person", "organizationalPerson"]⟩] },
    olddn := ⟨false, []⟩, newdn := ⟨false, []⟩, controls := [] }

/-- Stages below the module that find no entry and answer every write with
success. -/
def empty_downstream : downstream :=
  { lookup := fun _ => none,
    write_reply := fun _ => ⟨LDB_SUCCESS, .LDB_REPLY_DONE, none, [], none⟩ }

/-- The records of rank `r` of a list, in the order of the list. -/
def of_rank (r : Int) (l : List dsdb_class) : List dsdb_class :=
  l.filter (fun c => decide (c.subClass_order = r))

/-- The stable sort by `subClass_order`, in the words of the specification:
`s` is the stable sort of the working list `l` when the ranks do not decrease
along `s` and, for every rank, `s` holds the records of that rank that `l`
holds, in the order `l` has them. -/
def is_stable_sort (l s : List dsdb_class) : Prop :=
  s.Sorted order_le ∧ ∀ r : Int, of_rank r s = of_rank r l

/-- The add of `crossref_add` with one more element, whose attribute the schema
does not know. -/
def crossref_bogus_add : oc_context :=
  { crossref_add with
    req := { crossref_add.req with
      message := { crossref_add.req.message with
        elements := crossref_add.req.message.elements ++ [⟨0, "bogus", ["x"]⟩] } } }

/-- The add of `crossref_add` below a parent that was found as a `person`, a
class that allows no class below it. -/
def crossref_under_person_add : oc_context :=
  { crossref_add with
    search_res := some
      { message := some { dn := users_dn, elements := [⟨0, "objectClass", ["top", "person"]⟩] } } }

/-! ## A sample directory with infrastructure classes -/

/-- A schema with the classes `server` and `attributeSchema`, both allowed
below a `container`. -/
def sites_schema : dsdb_schema :=
  { classes := [{ plain_class "top" "top" 0 with objectClassCategory := 2 },
      { plain_class "container" "top" 1 with
        systemPossibleInferiors := ["container", "server", "attributeSchema"] },
      plain_class "server" "top" 1,
      plain_class "attributeSchema" "top" 1],
    attributes := [⟨"objectClass", 0⟩, ⟨"cn", 0⟩, ⟨"systemFlags", 0⟩, ⟨"objectCategory", 0⟩] }

/-- A context with the schema `sites_schema` and decimal numbers. -/
def sites_ldb : ldb_context := { policy_ldb with schema := some sites_schema }

/-- The add of `cn=Admins,cn=Users,dc=EXAMPLE,dc=com` as an entry of the class
`cls`, with the `systemFlags` value `v` supplied by the client, the parent
having been found as a `container`. -/
def class_add (cls v : String) : oc_context :=
  { req :=
      { operation := LDB_ADD,
        message :=
          { dn := admins_dn,
            elements := [⟨0, "objectClass", [cls]⟩, ⟨0, "systemFlags", [v]⟩] },
        olddn := ⟨false, []⟩, newdn := ⟨false, []⟩, controls := [] },
    search_res := some
      { message := some { dn := users_dn, elements := [⟨0, "objectClass", ["top", "container"]⟩] } } }

/-- The request sent down for `class_add cls` when the forwarded `systemFlags`
value is `v`. -/
def class_add_forwarded (cls v : String) : ldb_request :=
  { operation := LDB_ADD,
    message :=
      { dn := { special := false,
                components := [⟨"CN", "Admins"⟩, ⟨"CN", "Users"⟩, ⟨"DC", "example"⟩,
                  ⟨"DC", "com"⟩] },
        elements := [⟨0, "objectClass", ["top", cls]⟩, ⟨0, "objectCategory", [""]⟩,
          ⟨0, "systemFlags", [v]⟩] },
    olddn := ⟨false, []⟩, newdn := ⟨false, []⟩, controls := [] }

/-! ## Sample courses of a modification -/

/-- The operation sent no write request down, or it sent one and its caller
received the reply to that request: the module raised no error of its own
after a write. -/
def at_most_one_write (env : downstream) (t : oc_trace) : Prop :=
  t.writes = [] ∨ ∃ req, t.writes = [req] ∧ t.final = some (env.write_reply req).error

/-- A modify that adds the class `securityPrincipal`, which the sample schema
does not know, to the classes of `cn=Admins,…`. -/
def add_class_modify : ldb_request :=
  { operation := LDB_MODIFY,
    message :=
      { dn := admins_dn,
        elements := [⟨LDB_FLAG_MOD_ADD, "OBJECTCLASS", ["securityPrincipal"]⟩] },
    olddn := ⟨false, []⟩, newdn := ⟨false, []⟩, controls := [] }

/-- The modification sent down for `add_class_modify`. -/
def add_class_modify_forwarded : ldb_request :=
  { operation := LDB_MODIFY,
    message :=
      { dn := admins_dn,
        elements := [⟨LDB_FLAG_MOD_ADD, "objectClass", ["securityPrincipal"]⟩] },
    olddn := ⟨false, []⟩, newdn := ⟨false, []⟩, controls := [] }

/-- Stages below the module that answer every write with success and hold one
entry, whatever the name asked for, with the classes given. -/
def one_entry_downstream (classes : List String) : downstream :=
  { lookup := fun dn => some ⟨dn, [⟨0, "objectClass", classes⟩]⟩,
    write_reply := fun _ => ⟨LDB_SUCCESS, .LDB_REPLY_DONE, none, [], none⟩ }

/-- A modify that adds the value `organizationalPerson` to the classes of
`cn=Admins,…`. -/
def add_person_modify : ldb_request :=
  { operation := LDB_MODIFY,
    message :=
      { dn := admins_dn,
        elements := [⟨LDB_FLAG_MOD_ADD, "OBJECTCLASS", ["organizationalPerson"]⟩] },
    olddn := ⟨false, []⟩, newdn := ⟨false, []⟩, controls := [] }

/-- The first modification sent down for `add_person_modify`. -/
def add_person_modify_first : ldb_request :=
  { operation := LDB_MODIFY,
    message :=
      { dn := admins_dn,
        elements := [⟨LDB_FLAG_MOD_ADD, "objectClass", ["organizationalPerson"]⟩] },
    olddn := ⟨false, []⟩, newdn := ⟨false, []⟩, controls := [] }

/-- The second modification sent down for `add_person_modify`, when the entry
is found with the classes `person`, `top`, `organizationalPerson`. -/
def add_person_modify_second : ldb_request :=
  { operation := LDB_MODIFY,
    message :=
      { dn := admins_dn,
        elements := [⟨LDB_FLAG_MOD_REPLACE, "objectClass",
          ["top", "person", "organizationalPerson"]⟩] },
    olddn := ⟨false, []⟩, newdn := ⟨false, []⟩, controls := [] }

/-- The modification `objectclass_modify` sends down first when the `objectClass`
element is neither a replace nor a delete without values: the one supplied,
with the attribute names as `fix_check_attributes` leaves them. -/
def first_modification (schema : dsdb_schema) (req : ldb_request) : ldb_request :=
  { req with
    operation := LDB_MODIFY,
    message := (fix_check_attributes schema req.message req.operation).2 }

/-- The second modification, in the words of the specification: addressed to
the DN of the first, with one element, a replace of `objectClass` by the names
of the classes given. -/
def second_modification (req : ldb_request) (classes : List dsdb_class) : ldb_request :=
  { req with
    operation := LDB_MODIFY,
    message :=
      { dn := req.message.dn,
        elements := [⟨LDB_FLAG_MOD_REPLACE, "objectClass",
          classes.map (fun c => c.lDAPDisplayName)⟩] } }

/-- The context `objectclass_do_mod` runs in: the one of the modify, with the
entry the search found. -/
def mod_context (env : downstream) (req : ldb_request) : oc_context :=
  { req := req, search_res := (env.lookup req.message.dn).map (fun entry => ⟨some entry⟩) }

/-- The name of the parent of `cn=Partitions,cn=Users,dc=EXAMPLE,dc=com`, as
the add asks for it. -/
def users_dn_as_asked : ldb_dn :=
  { special := false, components := [⟨"cn", "Users"⟩, ⟨"dc", "EXAMPLE"⟩, ⟨"dc", "com"⟩] }

/-- The parent name of every class of the schema resolves. -/
def parents_resolve (schema : dsdb_schema) : Prop :=
  ∀ c ∈ schema.classes, (dsdb_class_by_lDAPDisplayName schema c.subClassOf).isSome = true

instance parents_resolve_decidable (schema : dsdb_schema) :
    Decidable (parents_resolve schema) := by
  unfold parents_resolve; infer_instance

/-- A schema in which the parent of `person`, `oldPerson`, is defunct. -/
def defunct_parent_schema : dsdb_schema :=
  { classes := [plain_class "top" "top" 0,
      { plain_class "oldPerson" "top" 1 with isDefunct := true },
      plain_class "person" "oldPerson" 2],
    attributes := [] }

/-! ## Messages with two elements of one name -/

/-- The add of `admins_add` with its classes in two `objectClass` elements:
`organizationalPerson` in the first, `person` in the second. -/
def two_objectclass_add : oc_context :=
  { admins_add with
    req := { admins_add.req with
      message := { admins_add.req.message with
        elements := [⟨0, "objectClass", ["organizationalPerson"]⟩,
          ⟨0, "objectClass", ["person"]⟩, ⟨0, "cn", ["Admins"]⟩] } } }

/-- The request the add transform sends down for `two_objectclass_add`: the
first `objectClass` element was removed and an empty one appended, and the
names of the chain were added to the element found by name, the second of the
client. -/
def two_objectclass_add_forwarded : ldb_request :=
  { operation := LDB_ADD,
    message :=
      { dn := { special := false,
                components := [⟨"CN", "Admins"⟩, ⟨"CN", "Users"⟩, ⟨"DC", "example"⟩,
                  ⟨"DC", "com"⟩] },
        elements := [⟨0, "objectClass", ["person", "top", "person", "organizationalPerson"]⟩,
          ⟨0, "cn", ["Admins"]⟩, ⟨0, "objectClass", []⟩, ⟨0, "objectCategory", [""]⟩] },
    olddn := ⟨false, []⟩, newdn := ⟨false, []⟩, controls := [] }

/-- The add of a `server` with two `systemFlags` elements, `1` in the first and
`0` in the second, the parent having been found as a `container`. -/
def two_flags_add : oc_context :=
  { req :=
      { operation := LDB_ADD,
        message :=
          { dn := admins_dn,
            elements := [⟨0, "objectClass", ["server"]⟩, ⟨0, "systemFlags", ["1"]⟩,
              ⟨0, "systemFlags", ["0"]⟩] },
        olddn := ⟨false, []⟩, newdn := ⟨false, []⟩, controls := [] },
    search_res := some
      { message := some { dn := users_dn, elements := [⟨0, "objectClass", ["top", "container"]⟩] } } }

/-- The request the add transform sends down for `two_flags_add`: the first
`systemFlags` element was removed and the recomputed value added to the
second. -/
def two_flags_add_forwarded : ldb_request :=
  { operation := LDB_ADD,
    message :=
      { dn := { special := false,
                components := [⟨"CN", "Admins"⟩, ⟨"CN", "Users"⟩, ⟨"DC", "example"⟩,
                  ⟨"DC", "com"⟩] },
        elements := [⟨0, "systemFlags", ["0", "1375731713"]⟩,
          ⟨0, "objectClass", ["top", "server"]⟩, ⟨0, "objectCategory", [""]⟩] },
    olddn := ⟨false, []⟩, newdn := ⟨false, []⟩, controls := [] }

/-- A modify of `cn=Admins,…` with two `objectClass` elements: a replace by
`organizationalPerson`, then an add of `person`. -/
def replace_and_add_modify : ldb_request :=
  { operation := LDB_MODIFY,
    message :=
      { dn := admins_dn,
        elements := [⟨LDB_FLAG_MOD_REPLACE, "objectClass", ["organizationalPerson"]⟩,
          ⟨LDB_FLAG_MOD_ADD, "objectClass", ["person"]⟩] },
    olddn := ⟨false, []⟩, newdn := ⟨false, []⟩, controls := [] }

/-- The modification sent down for `replace_and_add_modify`: the names of the
chain were added to the add element of the client, and the replace element is
empty. -/
def replace_and_add_modify_forwarded : ldb_request :=
  { operation := LDB_MODIFY,
    message :=
      { dn := admins_dn,
        elements := [⟨LDB_FLAG_MOD_ADD, "objectClass",
            ["person", "top", "person", "organizationalPerson"]⟩,
          ⟨LDB_FLAG_MOD_REPLACE, "objectClass", []⟩] },
    olddn := ⟨false, []⟩, newdn := ⟨false, []⟩, controls := [] }

/-! ## A directory without a schema -/

/-- The context of `directory_ldb` before a schema is loaded: `dsdb_get_schema`
returns `NULL`. -/
def bootstrap_ldb : ldb_context := { directory_ldb with schema := none }

/-- The request the add transform sends down for `admins_add` without a schema:
the name normalised against the parent, the elements as the client supplied
them. -/
def admins_add_unsorted : ldb_request :=
  { operation := LDB_ADD,
    message :=
      { dn := { special := false,
                components := [⟨"CN", "Admins"⟩, ⟨"CN", "Users"⟩, ⟨"DC", "example"⟩,
                  ⟨"DC", "com"⟩] },
        elements := [⟨0, "objectclass", ["person", "top", "organizationalPerson"]⟩,
          ⟨0, "CN", ["Admins"]⟩] },
    olddn := ⟨false, []⟩, newdn := ⟨false, []⟩, controls := [] }

/-! # Theorems -/

/-! ## Names and lookups -/

theorem ldb_attr_cmp_eq_zero {a b : String} : ldb_attr_cmp a b = 0 ↔ strlower a = strlower b := by
  unfold ldb_attr_cmp
  split <;> simp_all

theorem ldb_attr_cmp_beq_zero {a b : String} :
    (ldb_attr_cmp a b == 0) = true ↔ strlower a = strlower b := by
  rw [beq_iff_eq, ldb_attr_cmp_eq_zero]

theorem ldb_attr_cmp_bne_zero {a b : String} :
    (ldb_attr_cmp a b != 0) = true ↔ strlower a ≠ strlower b := by
  rw [bne_iff_ne, Ne, ldb_attr_cmp_eq_zero]

theorem class_by_name_some {schema : dsdb_schema} {name : String} {c : dsdb_class}
    (h : dsdb_class_by_lDAPDisplayName schema name = some c) :
    c ∈ schema.classes ∧ strlower c.lDAPDisplayName = strlower name := by
  unfold dsdb_class_by_lDAPDisplayName at h
  exact ⟨List.mem_of_find?_eq_some h, ldb_attr_cmp_beq_zero.1 (by simpa using List.find?_some h)⟩

theorem class_by_name_congr (schema : dsdb_schema) {n m : String} (h : strlower n = strlower m) :
    dsdb_class_by_lDAPDisplayName schema n = dsdb_class_by_lDAPDisplayName schema m := by
  unfold dsdb_class_by_lDAPDisplayName
  congr 1
  funext c
  simp only [ldb_attr_cmp, h]

theorem lookup_ok_schema (schema : dsdb_schema) :
    lookup_ok (dsdb_class_by_lDAPDisplayName schema) :=
  ⟨fun _ _ h => (class_by_name_some h).2, fun _ _ h => class_by_name_congr schema h⟩

/-! ## The first loop -/

theorem dump_values_eq (class_by_name : String → Option dsdb_class) (values : List String) :
    ∀ unsorted, dump_values class_by_name values unsorted =
      if values.any (bad_value class_by_name) then .error LDB_ERR_NO_SUCH_ATTRIBUTE
      else .ok (unsorted ++ named_classes class_by_name values) := by
  induction values with
  | nil => intro u; simp [dump_values, named_classes]
  | cons v vs ih =>
    intro u
    unfold dump_values
    cases hv : class_by_name v with
    | none => simp [bad_value, hv]
    | some c =>
      cases hd : c.isDefunct with
      | true => simp [bad_value, hv, hd]
      | false =>
        by_cases ht : (ldb_attr_cmp "top" c.lDAPDisplayName != 0) = true
        · simp [bad_value, hv, hd, ht, ih, named_classes, List.filter_cons]
        · simp [bad_value, hv, hd, ht, ih, named_classes, List.filter_cons]

/-! ## The selection loop -/

theorem select_loop_ret_nil (schema_present : Bool) :
    ∀ fuel unsorted sorted r,
      select_loop schema_present fuel unsorted sorted = .ret r → r.1 = [] := by
  intro fuel
  induction fuel with
  | zero => intro u s r h; simp [select_loop] at h
  | succ n ih =>
    intro u s r h
    unfold select_loop at h
    simp only at h
    split at h
    · rename_i he
      cases h
      simpa using he
    · exact ih _ _ _ h

theorem order_le_total : IsTotal dsdb_class order_le :=
  ⟨fun a b => Int.le_total a.subClass_order b.subClass_order⟩

theorem order_le_trans : IsTrans dsdb_class order_le :=
  ⟨fun _ _ _ h₁ h₂ => Int.le_trans h₁ h₂⟩

theorem scan_lowest_spec :
    ∀ (l : List dsdb_class) (pos : Nat) (lowest : Int) (cl : Option (Nat × dsdb_class)),
      (scan_lowest l pos lowest cl = cl ∧ ∀ x ∈ l, lowest ≤ x.subClass_order) ∨
      ∃ j c, scan_lowest l pos lowest cl = some (pos + j, c) ∧ l[j]? = some c ∧
        c.subClass_order < lowest ∧ (∀ x ∈ l, c.subClass_order ≤ x.subClass_order) ∧
        ∀ i y, i < j → l[i]? = some y → c.subClass_order < y.subClass_order := by
  intro l
  induction l with
  | nil => intro pos lowest cl; left; simp [scan_lowest]
  | cons a rest ih =>
    intro pos lowest cl
    unfold scan_lowest
    by_cases ha : a.subClass_order < lowest
    · simp only [ha, if_true]
      rcases ih (pos + 1) a.subClass_order (some (pos, a)) with ⟨h1, h2⟩ | ⟨j, c, h1, h2, h3, h4, h5⟩
      · right
        refine ⟨0, a, by simpa using h1, by simp, ha, ?_, ?_⟩
        · intro x hx
          rcases List.mem_cons.1 hx with rfl | hx
          · exact le_refl _
          · exact h2 x hx
        · intro i y hi; omega
      · right
        refine ⟨j + 1, c, ?_, by simpa using h2, lt_trans h3 ha, ?_, ?_⟩
        · rw [h1]; congr 2; omega
        · intro x hx
          rcases List.mem_cons.1 hx with rfl | hx
          · exact le_of_lt h3
          · exact h4 x hx
        · intro i y hi hy
          cases i with
          | zero => simp at hy; subst hy; exact h3
          | succ i => exact h5 i y (by omega) (by simpa using hy)
    · simp only [ha, if_false]
      have ha' : lowest ≤ a.subClass_order := not_lt.1 ha
      rcases ih (pos + 1) lowest cl with ⟨h1, h2⟩ | ⟨j, c, h1, h2, h3, h4, h5⟩
      · left
        refine ⟨h1, ?_⟩
        intro x hx
        rcases List.mem_cons.1 hx with rfl | hx
        · exact ha'
        · exact h2 x hx
      · right
        refine ⟨j + 1, c, ?_, by simpa using h2, h3, ?_, ?_⟩
        · rw [h1]; congr 2; omega
        · intro x hx
          rcases List.mem_cons.1 hx with rfl | hx
          · exact le_of_lt (lt_of_lt_of_le h3 ha')
          · exact h4 x hx
        · intro i y hi hy
          cases i with
          | zero => simp at hy; subst hy; exact lt_of_lt_of_le h3 ha'
          | succ i => exact h5 i y (by omega) (by simpa using hy)

/-- One pass with a schema: either no record is below `INT_MAX` and nothing
moves, or the first record of lowest rank moves to the end of `sorted`. -/
theorem select_pass_spec (unsorted : List dsdb_class) (sorted : List class_list) :
    (select_pass true unsorted sorted = (unsorted, sorted) ∧
        ∀ x ∈ unsorted, INT_MAX ≤ x.subClass_order) ∨
      ∃ j c, select_pass true unsorted sorted = (unsorted.eraseIdx j, sorted ++ [node c]) ∧
        unsorted[j]? = some c ∧ c.subClass_order < INT_MAX ∧
        (∀ x ∈ unsorted, c.subClass_order ≤ x.subClass_order) ∧
        ∀ i y, i < j → unsorted[i]? = some y → c.subClass_order < y.subClass_order := by
  unfold select_pass
  rcases scan_lowest_spec unsorted 0 INT_MAX none with ⟨h1, h2⟩ | ⟨j, c, h1, h2, h3, h4, h5⟩
  · left; simp [h1, h2]
    exact h2
  · right
    refine ⟨j, c, ?_, h2, h3, h4, h5⟩
    simp [h1, node]

theorem perm_cons_eraseIdx {α : Type} :
    ∀ (u : List α) (j : Nat) (c : α), u[j]? = some c → u.Perm (c :: u.eraseIdx j) := by
  intro u
  induction u with
  | nil => intro j c h; simp at h
  | cons a rest ih =>
    intro j c h
    cases j with
    | zero => simp at h; subst h; simp
    | succ j =>
      simp at h
      simp only [List.eraseIdx_cons_succ]
      exact ((ih j c h).cons a).trans (List.Perm.swap c a _)

theorem length_eraseIdx_of_some {α : Type} :
    ∀ (u : List α) (j : Nat) (c : α), u[j]? = some c → u.length = (u.eraseIdx j).length + 1 := by
  intro u j c h
  have := (perm_cons_eraseIdx u j c h).length_eq
  simpa using this

/-- Taking the first record of lowest rank out of a list and sorting the rest
is the stable sort of the list. -/
theorem sort_by_order_first_min :
    ∀ (u : List dsdb_class) (j : Nat) (c : dsdb_class), u[j]? = some c →
      (∀ x ∈ u, c.subClass_order ≤ x.subClass_order) →
      (∀ i y, i < j → u[i]? = some y → c.subClass_order < y.subClass_order) →
      sort_by_order u = c :: sort_by_order (u.eraseIdx j) := by
  intro u
  induction u with
  | nil => intro j c h; simp at h
  | cons a rest ih =>
    intro j c h hle hlt
    cases j with
    | zero =>
      simp at h; subst h
      simp only [List.eraseIdx_cons_zero, sort_by_order, List.insertionSort]
      have hall : ∀ x ∈ List.insertionSort order_le rest, order_le a x := by
        intro x hx
        exact hle x (List.mem_cons_of_mem _ ((List.perm_insertionSort order_le rest).subset hx))
      cases hs : List.insertionSort order_le rest with
      | nil => simp
      | cons b l => exact List.orderedInsert_of_le _ l (hall b (by simp [hs]))
    | succ j =>
      simp at h
      have hca : c.subClass_order < a.subClass_order := hlt 0 a (by omega) (by simp)
      have ih' := ih j c h (fun x hx => hle x (List.mem_cons_of_mem _ hx))
        (fun i y hi hy => hlt (i + 1) y (by omega) (by simpa using hy))
      simp only [sort_by_order] at ih' ⊢
      simp only [List.eraseIdx_cons_succ, List.insertionSort, ih']
      have hn : ¬ order_le a c := by
        unfold order_le; omega
      simp [List.orderedInsert, hn]

theorem select_loop_ret (fuel : Nat) :
    ∀ unsorted sorted r, select_loop true fuel unsorted sorted = .ret r →
      r = ([], sorted ++ (sort_by_order unsorted).map node) ∧
      (∀ x ∈ unsorted, x.subClass_order < INT_MAX) ∧ unsorted.length ≤ fuel ∧ 1 ≤ fuel := by
  induction fuel with
  | zero => intro u s r h; simp [select_loop] at h
  | succ n ih =>
    intro u s r h
    unfold select_loop at h
    simp only at h
    rcases select_pass_spec u s with ⟨hp, hall⟩ | ⟨j, c, hp, hj, hc, hle, hlt⟩
    · rw [hp] at h
      cases u with
      | nil => simp at h; subst h; simp [sort_by_order]
      | cons a rest =>
        simp at h
        have := (ih _ _ _ h).2.1 a (by simp)
        have := hall a (by simp)
        omega
    · rw [hp] at h
      have hperm := perm_cons_eraseIdx u j c hj
      have hlen := length_eraseIdx_of_some u j c hj
      have hsort := sort_by_order_first_min u j c hj hle hlt
      by_cases he : (u.eraseIdx j).isEmpty = true
      · simp only [he, if_true] at h
        have hnil : u.eraseIdx j = [] := by simpa using he
        cases h
        refine ⟨?_, ?_, ?_, by omega⟩
        · rw [hsort, hnil]; simp [sort_by_order]
        · intro x hx
          have := hperm.subset hx
          rw [hnil] at this
          simp at this; subst this; exact hc
        · rw [hlen, hnil]; simp
      · simp only [he] at h
        obtain ⟨h1, h2, h3, h4⟩ := ih _ _ _ h
        refine ⟨?_, ?_, by omega, by omega⟩
        · rw [h1, hsort]; simp
        · intro x hx
          rcases List.mem_cons.1 (hperm.subset hx) with rfl | hx
          · exact hc
          · exact h2 x hx

theorem select_loop_enough (fuel : Nat) :
    ∀ unsorted sorted, (∀ x ∈ unsorted, x.subClass_order < INT_MAX) →
      unsorted.length ≤ fuel → 1 ≤ fuel →
      select_loop true fuel unsorted sorted =
        .ret ([], sorted ++ (sort_by_order unsorted).map node) := by
  induction fuel with
  | zero => intro u s _ _ h; omega
  | succ n ih =>
    intro u s hall hlen _
    unfold select_loop
    simp only
    rcases select_pass_spec u s with ⟨hp, hge⟩ | ⟨j, c, hp, hj, hc, hle, hlt⟩
    · rw [hp]
      cases u with
      | nil => simp [sort_by_order]
      | cons a rest =>
        have := hall a (by simp)
        have := hge a (by simp)
        omega
    · rw [hp]
      have hperm := perm_cons_eraseIdx u j c hj
      have hlen' := length_eraseIdx_of_some u j c hj
      have hsort := sort_by_order_first_min u j c hj hle hlt
      by_cases he : (u.eraseIdx j).isEmpty = true
      · simp only [he, if_true]
        have hnil : u.eraseIdx j = [] := by simpa using he
        rw [hsort, hnil]; simp [sort_by_order]
      · simp only [he]
        have hne : u.eraseIdx j ≠ [] := by simpa using he
        have hpos : 1 ≤ (u.eraseIdx j).length := by
          cases hu : u.eraseIdx j with
          | nil => exact absurd hu hne
          | cons _ _ => simp
        rw [ih _ _ (fun x hx => hall x (hperm.symm.subset (List.mem_cons_of_mem _ hx)))
          (by omega) (by omega), hsort]
        simp

theorem select_loop_ne_fault (schema_present : Bool) (fuel : Nat) :
    ∀ unsorted sorted, select_loop schema_present fuel unsorted sorted ≠ .fault := by
  induction fuel with
  | zero => intro u s; simp [select_loop]
  | succ n ih =>
    intro u s
    unfold select_loop
    simp only
    split
    · simp
    · exact ih _ _

/-- A record of rank `INT_MAX` (or above) is never selected: the selection loop
does not end. -/
theorem select_loop_int_max (unsorted : List dsdb_class) (sorted : List class_list)
    (x : dsdb_class) (hx : x ∈ unsorted) (hmax : INT_MAX ≤ x.subClass_order) (fuel : Nat) :
    select_loop true fuel unsorted sorted = .out_of_fuel := by
  cases h : select_loop true fuel unsorted sorted with
  | ret r =>
    have := (select_loop_ret fuel _ _ _ h).2.1 x hx
    omega
  | fault => exact absurd h (select_loop_ne_fault _ _ _ _)
  | out_of_fuel => rfl

/-! ## The parent-chain pass -/

theorem find_poss_parent_isSome (unsorted : List dsdb_class) (sub : String) :
    (find_poss_parent unsorted sub).isSome = true ↔
      ∃ p ∈ unsorted, class_key p = strlower sub := by
  unfold find_poss_parent
  rw [List.find?_isSome]
  simp only [ldb_attr_cmp_beq_zero, class_key]

theorem parent_test_iff (unsorted : List dsdb_class) (current : dsdb_class) :
    ((find_poss_parent unsorted current.subClassOf).isSome
        || ldb_attr_cmp "top" current.subClassOf == 0) = true ↔
      ((∃ p ∈ unsorted, class_key p = strlower current.subClassOf) ∨ top_parent current) := by
  rw [Bool.or_eq_true, find_poss_parent_isSome, ldb_attr_cmp_beq_zero, top_parent]

/-- What a finished parent-chain pass has done: it appended records (`added`),
one for every parent name that no record carried, and used one unit of fuel for
every record it walked over. -/
theorem find_parent_chain_ret (f : String → Option dsdb_class) (hf : lookup_ok f) (fuel : Nat) :
    ∀ u i r, i ≤ u.length → find_parent_chain true f fuel u i = .ret r →
      ∃ added, r = u ++ added ∧ r.length + 1 ≤ fuel + i ∧
        (∀ k e, i ≤ k → r[k]? = some e →
          top_parent e ∨ ∃ p ∈ r, class_key p = strlower e.subClassOf) ∧
        (added.map class_key).Nodup ∧
        (∀ a ∈ added, class_key a ∉ u.map class_key) ∧
        (∀ a ∈ added, class_key a ≠ strlower "top") ∧
        (∀ a ∈ added, ∃ e ∈ r, f e.subClassOf = some a) := by
  induction fuel with
  | zero => intro u i r _ h; simp [find_parent_chain] at h
  | succ n ih =>
    intro u i r hi h
    unfold find_parent_chain at h
    simp only [Bool.not_true, Bool.false_eq_true, if_false] at h
    cases hc : u[i]? with
    | none =>
      rw [hc] at h
      simp only at h
      cases h
      have hlen : u.length ≤ i := by
        rcases Nat.lt_or_ge i u.length with hlt | hge
        · rw [List.getElem?_eq_getElem hlt] at hc; cases hc
        · exact hge
      refine ⟨[], by simp, by omega, ?_, by simp, by simp, by simp, by simp⟩
      intro k e hk he
      have : u[k]? = none := List.getElem?_eq_none (by omega)
      rw [this] at he; cases he
    | some current =>
      rw [hc] at h
      simp only at h
      have hilt : i < u.length := by
        rcases Nat.lt_or_ge i u.length with hlt | hge
        · exact hlt
        · rw [List.getElem?_eq_none hge] at hc; cases hc
      by_cases ht : ((find_poss_parent u current.subClassOf).isSome
          || ldb_attr_cmp "top" current.subClassOf == 0) = true
      · rw [if_pos ht] at h
        obtain ⟨added, hr, hfuel, hclosed, hnd, hnew, hnt, hsrc⟩ := ih u (i + 1) r (by omega) h
        refine ⟨added, hr, by omega, ?_, hnd, hnew, hnt, hsrc⟩
        intro k e hk he
        rcases Nat.eq_or_lt_of_le hk with rfl | hlt
        · have hcur : e = current := by
            rw [hr, List.getElem?_append_left hilt, hc] at he
            exact (Option.some.inj he).symm
          subst hcur
          rcases (parent_test_iff u e).1 ht with ⟨p, hp, hpk⟩ | htop
          · exact Or.inr ⟨p, by rw [hr]; exact List.mem_append_left _ hp, hpk⟩
          · exact Or.inl htop
        · exact hclosed k e (by omega) he
      · rw [if_neg ht] at h
        have ht' := (not_congr (parent_test_iff u current)).1 ht
        rw [not_or] at ht'
        cases hp : f current.subClassOf with
        | none => rw [hp] at h; cases h
        | some p =>
          rw [hp] at h
          simp only at h
          obtain ⟨added, hr, hfuel, hclosed, hnd, hnew, hnt, hsrc⟩ :=
            ih (u ++ [p]) (i + 1) r (by simp; omega) h
          have hpk : class_key p = strlower current.subClassOf := hf.name_eq _ _ hp
          have hcur : r[i]? = some current := by
            rw [hr, List.append_assoc, List.getElem?_append_left hilt, hc]
          have hpr : p ∈ r := by rw [hr]; simp
          refine ⟨p :: added, by rw [hr]; simp, by omega, ?_, ?_, ?_, ?_, ?_⟩
          · intro k e hk he
            rcases Nat.eq_or_lt_of_le hk with rfl | hlt
            · rw [hcur] at he
              cases he
              exact Or.inr ⟨p, hpr, hpk⟩
            · exact hclosed k e (by omega) he
          · rw [List.map_cons, List.nodup_cons]
            refine ⟨?_, hnd⟩
            intro hmem
            obtain ⟨a, ha, hak⟩ := List.mem_map.1 hmem
            exact hnew a ha (by rw [hak]; simp)
          · intro a ha
            rcases List.mem_cons.1 ha with rfl | ha
            · intro hmem
              obtain ⟨q, hq, hqk⟩ := List.mem_map.1 hmem
              exact ht'.1 ⟨q, hq, hqk.trans hpk⟩
            · intro hmem
              exact hnew a ha (by simp only [List.map_append, List.mem_append]; exact Or.inl hmem)
          · intro a ha
            rcases List.mem_cons.1 ha with rfl | ha
            · intro hk
              exact ht'.2 (by unfold top_parent; rw [← hpk, hk])
            · exact hnt a ha
          · intro a ha
            rcases List.mem_cons.1 ha with rfl | ha
            · exact ⟨current, List.getElem?_mem hcur, hp⟩
            · exact hsrc a ha

/-- The pass does not fault on records of a set that has a parent for each of
its records, and it stays inside such a set. -/
theorem find_parent_chain_inv (f : String → Option dsdb_class) (S : dsdb_class → Prop)
    (hS : ∀ e, S e → ¬ top_parent e → ∃ p, f e.subClassOf = some p ∧ S p) (fuel : Nat) :
    ∀ u i, (∀ e ∈ u, S e) →
      find_parent_chain true f fuel u i ≠ .fault ∧
      ∀ r, find_parent_chain true f fuel u i = .ret r → ∀ e ∈ r, S e := by
  induction fuel with
  | zero => intro u i _; simp [find_parent_chain]
  | succ n ih =>
    intro u i hu
    unfold find_parent_chain
    simp only [Bool.not_true, Bool.false_eq_true, if_false]
    cases hc : u[i]? with
    | none =>
      simp only
      refine ⟨by simp, ?_⟩
      intro r hr
      cases hr
      exact hu
    | some current =>
      simp only
      by_cases ht : ((find_poss_parent u current.subClassOf).isSome
          || ldb_attr_cmp "top" current.subClassOf == 0) = true
      · rw [if_pos ht]
        exact ih u (i + 1) hu
      · rw [if_neg ht]
        have ht' := (not_congr (parent_test_iff u current)).1 ht
        rw [not_or] at ht'
        obtain ⟨p, hp, hSp⟩ := hS current (hu current (List.getElem?_mem hc)) ht'.2
        rw [hp]
        simp only
        refine ih (u ++ [p]) (i + 1) ?_
        intro e he
        rcases List.mem_append.1 he with he | he
        · exact hu e he
        · simp at he; subst he; exact hSp

/-- The result of a finished pass does not depend on the fuel: any amount that
covers the records walked over gives it. -/
theorem find_parent_chain_fuel (f : String → Option dsdb_class) (hf : lookup_ok f) (fuel : Nat) :
    ∀ u i r, i ≤ u.length → find_parent_chain true f fuel u i = .ret r →
      ∀ fuel', r.length + 1 ≤ fuel' + i → find_parent_chain true f fuel' u i = .ret r := by
  induction fuel with
  | zero => intro u i r _ h; simp [find_parent_chain] at h
  | succ n ih =>
    intro u i r hi h fuel' hfuel'
    obtain ⟨added, hr, -⟩ := find_parent_chain_ret f hf (n + 1) u i r hi h
    have hlen : u.length ≤ r.length := by rw [hr]; simp
    cases fuel' with
    | zero => omega
    | succ m =>
      unfold find_parent_chain at h ⊢
      simp only [Bool.not_true, Bool.false_eq_true, if_false] at h ⊢
      cases hc : u[i]? with
      | none => rw [hc] at h; exact h
      | some current =>
        rw [hc] at h
        simp only at h ⊢
        have hilt : i < u.length := by
          rcases Nat.lt_or_ge i u.length with hlt | hge
          · exact hlt
          · rw [List.getElem?_eq_none hge] at hc; cases hc
        by_cases ht : ((find_poss_parent u current.subClassOf).isSome
            || ldb_attr_cmp "top" current.subClassOf == 0) = true
        · rw [if_pos ht] at h ⊢
          exact ih u (i + 1) r (by omega) h m (by omega)
        · rw [if_neg ht] at h ⊢
          cases hp : f current.subClassOf with
          | none => rw [hp] at h; cases h
          | some p =>
            rw [hp] at h
            simp only at h ⊢
            exact ih (u ++ [p]) (i + 1) r (by simp; omega) h m (by omega)

/-- The number of records of the catalogue `B` whose name no record of `u`
carries: the parents the pass can still append. -/
theorem missing_lt (B u : List dsdb_class) (p : dsdb_class) (hp : p ∈ B)
    (hnew : class_key p ∉ u.map class_key) :
    (B.filter (fun b => decide (class_key b ∉ (u ++ [p]).map class_key))).length <
      (B.filter (fun b => decide (class_key b ∉ u.map class_key))).length := by
  have heq : B.filter (fun b => decide (class_key b ∉ (u ++ [p]).map class_key)) =
      (B.filter (fun b => decide (class_key b ∉ u.map class_key))).filter
        (fun b => decide (class_key b ≠ class_key p)) := by
    rw [List.filter_filter]
    congr 1
    funext b
    simp only [List.map_append, List.mem_append, List.map_cons, List.map_nil,
      List.mem_singleton, not_or, Bool.decide_and, Bool.and_comm]
  rw [heq]
  apply List.length_filter_lt_length_iff_exists.2
  exact ⟨p, List.mem_filter.2 ⟨hp, by simpa using hnew⟩, by simp⟩

/-- With a catalogue `B` that holds every record the lookup can return, the
pass ends: `|B| + |u| + 1` units of fuel are enough. -/
theorem find_parent_chain_terminates (f : String → Option dsdb_class) (hf : lookup_ok f)
    (B : List dsdb_class) (hB : ∀ n c, f n = some c → c ∈ B) (fuel : Nat) :
    ∀ u i, i ≤ u.length →
      (B.filter (fun b => decide (class_key b ∉ u.map class_key))).length
        + (u.length - i) + 1 ≤ fuel →
      find_parent_chain true f fuel u i ≠ .out_of_fuel := by
  induction fuel with
  | zero => intro u i _ h; omega
  | succ n ih =>
    intro u i hi hfuel
    unfold find_parent_chain
    simp only [Bool.not_true, Bool.false_eq_true, if_false]
    cases hc : u[i]? with
    | none => simp
    | some current =>
      simp only
      have hilt : i < u.length := by
        rcases Nat.lt_or_ge i u.length with hlt | hge
        · exact hlt
        · rw [List.getElem?_eq_none hge] at hc; cases hc
      by_cases ht : ((find_poss_parent u current.subClassOf).isSome
          || ldb_attr_cmp "top" current.subClassOf == 0) = true
      · rw [if_pos ht]
        exact ih u (i + 1) (by omega) (by omega)
      · rw [if_neg ht]
        have ht' := (not_congr (parent_test_iff u current)).1 ht
        rw [not_or] at ht'
        cases hp : f current.subClassOf with
        | none => simp
        | some p =>
          simp only
          have hpk : class_key p = strlower current.subClassOf := hf.name_eq _ _ hp
          have hnew : class_key p ∉ u.map class_key := by
            intro hmem
            obtain ⟨q, hq, hqk⟩ := List.mem_map.1 hmem
            exact ht'.1 ⟨q, hq, hqk.trans hpk⟩
          have hlt := missing_lt B u p (hB _ _ hp) hnew
          refine ih (u ++ [p]) (i + 1) (by simp; omega) ?_
          simp only [List.length_append, List.length_singleton]
          omega

/-! ## The sorter as a whole -/

/-- The result of the sorter with a schema, when it is a chain. -/
theorem objectclass_sort_on_ok (f : String → Option dsdb_class) (fuel : Nat)
    (values : List String) (chain : List class_list)
    (h : objectclass_sort_on true f fuel values = .ret (.ok chain)) :
    values.any (bad_value f) = false ∧
    ∃ final, find_parent_chain true f fuel (named_classes f values) 0 = .ret final ∧
      (∀ x ∈ final, x.subClass_order < INT_MAX) ∧ final.length ≤ fuel ∧
      chain = ⟨f "top"⟩ :: (sort_by_order final).map node := by
  unfold objectclass_sort_on at h
  rw [dump_values_eq] at h
  cases hb : values.any (bad_value f) with
  | true => rw [hb] at h; simp at h
  | false =>
    rw [hb] at h
    simp only [Bool.false_eq_true, if_false, List.nil_append] at h
    refine ⟨rfl, ?_⟩
    cases hc : find_parent_chain true f fuel (named_classes f values) 0 with
    | fault => rw [hc] at h; simp at h
    | out_of_fuel => rw [hc] at h; simp at h
    | ret final =>
      rw [hc] at h
      simp only at h
      cases hs : select_loop true fuel final [⟨f "top"⟩] with
      | fault => rw [hs] at h; simp at h
      | out_of_fuel => rw [hs] at h; simp at h
      | ret r =>
        obtain ⟨hr, hall, hlen, -⟩ := select_loop_ret fuel _ _ _ hs
        rw [hs, hr] at h
        simp at h
        exact ⟨final, rfl, hall, hlen, h.symm⟩

/-- The sorter with a schema returns the chain when the values are good, the
parent-chain pass ends and the fuel covers the selection loop. -/
theorem objectclass_sort_on_enough (f : String → Option dsdb_class) (fuel : Nat)
    (values : List String) (final : List dsdb_class)
    (hb : values.any (bad_value f) = false)
    (hc : find_parent_chain true f fuel (named_classes f values) 0 = .ret final)
    (hall : ∀ x ∈ final, x.subClass_order < INT_MAX) (hlen : final.length ≤ fuel) :
    objectclass_sort_on true f fuel values =
      .ret (.ok (⟨f "top"⟩ :: (sort_by_order final).map node)) := by
  have h1 : 1 ≤ fuel := by
    cases fuel with
    | zero => simp [find_parent_chain] at hc
    | succ n => omega
  unfold objectclass_sort_on
  rw [dump_values_eq, hb]
  simp only [Bool.false_eq_true, if_false, List.nil_append]
  rw [hc]
  simp only
  rw [select_loop_enough fuel final _ hall hlen h1]
  simp

theorem objectclass_sort_on_error (schema_present : Bool) (f : String → Option dsdb_class)
    (fuel : Nat) (values : List String) (e : ldb_err)
    (h : objectclass_sort_on schema_present f fuel values = .ret (.error e)) :
    e = LDB_ERR_NO_SUCH_ATTRIBUTE ∧ values.any (bad_value f) = true := by
  unfold objectclass_sort_on at h
  rw [dump_values_eq] at h
  cases hb : values.any (bad_value f) with
  | true =>
    rw [hb] at h
    simp at h
    exact ⟨h.symm, rfl⟩
  | false =>
    rw [hb] at h
    simp only [Bool.false_eq_true, if_false, List.nil_append] at h
    cases hc : find_parent_chain schema_present f fuel (named_classes f values) 0 with
    | fault => rw [hc] at h; simp at h
    | out_of_fuel => rw [hc] at h; simp at h
    | ret final =>
      rw [hc] at h
      simp only at h
      cases hs : select_loop schema_present fuel final [⟨f "top"⟩] with
      | fault => rw [hs] at h; simp at h
      | out_of_fuel => rw [hs] at h; simp at h
      | ret r =>
        have hnil := select_loop_ret_nil _ _ _ _ _ hs
        rw [hs] at h
        obtain ⟨r1, r2⟩ := r
        simp only at hnil
        subst hnil
        simp at h

theorem objectclass_sort_on_bad (schema_present : Bool) (f : String → Option dsdb_class)
    (fuel : Nat) (values : List String) (hb : values.any (bad_value f) = true) :
    objectclass_sort_on schema_present f fuel values = .ret (.error LDB_ERR_NO_SUCH_ATTRIBUTE) := by
  unfold objectclass_sort_on
  rw [dump_values_eq, hb]
  simp

theorem bad_value_iff (f : String → Option dsdb_class) (v : String) :
    bad_value f v = true ↔ (f v = none ∨ ∃ c, f v = some c ∧ c.isDefunct = true) := by
  unfold bad_value
  cases h : f v <;> simp

/-! ## The error results of the sorter -/

/-- C4: with a schema present, `objectclass_sort` returns
`LDB_ERR_NO_SUCH_ATTRIBUTE` exactly when some input value does not resolve to
a class of the schema or resolves to a class marked defunct; whatever fuel the
loops are given, no other situation produces this code. -/
theorem objectclass_sort_no_such_attribute_iff (schema : dsdb_schema) (fuel : Nat)
    (values : List String) :
    objectclass_sort schema fuel values = .ret (.error LDB_ERR_NO_SUCH_ATTRIBUTE) ↔
      ∃ v ∈ values, dsdb_class_by_lDAPDisplayName schema v = none ∨
        ∃ c, dsdb_class_by_lDAPDisplayName schema v = some c ∧ c.isDefunct = true := by
  unfold objectclass_sort
  constructor
  · intro h
    have hb := (objectclass_sort_on_error _ _ _ _ _ h).2
    obtain ⟨v, hv, hbad⟩ := List.any_eq_true.1 hb
    exact ⟨v, hv, (bad_value_iff _ _).1 hbad⟩
  · rintro ⟨v, hv, hbad⟩
    exact objectclass_sort_on_bad _ _ _ _
      (List.any_eq_true.2 ⟨v, hv, (bad_value_iff _ _).2 hbad⟩)

/-- C6 (not what the code does): on the schema in which `A` and `B` name each
other as parent, sorting the input `A` succeeds, with the chain `top, A, B`,
for every fuel from 3 on; and for no schema, fuel and input does
`objectclass_sort` return `LDB_ERR_OBJECT_CLASS_VIOLATION`: the selection loop
only ends with `unsorted` empty, so the error return behind it is never
reached. -/
theorem objectclass_sort_cycle_succeeds :
    (∀ fuel, 3 ≤ fuel → objectclass_sort cycle_schema fuel ["A"] =
      .ret (.ok [node (plain_class "top" "top" 0), node (plain_class "A" "B" 1),
        node (plain_class "B" "A" 2)])) ∧
    ∀ (schema : dsdb_schema) (fuel : Nat) (values : List String),
      objectclass_sort schema fuel values ≠ .ret (.error LDB_ERR_OBJECT_CLASS_VIOLATION) := by
  constructor
  · intro fuel hfuel
    have h3 : find_parent_chain true (dsdb_class_by_lDAPDisplayName cycle_schema) 3
        (named_classes (dsdb_class_by_lDAPDisplayName cycle_schema) ["A"]) 0 =
        .ret [plain_class "A" "B" 1, plain_class "B" "A" 2] := by decide
    have hf := find_parent_chain_fuel _ (lookup_ok_schema cycle_schema) 3 _ 0 _ (by simp) h3
      fuel (by simp; omega)
    have := objectclass_sort_on_enough _ fuel ["A"] _ (by decide) hf (by decide)
      (by simp; omega)
    unfold objectclass_sort
    rw [this]
    decide
  · intro schema fuel values h
    have := (objectclass_sort_on_error _ _ _ _ _ h).1
    cases this

/-! ## The working list -/

theorem mem_named_classes {f : String → Option dsdb_class} {values : List String}
    {c : dsdb_class} :
    c ∈ named_classes f values ↔
      (∃ v ∈ values, f v = some c) ∧ class_key c ≠ strlower "top" := by
  unfold named_classes
  rw [List.mem_filter, List.mem_filterMap, ldb_attr_cmp_bne_zero, class_key]
  constructor
  · rintro ⟨h1, h2⟩; exact ⟨h1, fun h => h2 h.symm⟩
  · rintro ⟨h1, h2⟩; exact ⟨h1, fun h => h2 h.symm⟩

theorem named_classes_length_le (f : String → Option dsdb_class) (values : List String) :
    (named_classes f values).length ≤ values.length := by
  unfold named_classes
  exact (List.length_filter_le _ _).trans (List.length_filterMap_le _ _)

theorem named_classes_perm (f : String → Option dsdb_class) {v₁ v₂ : List String}
    (h : v₁.Perm v₂) : (named_classes f v₁).Perm (named_classes f v₂) :=
  (h.filterMap f).filter _

/-- The names of the working list are the names of the values other than
`top`, when every value resolves. -/
theorem named_classes_keys (f : String → Option dsdb_class) (hf : lookup_ok f) :
    ∀ values : List String, values.any (bad_value f) = false →
      (named_classes f values).map class_key =
        (values.filter (fun v => ldb_attr_cmp "top" v != 0)).map strlower := by
  intro values
  induction values with
  | nil => intro _; rfl
  | cons v vs ih =>
    intro hb
    rw [List.any_cons, Bool.or_eq_false_iff] at hb
    have ih' := ih hb.2
    unfold named_classes at ih' ⊢
    cases hv : f v with
    | none => simp [bad_value, hv] at hb
    | some c =>
      have hk : strlower c.lDAPDisplayName = strlower v := hf.name_eq _ _ hv
      have hcond : (ldb_attr_cmp "top" c.lDAPDisplayName != 0) = (ldb_attr_cmp "top" v != 0) := by
        simp only [ldb_attr_cmp, hk]
      rw [List.filterMap_cons_some hv, List.filter_cons, List.filter_cons, hcond]
      by_cases ht : (ldb_attr_cmp "top" v != 0) = true
      · rw [if_pos ht, if_pos ht, List.map_cons, List.map_cons, ih', class_key, hk]
      · rw [if_neg ht, if_neg ht, ih']

/-- The records of a finished parent-chain pass resolve to themselves. -/
theorem find_parent_chain_self (f : String → Option dsdb_class) (hf : lookup_ok f) (fuel : Nat)
    (u r : List dsdb_class) (h : find_parent_chain true f fuel u 0 = .ret r)
    (hu : ∀ e ∈ u, f e.lDAPDisplayName = some e) : ∀ e ∈ r, f e.lDAPDisplayName = some e := by
  obtain ⟨added, hr, -, -, -, -, -, hsrc⟩ := find_parent_chain_ret f hf fuel u 0 r (by omega) h
  intro e he
  rw [hr] at he
  rcases List.mem_append.1 he with he | he
  · exact hu e he
  · obtain ⟨e', -, he'⟩ := hsrc e he
    rw [← he']
    exact hf.congr _ _ (hf.name_eq _ _ he')

theorem named_classes_self (f : String → Option dsdb_class) (hf : lookup_ok f)
    (values : List String) : ∀ e ∈ named_classes f values, f e.lDAPDisplayName = some e := by
  intro e he
  obtain ⟨⟨v, -, hv⟩, -⟩ := mem_named_classes.1 he
  rw [← hv]
  exact hf.congr _ _ (hf.name_eq _ _ hv)

/-- The working list after a finished parent-chain pass is closed under
parents. -/
theorem find_parent_chain_closed (f : String → Option dsdb_class) (hf : lookup_ok f)
    (fuel : Nat) (u r : List dsdb_class) (h : find_parent_chain true f fuel u 0 = .ret r) :
    parents_closed r := by
  obtain ⟨added, -, -, hclosed, -⟩ := find_parent_chain_ret f hf fuel u 0 r (by omega) h
  intro e he
  obtain ⟨k, hk⟩ := List.mem_iff_getElem?.1 he
  exact hclosed k e (by omega) hk

/-- No record of the working list is named `top`. -/
theorem find_parent_chain_not_top (f : String → Option dsdb_class) (hf : lookup_ok f)
    (fuel : Nat) (values : List String) (r : List dsdb_class)
    (h : find_parent_chain true f fuel (named_classes f values) 0 = .ret r) :
    ∀ e ∈ r, class_key e ≠ strlower "top" := by
  obtain ⟨added, hr, -, -, -, -, hnt, -⟩ := find_parent_chain_ret f hf fuel _ 0 r (by omega) h
  intro e he
  rw [hr] at he
  rcases List.mem_append.1 he with he | he
  · exact (mem_named_classes.1 he).2
  · exact hnt e he

theorem node_injective : Function.Injective node := by
  intro a b h
  simpa [node] using h

theorem sort_by_order_perm (l : List dsdb_class) : (sort_by_order l).Perm l :=
  List.perm_insertionSort order_le l

theorem sort_by_order_sorted (l : List dsdb_class) : (sort_by_order l).Sorted order_le :=
  haveI := order_le_total
  haveI := order_le_trans
  List.sorted_insertionSort order_le l

/-! ## The chain -/

/-- C2 as stated fails: the input that names `person` twice, in two spellings,
is sorted into a chain that holds the class `person` twice. -/
theorem objectclass_sort_keeps_duplicates :
    ∃ chain, objectclass_sort sample_schema 3 ["person", "PERSON"] = .ret (.ok chain) ∧
      chain.count (node (plain_class "person" "top" 1)) = 2 :=
  ⟨[node (plain_class "top" "top" 0), node (plain_class "person" "top" 1),
    node (plain_class "person" "top" 1)], by decide, by decide⟩

/-- C2, amended: when `objectclass_sort` succeeds on an input that names no
class other than `top` more than once (names compared without regard to case),
the chain has no class twice and holds the class of every input value exactly
once; `top` may be listed, any number of times. -/
theorem objectclass_sort_each_class_once (schema : dsdb_schema) (fuel : Nat)
    (values : List String) (chain : List class_list)
    (h : objectclass_sort schema fuel values = .ret (.ok chain))
    (hdistinct : ((values.filter (fun v => ldb_attr_cmp "top" v != 0)).map strlower).Nodup) :
    chain.Nodup ∧
      ∀ v ∈ values, chain.count ⟨dsdb_class_by_lDAPDisplayName schema v⟩ = 1 := by
  have hf := lookup_ok_schema schema
  obtain ⟨hb, final, hc, -, -, hchain⟩ := objectclass_sort_on_ok _ _ _ _ h
  obtain ⟨added, hr, -, -, hnd, hnew, -, -⟩ :=
    find_parent_chain_ret _ hf fuel _ 0 final (by omega) hc
  have hnt := find_parent_chain_not_top _ hf fuel values final hc
  have hkeys : (final.map class_key).Nodup := by
    rw [hr, List.map_append, List.nodup_append]
    refine ⟨?_, hnd, ?_⟩
    · rw [named_classes_keys _ hf values hb]; exact hdistinct
    · intro k hk1 hk2
      obtain ⟨a, ha, rfl⟩ := List.mem_map.1 hk2
      exact hnew a ha hk1
  have hfinal : final.Nodup := List.Nodup.of_map _ hkeys
  have hsorted : ((sort_by_order final).map node).Nodup :=
    ((sort_by_order_perm final).nodup_iff.2 hfinal).map node_injective
  have hhead : (⟨dsdb_class_by_lDAPDisplayName schema "top"⟩ : class_list) ∉
      (sort_by_order final).map node := by
    intro hmem
    obtain ⟨c, hc', hcn⟩ := List.mem_map.1 hmem
    have hct : dsdb_class_by_lDAPDisplayName schema "top" = some c := by
      simpa [node] using hcn.symm
    exact hnt c ((sort_by_order_perm final).subset hc') (hf.name_eq _ _ hct)
  have hnodup : chain.Nodup := by
    rw [hchain]; exact List.nodup_cons.2 ⟨hhead, hsorted⟩
  refine ⟨hnodup, ?_⟩
  intro v hv
  apply List.count_eq_one_of_mem hnodup
  have hgood : bad_value (dsdb_class_by_lDAPDisplayName schema) v = false := by
    cases hbv : bad_value (dsdb_class_by_lDAPDisplayName schema) v with
    | false => rfl
    | true => rw [List.any_eq_true.2 ⟨v, hv, hbv⟩] at hb; cases hb
  cases hl : dsdb_class_by_lDAPDisplayName schema v with
  | none => simp [bad_value, hl] at hgood
  | some c =>
    rw [hchain]
    by_cases hk : class_key c = strlower "top"
    · have : dsdb_class_by_lDAPDisplayName schema "top" = some c := by
        rw [← hl]
        exact hf.congr _ _ ((hf.name_eq _ _ hl).symm.trans hk).symm
      rw [this]
      exact List.mem_cons_self _ _
    · apply List.mem_cons_of_mem
      have hcn : c ∈ named_classes (dsdb_class_by_lDAPDisplayName schema) values :=
        mem_named_classes.2 ⟨⟨v, hv, hl⟩, hk⟩
      have hcf : c ∈ final := by rw [hr]; exact List.mem_append_left _ hcn
      exact List.mem_map.2 ⟨c, (sort_by_order_perm final).symm.subset hcf, rfl⟩

/-- The amended C2 at work: `top` listed twice and `organizationalPerson` with
its parent `person` left out. -/
theorem objectclass_sort_each_class_once_witness :
    objectclass_sort sample_schema 3 ["top", "organizationalPerson", "TOP"] =
        .ret (.ok [node (plain_class "top" "top" 0), node (plain_class "person" "top" 1),
          node (plain_class "organizationalPerson" "person" 2)]) ∧
      ((["top", "organizationalPerson", "TOP"].filter
          (fun v => ldb_attr_cmp "top" v != 0)).map strlower).Nodup ∧
      (List.Nodup [node (plain_class "top" "top" 0), node (plain_class "person" "top" 1),
          node (plain_class "organizationalPerson" "person" 2)] ∧
        ∀ v ∈ ["top", "organizationalPerson", "TOP"],
          List.count ⟨dsdb_class_by_lDAPDisplayName sample_schema v⟩
            [node (plain_class "top" "top" 0), node (plain_class "person" "top" 1),
              node (plain_class "organizationalPerson" "person" 2)] = 1) :=
  ⟨by decide, by decide,
    objectclass_sort_each_class_once sample_schema 3 ["top", "organizationalPerson", "TOP"]
      _ (by decide) (by decide)⟩

/-! ## Consistent schemas -/

/-- In a sorted list a record of lower rank stands before any record of higher
rank. -/
theorem sorted_lower_before (l : List dsdb_class) (hs : l.Sorted order_le) (p c : dsdb_class)
    (hp : p ∈ l) (hlt : p.subClass_order < c.subClass_order) (j : Nat) (hj : l[j]? = some c) :
    ∃ i, i < j ∧ l[i]? = some p := by
  obtain ⟨i, hi⟩ := List.mem_iff_getElem?.1 hp
  refine ⟨i, ?_, hi⟩
  by_contra hge
  have hij : j ≤ i := Nat.le_of_not_lt hge
  obtain ⟨hjl, hjc⟩ := List.getElem?_eq_some.1 hj
  obtain ⟨hil, hip⟩ := List.getElem?_eq_some.1 hi
  rcases Nat.eq_or_lt_of_le hij with heq | hlt'
  · subst heq
    rw [hjc] at hip
    subst hip
    omega
  · have := List.pairwise_iff_getElem.1 hs j i hjl hil hlt'
    rw [hjc, hip] at this
    unfold order_le at this
    omega

/-- On a consistent schema with ranks below `INT_MAX` the parent-chain pass
ends without a fault, for every fuel from `|values| + |classes| + 1` on, and
its records are classes of the schema other than `top`. -/
theorem find_parent_chain_consistent (schema : dsdb_schema) (hcons : schema_consistent schema)
    (values : List String) :
    ∃ final, (∀ fuel, values.length + schema.classes.length + 1 ≤ fuel →
        find_parent_chain true (dsdb_class_by_lDAPDisplayName schema) fuel
          (named_classes (dsdb_class_by_lDAPDisplayName schema) values) 0 = .ret final) ∧
      final.length ≤ values.length + schema.classes.length ∧
      ∀ e ∈ final, e ∈ schema.classes := by
  have hf := lookup_ok_schema schema
  let f := dsdb_class_by_lDAPDisplayName schema
  let S : dsdb_class → Prop := fun e => e ∈ schema.classes ∧ class_key e ≠ strlower "top"
  have hS : ∀ e, S e → ¬ top_parent e → ∃ p, f e.subClassOf = some p ∧ S p := by
    intro e he ht
    obtain ⟨p, hp, -⟩ := hcons.2 e he.1 he.2
    have hp' : f e.subClassOf = some p := hp
    refine ⟨p, hp', (class_by_name_some hp').1, ?_⟩
    intro hk
    exact ht (hk.symm.trans (hf.name_eq _ _ hp'))
  have hinit : ∀ e ∈ named_classes f values, S e := by
    intro e he
    obtain ⟨⟨v, -, hv⟩, hk⟩ := mem_named_classes.1 he
    exact ⟨(class_by_name_some hv).1, hk⟩
  have hlen := named_classes_length_le f values
  have hB : (schema.classes.filter
      (fun b => decide (class_key b ∉ (named_classes f values).map class_key))).length
      ≤ schema.classes.length := List.length_filter_le _ _
  have hrun : ∀ fuel, values.length + schema.classes.length + 1 ≤ fuel →
      ∃ final, find_parent_chain true f fuel (named_classes f values) 0 = .ret final := by
    intro fuel hfuel
    have h1 := (find_parent_chain_inv f S hS fuel (named_classes f values) 0 hinit).1
    have h2 := find_parent_chain_terminates f hf schema.classes
      (fun n c h => (class_by_name_some h).1) fuel (named_classes f values) 0 (by omega)
      (by omega)
    cases h : find_parent_chain true f fuel (named_classes f values) 0 with
    | ret r => exact ⟨r, rfl⟩
    | fault => exact absurd h h1
    | out_of_fuel => exact absurd h h2
  obtain ⟨final, hfinal⟩ := hrun _ (le_refl _)
  obtain ⟨added, -, hbound, -⟩ := find_parent_chain_ret f hf _ _ 0 final (by omega) hfinal
  refine ⟨final, ?_, by omega, ?_⟩
  · intro fuel hfuel
    exact find_parent_chain_fuel f hf _ _ 0 final (by omega) hfinal fuel (by omega)
  · intro e he
    exact ((find_parent_chain_inv f S hS _ (named_classes f values) 0 hinit).2 final hfinal
      e he).1

theorem is_ancestor_not_top {schema : dsdb_schema} {a c : dsdb_class}
    (h : is_ancestor schema a c) : class_key c ≠ strlower "top" := by
  cases h with
  | parent h1 _ => exact h1
  | step h1 _ _ => exact h1

/-- In the chain of a consistent schema the parent of a record of the working
list stands before the record, and it is `top` or a record of the working
list. -/
theorem parent_before (schema : dsdb_schema) (hcons : schema_consistent schema)
    (final : List dsdb_class) (hclosed : parents_closed final)
    (hself : ∀ e ∈ final, dsdb_class_by_lDAPDisplayName schema e.lDAPDisplayName = some e)
    (hin : ∀ e ∈ final, e ∈ schema.classes)
    (hnt : ∀ e ∈ final, class_key e ≠ strlower "top")
    (c p : dsdb_class) (hc : c ∈ final)
    (hp : dsdb_class_by_lDAPDisplayName schema c.subClassOf = some p) (j : Nat)
    (hj : (⟨dsdb_class_by_lDAPDisplayName schema "top"⟩ ::
      (sort_by_order final).map node)[j]? = some (node c)) :
    (∃ i, i < j ∧ (⟨dsdb_class_by_lDAPDisplayName schema "top"⟩ ::
      (sort_by_order final).map node)[i]? = some (node p)) ∧
    (class_key p ≠ strlower "top" → p ∈ final) := by
  have hf := lookup_ok_schema schema
  have hpk : class_key p = strlower c.subClassOf := hf.name_eq _ _ hp
  have hj0 : j ≠ 0 := by
    rintro rfl
    have : dsdb_class_by_lDAPDisplayName schema "top" = some c := by simpa [node] using hj
    exact hnt c hc (hf.name_eq _ _ this)
  obtain ⟨j', rfl⟩ := Nat.exists_eq_succ_of_ne_zero hj0
  rcases hclosed c hc with htop | ⟨q, hq, hqk⟩
  · have hpt : dsdb_class_by_lDAPDisplayName schema "top" = some p := by
      rw [← hp]; exact hf.congr _ _ htop
    refine ⟨⟨0, by omega, by simp [hpt, node]⟩, ?_⟩
    intro hk
    exact absurd (hf.name_eq _ _ hpt) hk
  · have hqp : q = p := by
      have h1 : dsdb_class_by_lDAPDisplayName schema c.subClassOf = some q := by
        rw [← hself q hq]; exact hf.congr _ _ hqk.symm
      rw [hp] at h1
      exact (Option.some.inj h1).symm
    subst hqp
    refine ⟨?_, fun _ => hq⟩
    obtain ⟨p', hp', hlt⟩ := hcons.2 c (hin c hc) (hnt c hc)
    have hp'' : dsdb_class_by_lDAPDisplayName schema c.subClassOf = some p' := hp'
    rw [hp] at hp''
    cases hp''
    have hjc : (sort_by_order final)[j']? = some c := by
      have : ((sort_by_order final).map node)[j']? = some (node c) := by simpa using hj
      rw [List.getElem?_map] at this
      cases hx : (sort_by_order final)[j']? with
      | none => rw [hx] at this; cases this
      | some x =>
        rw [hx] at this
        simp only [Option.map_some'] at this
        rw [node_injective (Option.some.inj this)]
    obtain ⟨i, hi, hip⟩ := sorted_lower_before _ (sort_by_order_sorted final) q c
      ((sort_by_order_perm final).symm.subset hq) hlt j' hjc
    refine ⟨i + 1, by omega, ?_⟩
    simp [List.getElem?_map, hip]

/-- C1 as stated fails: the schema with the class `deep` of rank `INT_MAX`
below `top` is consistent and `deep` is a known class, yet sorting `deep` never
returns: the scan `subClass_order < lowest` starts from `INT_MAX` and never
selects the record. -/
theorem objectclass_sort_int_max_never_returns :
    schema_consistent int_max_schema ∧ values_known int_max_schema ["deep"] ∧
      ∀ fuel, objectclass_sort int_max_schema fuel ["deep"] = .out_of_fuel := by
  refine ⟨by decide, by decide, ?_⟩
  intro fuel
  have hb : List.any ["deep"] (bad_value (dsdb_class_by_lDAPDisplayName int_max_schema))
      = false := by decide
  have hn : named_classes (dsdb_class_by_lDAPDisplayName int_max_schema) ["deep"]
      = [plain_class "deep" "top" INT_MAX] := by decide
  unfold objectclass_sort objectclass_sort_on
  rw [dump_values_eq, hb]
  simp only [Bool.false_eq_true, if_false, List.nil_append, hn]
  cases hc : find_parent_chain true (dsdb_class_by_lDAPDisplayName int_max_schema) fuel
      [plain_class "deep" "top" INT_MAX] 0 with
  | fault =>
    have hS : ∀ e, e = plain_class "deep" "top" INT_MAX → ¬ top_parent e →
        ∃ p, dsdb_class_by_lDAPDisplayName int_max_schema e.subClassOf = some p ∧
          p = plain_class "deep" "top" INT_MAX := by
      intro e he ht
      subst he
      exact absurd (by unfold top_parent; decide) ht
    exact absurd hc (find_parent_chain_inv _ _ hS fuel _ 0 (by simp)).1
  | out_of_fuel => rfl
  | ret final =>
    simp only
    obtain ⟨added, hr, -⟩ := find_parent_chain_ret _ (lookup_ok_schema _) fuel _ 0 final
      (by omega) hc
    rw [select_loop_int_max final _ (plain_class "deep" "top" INT_MAX) (by rw [hr]; simp)
      (le_refl _) fuel]

/-- C1, amended by the bound on the ranks: on a consistent schema whose ranks
are all below `INT_MAX`, for every input of known, non-defunct class names,
`objectclass_sort` succeeds (for every fuel from `|values| + |classes| + 1`
on, with one and the same chain), the chain starts with the class `top`, every
class named in the input is in the chain, and each of its ancestors stands in
the chain at an earlier position than the class. -/
theorem objectclass_sort_consistent (schema : dsdb_schema) (hcons : schema_consistent schema)
    (hmax : ranks_below_int_max schema) (values : List String)
    (hknown : values_known schema values) :
    ∃ chain,
      (∀ fuel, values.length + schema.classes.length + 1 ≤ fuel →
        objectclass_sort schema fuel values = .ret (.ok chain)) ∧
      (∃ t, dsdb_class_by_lDAPDisplayName schema "top" = some t ∧
        chain.head? = some (node t)) ∧
      ∀ v ∈ values, ∀ c, dsdb_class_by_lDAPDisplayName schema v = some c →
        (∃ j : Nat, chain[j]? = some (node c)) ∧
        ∀ a, is_ancestor schema a c → ∀ j : Nat, chain[j]? = some (node c) →
          ∃ i : Nat, i < j ∧ chain[i]? = some (node a) := by
  have hf := lookup_ok_schema schema
  obtain ⟨final, hrun, hlen, hin⟩ := find_parent_chain_consistent schema hcons values
  have hb : values.any (bad_value (dsdb_class_by_lDAPDisplayName schema)) = false := by
    cases hany : values.any (bad_value (dsdb_class_by_lDAPDisplayName schema)) with
    | false => rfl
    | true =>
      obtain ⟨v, hv, hbad⟩ := List.any_eq_true.1 hany
      rw [hknown v hv] at hbad
      cases hbad
  have hrun0 := hrun _ (le_refl _)
  have hclosed := find_parent_chain_closed _ hf _ _ final hrun0
  have hself := find_parent_chain_self _ hf _ _ final hrun0 (named_classes_self _ hf values)
  have hnt := find_parent_chain_not_top _ hf _ values final hrun0
  obtain ⟨added, hr, -⟩ := find_parent_chain_ret _ hf _ _ 0 final (by omega) hrun0
  obtain ⟨t, ht⟩ := Option.isSome_iff_exists.1 hcons.1
  refine ⟨⟨dsdb_class_by_lDAPDisplayName schema "top"⟩ :: (sort_by_order final).map node,
    ?_, ⟨t, ht, by simp [ht, node]⟩, ?_⟩
  · intro fuel hfuel
    exact objectclass_sort_on_enough _ fuel values final hb (hrun fuel hfuel)
      (fun x hx => hmax x (hin x hx)) (by omega)
  · intro v hv c hvc
    by_cases hk : class_key c = strlower "top"
    · constructor
      · refine ⟨0, ?_⟩
        have : dsdb_class_by_lDAPDisplayName schema "top" = some c := by
          rw [← hvc]
          exact hf.congr _ _ ((hf.name_eq _ _ hvc).symm.trans hk).symm
        simp [this, node]
      · intro a ha
        exact absurd hk (is_ancestor_not_top ha)
    · have hcn : c ∈ named_classes (dsdb_class_by_lDAPDisplayName schema) values :=
        mem_named_classes.2 ⟨⟨v, hv, hvc⟩, hk⟩
      have hcf : c ∈ final := by rw [hr]; exact List.mem_append_left _ hcn
      constructor
      · obtain ⟨j, hj⟩ := List.mem_iff_getElem?.1
          ((sort_by_order_perm final).symm.subset hcf)
        exact ⟨j + 1, by simp [List.getElem?_map, hj]⟩
      · intro a ha
        have key : ∀ a c, is_ancestor schema a c → c ∈ final → ∀ j : Nat,
            (⟨dsdb_class_by_lDAPDisplayName schema "top"⟩ ::
              (sort_by_order final).map node)[j]? = some (node c) →
            ∃ i : Nat, i < j ∧ (⟨dsdb_class_by_lDAPDisplayName schema "top"⟩ ::
              (sort_by_order final).map node)[i]? = some (node a) := by
          intro a c h
          induction h with
          | parent hcnt hp =>
            intro hc j hj
            exact (parent_before schema hcons final hclosed hself hin hnt _ _ hc hp j hj).1
          | step hcnt hp hanc ih =>
            intro hc j hj
            obtain ⟨⟨i, hij, hi⟩, hpf⟩ :=
              parent_before schema hcons final hclosed hself hin hnt _ _ hc hp j hj
            obtain ⟨i', hi'j, hi'⟩ := ih (hpf (is_ancestor_not_top hanc)) i hi
            exact ⟨i', by omega, hi'⟩
        exact key a c ha hcf

/-- The amended C1 at work on the sample schema, for the input that names
`organizationalPerson` and `top`. -/
theorem objectclass_sort_consistent_witness :
    schema_consistent sample_schema ∧ ranks_below_int_max sample_schema ∧
      values_known sample_schema ["organizationalPerson", "top"] ∧
      ∃ chain,
        (∀ fuel, ["organizationalPerson", "top"].length + sample_schema.classes.length + 1
            ≤ fuel →
          objectclass_sort sample_schema fuel ["organizationalPerson", "top"] =
            .ret (.ok chain)) ∧
        (∃ t, dsdb_class_by_lDAPDisplayName sample_schema "top" = some t ∧
          chain.head? = some (node t)) ∧
        ∀ v ∈ ["organizationalPerson", "top"], ∀ c,
          dsdb_class_by_lDAPDisplayName sample_schema v = some c →
          (∃ j : Nat, chain[j]? = some (node c)) ∧
          ∀ a, is_ancestor sample_schema a c → ∀ j : Nat, chain[j]? = some (node c) →
            ∃ i : Nat, i < j ∧ chain[i]? = some (node a) :=
  ⟨by decide, by decide, by decide,
    objectclass_sort_consistent sample_schema (by decide) (by decide)
      ["organizationalPerson", "top"] (by decide)⟩

/-! ## The order of the input values -/

/-- Two sorted arrangements of the same records are equal when records that
may stand before each other are equal. -/
theorem sorted_perm_unique {α : Type} (r : α → α → Prop) (P : α → Prop)
    (hanti : ∀ a b, P a → P b → r a b → r b a → a = b) :
    ∀ l₁ l₂ : List α, l₁.Perm l₂ → l₁.Sorted r → l₂.Sorted r → (∀ x ∈ l₁, P x) → l₁ = l₂ := by
  intro l₁
  induction l₁ with
  | nil => intro l₂ hp _ _ _; exact hp.nil_eq
  | cons a l₁ ih =>
    intro l₂ hp hs₁ hs₂ hP
    cases l₂ with
    | nil => exact absurd hp.length_eq (by simp)
    | cons b l₂ =>
      have hs₁' := List.sorted_cons.1 hs₁
      have hs₂' := List.sorted_cons.1 hs₂
      have hab : a = b := by
        have ha : a ∈ b :: l₂ := hp.subset (List.mem_cons_self _ _)
        have hb : b ∈ a :: l₁ := hp.symm.subset (List.mem_cons_self _ _)
        rcases List.mem_cons.1 ha with h | h
        · exact h
        · rcases List.mem_cons.1 hb with h' | h'
          · exact h'.symm
          · exact hanti a b (hP a (List.mem_cons_self _ _)) (hP b hb) (hs₁'.1 b h') (hs₂'.1 a h)
      subst hab
      rw [ih l₂ (List.Perm.cons_inv hp) hs₁'.2 hs₂'.2
        (fun x hx => hP x (List.mem_cons_of_mem _ hx))]

/-- The parent-chain pass on a rearranged working list ends with the same fuel
and appends the same parents. -/
theorem find_parent_chain_perm (f : String → Option dsdb_class) (hf : lookup_ok f)
    (B : List dsdb_class) (hB : ∀ n c, f n = some c → c ∈ B)
    (u₁ u₂ r₁ : List dsdb_class) (hperm : u₁.Perm u₂)
    (hself : ∀ e ∈ u₁, f e.lDAPDisplayName = some e) (fuel : Nat)
    (h₁ : find_parent_chain true f fuel u₁ 0 = .ret r₁) :
    ∃ r₂, find_parent_chain true f fuel u₂ 0 = .ret r₂ ∧ r₂.Perm r₁ := by
  obtain ⟨added₁, hr₁, hfuel₁, -, hnd₁, hnew₁, -, -⟩ :=
    find_parent_chain_ret f hf fuel u₁ 0 r₁ (by omega) h₁
  have hclosed₁ := find_parent_chain_closed f hf fuel u₁ r₁ h₁
  have hself₁ := find_parent_chain_self f hf fuel u₁ r₁ h₁ hself
  have hS₁ : ∀ e, e ∈ r₁ → ¬ top_parent e → ∃ p, f e.subClassOf = some p ∧ p ∈ r₁ := by
    intro e he ht
    rcases hclosed₁ e he with h | ⟨p, hp, hpk⟩
    · exact absurd h ht
    · exact ⟨p, (hf.congr _ _ hpk.symm).trans (hself₁ p hp), hp⟩
  have hu₂ : ∀ e ∈ u₂, e ∈ r₁ := by
    intro e he
    rw [hr₁]
    exact List.mem_append_left _ (hperm.symm.subset he)
  -- the pass on the second list ends
  have hrun : ∃ r₂, find_parent_chain true f (B.length + u₂.length + 1) u₂ 0 = .ret r₂ := by
    have hB' : (B.filter (fun b => decide (class_key b ∉ u₂.map class_key))).length
        ≤ B.length := List.length_filter_le _ _
    have n1 := (find_parent_chain_inv f _ hS₁ (B.length + u₂.length + 1) u₂ 0 hu₂).1
    have n2 := find_parent_chain_terminates f hf B hB (B.length + u₂.length + 1) u₂ 0
      (by omega) (by omega)
    cases h : find_parent_chain true f (B.length + u₂.length + 1) u₂ 0 with
    | ret r => exact ⟨r, rfl⟩
    | fault => exact absurd h n1
    | out_of_fuel => exact absurd h n2
  obtain ⟨r₂, h₂⟩ := hrun
  have hsub₂ : ∀ e ∈ r₂, e ∈ r₁ :=
    (find_parent_chain_inv f _ hS₁ _ u₂ 0 hu₂).2 r₂ h₂
  obtain ⟨added₂, hr₂, -, -, hnd₂, hnew₂, -, -⟩ :=
    find_parent_chain_ret f hf _ u₂ 0 r₂ (by omega) h₂
  have hclosed₂ := find_parent_chain_closed f hf _ u₂ r₂ h₂
  have hself₂ := find_parent_chain_self f hf _ u₂ r₂ h₂
    (fun e he => hself e (hperm.symm.subset he))
  have hS₂ : ∀ e, e ∈ r₂ → ¬ top_parent e → ∃ p, f e.subClassOf = some p ∧ p ∈ r₂ := by
    intro e he ht
    rcases hclosed₂ e he with h | ⟨p, hp, hpk⟩
    · exact absurd h ht
    · exact ⟨p, (hf.congr _ _ hpk.symm).trans (hself₂ p hp), hp⟩
  have hu₁ : ∀ e ∈ u₁, e ∈ r₂ := by
    intro e he
    rw [hr₂]
    exact List.mem_append_left _ (hperm.subset he)
  have hsub₁ : ∀ e ∈ r₁, e ∈ r₂ :=
    (find_parent_chain_inv f _ hS₂ _ u₁ 0 hu₁).2 r₁ h₁
  -- the appended parents are the same
  have hadded : added₂.Perm added₁ := by
    refine (List.perm_ext_iff_of_nodup (List.Nodup.of_map _ hnd₂)
      (List.Nodup.of_map _ hnd₁)).2 ?_
    intro a
    constructor
    · intro ha
      have har : a ∈ r₁ := hsub₂ a (by rw [hr₂]; exact List.mem_append_right _ ha)
      rw [hr₁] at har
      rcases List.mem_append.1 har with h | h
      · exact absurd (List.mem_map_of_mem class_key (hperm.subset h)) (hnew₂ a ha)
      · exact h
    · intro ha
      have har : a ∈ r₂ := hsub₁ a (by rw [hr₁]; exact List.mem_append_right _ ha)
      rw [hr₂] at har
      rcases List.mem_append.1 har with h | h
      · exact absurd (List.mem_map_of_mem class_key (hperm.symm.subset h)) (hnew₁ a ha)
      · exact h
  have hrperm : r₂.Perm r₁ := by
    rw [hr₁, hr₂]
    exact hperm.symm.append hadded
  refine ⟨r₂, ?_, hrperm⟩
  exact find_parent_chain_fuel f hf _ u₂ 0 r₂ (by omega) h₂ fuel
    (by rw [hrperm.length_eq]; omega)

/-- C3 as stated fails: `person` and `securityPrincipal` have the same rank,
and the two orders of the input give two different chains. -/
theorem objectclass_sort_depends_on_input_order :
    List.Perm ["person", "securityPrincipal"] ["securityPrincipal", "person"] ∧
    objectclass_sort sample_schema 3 ["person", "securityPrincipal"] =
      .ret (.ok [node (plain_class "top" "top" 0), node (plain_class "person" "top" 1),
        node (plain_class "securityPrincipal" "top" 1)]) ∧
    objectclass_sort sample_schema 3 ["securityPrincipal", "person"] =
      .ret (.ok [node (plain_class "top" "top" 0), node (plain_class "securityPrincipal" "top" 1),
        node (plain_class "person" "top" 1)]) ∧
    objectclass_sort sample_schema 3 ["person", "securityPrincipal"] ≠
      objectclass_sort sample_schema 3 ["securityPrincipal", "person"] :=
  ⟨List.Perm.swap _ _ _, by decide, by decide, by decide⟩

/-- C3, amended: if one input is a rearrangement of the other and
`objectclass_sort` succeeds on the first, it succeeds on the second with the
same fuel; the two chains hold the same records the same number of times; and
they are the same chain when no two different classes of the chain have the
same `subClass_order`. -/
theorem objectclass_sort_perm (schema : dsdb_schema) (values₁ values₂ : List String)
    (hperm : values₁.Perm values₂) (fuel : Nat) (chain : List class_list)
    (h : objectclass_sort schema fuel values₁ = .ret (.ok chain)) :
    ∃ chain₂, objectclass_sort schema fuel values₂ = .ret (.ok chain₂) ∧ chain₂.Perm chain ∧
      ((∀ c d, node c ∈ chain → node d ∈ chain → c.subClass_order = d.subClass_order → c = d) →
        chain₂ = chain) := by
  have hf := lookup_ok_schema schema
  obtain ⟨hb₁, final₁, hc₁, hall₁, hlen₁, hchain₁⟩ := objectclass_sort_on_ok _ _ _ _ h
  have hb₂ : values₂.any (bad_value (dsdb_class_by_lDAPDisplayName schema)) = false := by
    cases hany : values₂.any (bad_value (dsdb_class_by_lDAPDisplayName schema)) with
    | false => rfl
    | true =>
      obtain ⟨v, hv, hbad⟩ := List.any_eq_true.1 hany
      rw [List.any_eq_true.2 ⟨v, hperm.symm.subset hv, hbad⟩] at hb₁
      cases hb₁
  obtain ⟨final₂, hc₂, hfperm⟩ := find_parent_chain_perm _ hf schema.classes
    (fun n c hn => (class_by_name_some hn).1) _ _ final₁
    (named_classes_perm _ hperm) (named_classes_self _ hf values₁) fuel hc₁
  have hrun₂ := objectclass_sort_on_enough _ fuel values₂ final₂ hb₂ hc₂
    (fun x hx => hall₁ x (hfperm.subset hx)) (by rw [hfperm.length_eq]; exact hlen₁)
  have hsperm : (sort_by_order final₂).Perm (sort_by_order final₁) :=
    ((sort_by_order_perm final₂).trans hfperm).trans (sort_by_order_perm final₁).symm
  refine ⟨_, hrun₂, ?_, ?_⟩
  · rw [hchain₁]
    exact (hsperm.map node).cons _
  · intro hinj
    rw [hchain₁]
    congr 2
    refine sorted_perm_unique order_le (fun x => node x ∈ chain) ?_ _ _ hsperm
      (sort_by_order_sorted final₂) (sort_by_order_sorted final₁) ?_
    · intro a b ha hb hab hba
      exact hinj a b ha hb (Int.le_antisymm hab hba)
    · intro x hx
      rw [hchain₁]
      exact List.mem_cons_of_mem _ (List.mem_map_of_mem node (hsperm.subset hx))

/-- The amended C3 at work: `organizationalPerson` and `person` in the two
orders. -/
theorem objectclass_sort_perm_witness :
    List.Perm ["organizationalPerson", "person"] ["person", "organizationalPerson"] ∧
    objectclass_sort sample_schema 3 ["organizationalPerson", "person"] =
      .ret (.ok [node (plain_class "top" "top" 0), node (plain_class "person" "top" 1),
        node (plain_class "organizationalPerson" "person" 2)]) ∧
    ∃ chain₂, objectclass_sort sample_schema 3 ["person", "organizationalPerson"] =
        .ret (.ok chain₂) ∧
      chain₂.Perm [node (plain_class "top" "top" 0), node (plain_class "person" "top" 1),
        node (plain_class "organizationalPerson" "person" 2)] ∧
      ((∀ c d, node c ∈ [node (plain_class "top" "top" 0), node (plain_class "person" "top" 1),
            node (plain_class "organizationalPerson" "person" 2)] →
          node d ∈ [node (plain_class "top" "top" 0), node (plain_class "person" "top" 1),
            node (plain_class "organizationalPerson" "person" 2)] →
          c.subClass_order = d.subClass_order → c = d) →
        chain₂ = [node (plain_class "top" "top" 0), node (plain_class "person" "top" 1),
          node (plain_class "organizationalPerson" "person" 2)]) :=
  ⟨List.Perm.swap _ _ _, by decide,
    objectclass_sort_perm sample_schema ["organizationalPerson", "person"]
      ["person", "organizationalPerson"] (List.Perm.swap _ _ _) 3 _ (by decide)⟩

/-! ## fix_dn -/

/-- C7: for every proposed DN with at least one component and every parent DN,
`fix_dn` succeeds; the DN it returns has the components of the parent,
unchanged and in order, behind one new leading component whose attribute name
is the upper-cased attribute name of the leading component of the proposed DN
and whose value is that component's value; proposed DNs with the same leading
component give the same result. -/
theorem fix_dn_rooted_at_parent (newdn parent_dn : ldb_dn)
    (h : 1 ≤ ldb_dn_get_comp_num newdn) :
    ∃ rdn, newdn.components.head? = some rdn ∧
      fix_dn newdn parent_dn = .ret (LDB_SUCCESS,
        { parent_dn with
          components := ⟨strupper_talloc rdn.name, rdn.value⟩ :: parent_dn.components }) ∧
      ∀ newdn' : ldb_dn, newdn'.components.head? = some rdn →
        fix_dn newdn' parent_dn = fix_dn newdn parent_dn := by
  obtain ⟨special, components⟩ := newdn
  cases components with
  | nil => simp [ldb_dn_get_comp_num] at h
  | cons rdn rest =>
    have hfix : ∀ d : ldb_dn, d.components.head? = some rdn →
        fix_dn d parent_dn = .ret (LDB_SUCCESS,
          { parent_dn with
            components := ⟨strupper_talloc rdn.name, rdn.value⟩ :: parent_dn.components }) := by
      intro d hd
      simp [fix_dn, ldb_dn_get_rdn_name, ldb_dn_get_rdn_val, ldb_dn_copy, ldb_dn_add_child_fmt,
        ldb_dn_set_component, hd]
    refine ⟨rdn, rfl, hfix ⟨special, rdn :: rest⟩ rfl, ?_⟩
    intro d hd
    rw [hfix d hd, hfix ⟨special, rdn :: rest⟩ rfl]

/-- The example of C7: the new name `cn=Admins,cn=Users,dc=EXAMPLE,dc=com` under
the parent `CN=Users,DC=example,DC=com` becomes
`CN=Admins,CN=Users,DC=example,DC=com`. -/
theorem fix_dn_rooted_at_parent_witness :
    ldb_dn_get_linearized admins_dn = "cn=Admins,cn=Users,dc=EXAMPLE,dc=com" ∧
    ldb_dn_get_linearized users_dn = "CN=Users,DC=example,DC=com" ∧
    1 ≤ ldb_dn_get_comp_num admins_dn ∧
    ∃ fixed_dn, fix_dn admins_dn users_dn = .ret (LDB_SUCCESS, fixed_dn) ∧
      ldb_dn_get_linearized fixed_dn = "CN=Admins,CN=Users,DC=example,DC=com" := by
  refine ⟨by decide, by decide, by decide, ?_⟩
  obtain ⟨rdn, hrdn, hfix, -⟩ := fix_dn_rooted_at_parent admins_dn users_dn (by decide)
  have : rdn = ⟨"cn", "Admins"⟩ := by
    simp [admins_dn] at hrdn
    exact hrdn.symm
  subst this
  exact ⟨_, hfix, by decide⟩

/-! ## fix_check_attributes -/

theorem attribute_by_name_some {schema : dsdb_schema} {name : String} {a : dsdb_attribute}
    (h : dsdb_attribute_by_lDAPDisplayName schema name = some a) :
    a ∈ schema.attributes ∧ strlower a.lDAPDisplayName = strlower name := by
  unfold dsdb_attribute_by_lDAPDisplayName at h
  exact ⟨List.mem_of_find?_eq_some h,
    ldb_attr_cmp_beq_zero.1 (by simpa using List.find?_some h)⟩

theorem attribute_by_name_congr (schema : dsdb_schema) {n m : String}
    (h : strlower n = strlower m) :
    dsdb_attribute_by_lDAPDisplayName schema n = dsdb_attribute_by_lDAPDisplayName schema m := by
  unfold dsdb_attribute_by_lDAPDisplayName
  congr 1
  funext c
  simp only [ldb_attr_cmp, h]

theorem attribute_by_name_self {schema : dsdb_schema} {name : String} {a : dsdb_attribute}
    (h : dsdb_attribute_by_lDAPDisplayName schema name = some a) :
    dsdb_attribute_by_lDAPDisplayName schema a.lDAPDisplayName = some a := by
  rw [← h]
  exact attribute_by_name_congr schema (attribute_by_name_some h).2

theorem strcasecmp_bne_zero {a b : String} :
    (strcasecmp a b != 0) = true ↔ strlower a ≠ strlower b := by
  unfold strcasecmp
  split <;> simp_all

/-- The return code of the loop of `fix_check_attributes` is the offence of
the first offending element. -/
theorem fix_check_elements_code (schema : dsdb_schema) (op : ldb_request_type) :
    ∀ els : List ldb_message_element,
      (fix_check_elements schema op els).1 =
        (els.findSome? (offence schema op)).getD LDB_SUCCESS := by
  intro els
  induction els with
  | nil => rfl
  | cons el rest ih =>
    unfold fix_check_elements
    rw [List.findSome?_cons]
    unfold offence
    cases hl : dsdb_attribute_by_lDAPDisplayName schema el.name with
    | none =>
      simp only
      by_cases hc : strlower el.name = strlower "clearTextPassword"
      · have : ¬ (strcasecmp el.name "clearTextPassword" != 0) = true := by
          rw [strcasecmp_bne_zero]; exact fun h => h hc
        rw [if_neg this, if_pos hc]
        exact ih
      · have : (strcasecmp el.name "clearTextPassword" != 0) = true :=
          strcasecmp_bne_zero.2 hc
        rw [if_pos this, if_neg hc]
        rfl
    | some a =>
      simp only
      by_cases hc : a.systemFlags &&& DS_FLAG_ATTR_IS_CONSTRUCTED = 0
      · have : ¬ (a.systemFlags &&& DS_FLAG_ATTR_IS_CONSTRUCTED != 0) = true := by
          simp [hc]
        rw [if_neg this, if_pos hc]
        exact ih
      · have : (a.systemFlags &&& DS_FLAG_ATTR_IS_CONSTRUCTED != 0) = true := by
          simpa using hc
        rw [if_pos this, if_neg hc]
        by_cases hop : op = LDB_ADD
        · rw [if_pos hop, if_pos hop]; rfl
        · rw [if_neg hop, if_neg hop]; rfl

theorem offence_ne_success (schema : dsdb_schema) (op : ldb_request_type)
    (el : ldb_message_element) : offence schema op el ≠ some LDB_SUCCESS := by
  unfold offence
  split
  · split <;> simp
  · split
    · simp
    · split <;> simp

/-- After a successful validation every element carries the canonical name of
an attribute that is not constructed, or is an unresolved
`clearTextPassword`. -/
theorem fix_check_elements_success (schema : dsdb_schema) (op : ldb_request_type) :
    ∀ els : List ldb_message_element,
      (fix_check_elements schema op els).1 = LDB_SUCCESS →
      ∀ el ∈ (fix_check_elements schema op els).2,
        (∃ a, dsdb_attribute_by_lDAPDisplayName schema el.name = some a ∧
          el.name = a.lDAPDisplayName ∧
          a.systemFlags &&& DS_FLAG_ATTR_IS_CONSTRUCTED = 0) ∨
        (dsdb_attribute_by_lDAPDisplayName schema el.name = none ∧
          strcasecmp el.name "clearTextPassword" = 0) := by
  intro els
  induction els with
  | nil => intro _ el hel; simp [fix_check_elements] at hel
  | cons e rest ih =>
    intro h el hel
    unfold fix_check_elements at h hel
    cases hl : dsdb_attribute_by_lDAPDisplayName schema e.name with
    | none =>
      rw [hl] at h hel
      simp only at h hel
      by_cases hc : (strcasecmp e.name "clearTextPassword" != 0) = true
      · rw [if_pos hc] at h; cases h
      · rw [if_neg hc] at h hel
        simp only at h hel
        rcases List.mem_cons.1 hel with rfl | hel
        · right
          refine ⟨hl, ?_⟩
          simpa using hc
        · exact ih h el hel
    | some a =>
      rw [hl] at h hel
      simp only at h hel
      by_cases hc : (a.systemFlags &&& DS_FLAG_ATTR_IS_CONSTRUCTED != 0) = true
      · rw [if_pos hc] at h
        split at h <;> cases h
      · rw [if_neg hc] at h hel
        simp only at h hel
        rcases List.mem_cons.1 hel with rfl | hel
        · left
          exact ⟨a, attribute_by_name_self hl, rfl, by simpa using hc⟩
        · exact ih h el hel

/-- C8: whenever `fix_check_attributes` returns success, every element of the
message carries the canonical `lDAPDisplayName` of a schema attribute that is
not constructed (so its name resolves to no constructed attribute), or is the
unresolved pseudo-attribute `clearTextPassword`, compared without regard to
case. -/
theorem fix_check_attributes_success (schema : dsdb_schema) (msg : ldb_message)
    (op : ldb_request_type) (h : (fix_check_attributes schema msg op).1 = LDB_SUCCESS) :
    ∀ el ∈ (fix_check_attributes schema msg op).2.elements,
      (∃ a, dsdb_attribute_by_lDAPDisplayName schema el.name = some a ∧
        el.name = a.lDAPDisplayName ∧
        a.systemFlags &&& DS_FLAG_ATTR_IS_CONSTRUCTED = 0) ∨
      (dsdb_attribute_by_lDAPDisplayName schema el.name = none ∧
        strcasecmp el.name "clearTextPassword" = 0) :=
  fix_check_elements_success schema op msg.elements h

/-- C8 at work: a message with `OBJECTCLASS`, `Cn` and `cleartextpassword`
passes the validation of an add. -/
theorem fix_check_attributes_success_witness :
    (fix_check_attributes directory_schema password_message LDB_ADD).1 = LDB_SUCCESS ∧
    ∀ el ∈ (fix_check_attributes directory_schema password_message LDB_ADD).2.elements,
      (∃ a, dsdb_attribute_by_lDAPDisplayName directory_schema el.name = some a ∧
        el.name = a.lDAPDisplayName ∧
        a.systemFlags &&& DS_FLAG_ATTR_IS_CONSTRUCTED = 0) ∨
      (dsdb_attribute_by_lDAPDisplayName directory_schema el.name = none ∧
        strcasecmp el.name "clearTextPassword" = 0) :=
  ⟨by decide, fix_check_attributes_success directory_schema password_message LDB_ADD (by decide)⟩

/-- C9: the return code of `fix_check_attributes` is the offence of the first
offending element in message order (`LDB_ERR_NO_SUCH_ATTRIBUTE` for a name
that does not resolve and is not `clearTextPassword`,
`LDB_ERR_UNDEFINED_ATTRIBUTE_TYPE` on add and `LDB_ERR_CONSTRAINT_VIOLATION`
otherwise for a constructed attribute), and it is success exactly when no
element is offending; an unresolved `clearTextPassword`, in any case of
letters, is no offence. -/
theorem fix_check_attributes_first_offence (schema : dsdb_schema) (msg : ldb_message)
    (op : ldb_request_type) :
    (fix_check_attributes schema msg op).1 =
        (msg.elements.findSome? (offence schema op)).getD LDB_SUCCESS ∧
      ((fix_check_attributes schema msg op).1 = LDB_SUCCESS ↔
        ∀ el ∈ msg.elements, offence schema op el = none) ∧
      ∀ el : ldb_message_element, dsdb_attribute_by_lDAPDisplayName schema el.name = none →
        strlower el.name = strlower "clearTextPassword" → offence schema op el = none := by
  have hcode : (fix_check_attributes schema msg op).1 =
      (msg.elements.findSome? (offence schema op)).getD LDB_SUCCESS :=
    fix_check_elements_code schema op msg.elements
  refine ⟨hcode, ?_, ?_⟩
  · rw [hcode]
    constructor
    · intro h el hel
      cases hf : msg.elements.findSome? (offence schema op) with
      | none => exact (List.findSome?_eq_none_iff.1 hf) el hel
      | some e =>
        rw [hf] at h
        simp only [Option.getD_some] at h
        subst h
        obtain ⟨x, -, hx⟩ := List.exists_of_findSome?_eq_some hf
        exact absurd hx (offence_ne_success schema op x)
    · intro h
      rw [List.findSome?_eq_none_iff.2 h]
      rfl
  · intro el hl hc
    simp [offence, hl, hc]

/-! ## Message helpers -/

theorem is_named_iff {attr_name : String} {el : ldb_message_element} :
    is_named attr_name el = true ↔ strlower el.name = strlower attr_name := by
  unfold is_named
  exact ldb_attr_cmp_beq_zero

/-- The element found is the first one that carries the name: the list splits
around it. -/
theorem find_element_from_some (attr_name : String) :
    ∀ (l : List ldb_message_element) (i p : Nat) (el : ldb_message_element),
      find_element_from attr_name l i = some (p, el) →
      ∃ before after, l = before ++ el :: after ∧ p = i + before.length ∧
        is_named attr_name el = true ∧ ∀ x ∈ before, is_named attr_name x = false := by
  intro l
  induction l with
  | nil => intro i p el h; simp [find_element_from] at h
  | cons e rest ih =>
    intro i p el h
    unfold find_element_from at h
    by_cases hm : (ldb_attr_cmp e.name attr_name == 0) = true
    · rw [if_pos hm] at h
      cases h
      exact ⟨[], rest, rfl, by simp, hm, by simp⟩
    · rw [if_neg hm] at h
      obtain ⟨before, after, hl, hp, hn, hb⟩ := ih (i + 1) p el h
      refine ⟨e :: before, after, by rw [hl]; rfl, by simp; omega, hn, ?_⟩
      intro x hx
      rcases List.mem_cons.1 hx with rfl | hx
      · simpa [is_named] using hm
      · exact hb x hx

theorem find_element_from_split (attr_name : String) (el : ldb_message_element)
    (hel : is_named attr_name el = true) :
    ∀ (before after : List ldb_message_element) (i : Nat),
      (∀ x ∈ before, is_named attr_name x = false) →
      find_element_from attr_name (before ++ el :: after) i = some (i + before.length, el) := by
  intro before
  induction before with
  | nil =>
    intro after i _
    have : (ldb_attr_cmp el.name attr_name == 0) = true := hel
    simp [find_element_from, this]
  | cons e rest ih =>
    intro after i hb
    have he : ¬ (ldb_attr_cmp e.name attr_name == 0) = true := by
      have := hb e (List.mem_cons_self _ _)
      simpa [is_named] using this
    rw [List.cons_append, find_element_from, if_neg he,
      ih after (i + 1) (fun x hx => hb x (List.mem_cons_of_mem _ hx))]
    simp; omega

theorem find_element_from_none (attr_name : String) :
    ∀ (l : List ldb_message_element) (i : Nat),
      find_element_from attr_name l i = none ↔ ∀ x ∈ l, is_named attr_name x = false := by
  intro l
  induction l with
  | nil => intro i; simp [find_element_from]
  | cons e rest ih =>
    intro i
    unfold find_element_from
    by_cases hm : (ldb_attr_cmp e.name attr_name == 0) = true
    · rw [if_pos hm]
      have hn : is_named attr_name e = true := hm
      simp [hn]
    · rw [if_neg hm, ih (i + 1)]
      have : is_named attr_name e = false := by simpa [is_named] using hm
      simp [this]

/-- An operation on the attribute `a` leaves the elements of another name
where they are. -/
theorem filter_add_string (msg : ldb_message) (a n v : String)
    (hne : strlower a ≠ strlower n) :
    (ldb_msg_add_string msg a v).elements.filter (is_named n) =
      msg.elements.filter (is_named n) := by
  unfold ldb_msg_add_string ldb_msg_find_element
  cases hf : find_element_from a msg.elements 0 with
  | none =>
    simp only [List.filter_append]
    have : is_named n ⟨0, a, [v]⟩ = false := by
      cases h : is_named n ⟨0, a, [v]⟩ with
      | false => rfl
      | true => exact absurd (is_named_iff.1 h) hne
    simp [List.filter_cons, this]
  | some r =>
    obtain ⟨p, el⟩ := r
    obtain ⟨before, after, hl, hp, hn, -⟩ := find_element_from_some a _ 0 p el hf
    have hel : is_named n el = false := by
      cases h : is_named n el with
      | false => rfl
      | true => exact absurd ((is_named_iff.1 hn).symm.trans (is_named_iff.1 h)) hne
    have hel' : is_named n { el with values := el.values ++ [v] } = false := hel
    simp only
    rw [hl, hp]
    simp [List.filter_append, List.filter_cons, hel, hel']

theorem filter_remove_found (msg : ldb_message) (a n : String) (p : Nat)
    (el : ldb_message_element) (hf : ldb_msg_find_element msg a = some (p, el))
    (hne : strlower a ≠ strlower n) :
    (ldb_msg_remove_element msg p).elements.filter (is_named n) =
      msg.elements.filter (is_named n) := by
  unfold ldb_msg_find_element at hf
  obtain ⟨before, after, hl, hp, hn, -⟩ := find_element_from_some a _ 0 p el hf
  have hel : is_named n el = false := by
    cases h : is_named n el with
    | false => rfl
    | true => exact absurd ((is_named_iff.1 hn).symm.trans (is_named_iff.1 h)) hne
  unfold ldb_msg_remove_element
  simp only
  rw [hl, hp]
  simp [List.filter_append, List.filter_cons, hel, List.eraseIdx_append_of_length_le]

/-- The element `ldb_msg_find_element` finds is the first of the elements that
carry the name. -/
theorem find_element_filter (msg : ldb_message) (n : String) (el : ldb_message_element)
    (rest : List ldb_message_element)
    (h : msg.elements.filter (is_named n) = el :: rest) :
    ∃ p, ldb_msg_find_element msg n = some (p, el) := by
  unfold ldb_msg_find_element
  cases hf : find_element_from n msg.elements 0 with
  | none =>
    have := (find_element_from_none n _ 0).1 hf
    have hnil : msg.elements.filter (is_named n) = [] := by
      rw [List.filter_eq_nil_iff]
      intro x hx
      simp [this x hx]
    rw [hnil] at h
    cases h
  | some r =>
    obtain ⟨p, e⟩ := r
    obtain ⟨before, after, hl, -, hn, hb⟩ := find_element_from_some n _ 0 p e hf
    have hbn : before.filter (is_named n) = [] := by
      rw [List.filter_eq_nil_iff]
      intro x hx
      simp [hb x hx]
    rw [hl, List.filter_append, hbn, List.filter_cons, if_pos hn] at h
    simp only [List.nil_append, List.cons.injEq] at h
    exact ⟨p, by rw [h.1]⟩

/-! ## The add transform -/

/-- The validation only changes the case of the letters of the names. -/
theorem fix_check_elements_same (schema : dsdb_schema) (op : ldb_request_type) :
    ∀ els : List ldb_message_element,
      List.Forall₂ same_element els (fix_check_elements schema op els).2 := by
  intro els
  induction els with
  | nil => exact List.Forall₂.nil
  | cons e rest ih =>
    have hrefl : ∀ l : List ldb_message_element, List.Forall₂ same_element l l := by
      intro l
      induction l with
      | nil => exact List.Forall₂.nil
      | cons x l ihl => exact List.Forall₂.cons ⟨rfl, rfl, rfl⟩ ihl
    unfold fix_check_elements
    cases hl : dsdb_attribute_by_lDAPDisplayName schema e.name with
    | none =>
      simp only
      split
      · exact hrefl _
      · exact List.Forall₂.cons ⟨rfl, rfl, rfl⟩ ih
    | some a =>
      have hname : same_element e { e with name := a.lDAPDisplayName } :=
        ⟨(attribute_by_name_some hl).2, rfl, rfl⟩
      simp only
      split
      · split
        · exact List.Forall₂.cons hname (hrefl _)
        · exact List.Forall₂.cons hname (hrefl _)
      · exact List.Forall₂.cons hname ih

theorem same_element_named {n : String} {el el' : ldb_message_element}
    (h : same_element el el') : is_named n el' = is_named n el := by
  unfold is_named ldb_attr_cmp
  rw [h.1]

theorem filter_same (n : String) :
    ∀ l l' : List ldb_message_element, List.Forall₂ same_element l l' →
      List.Forall₂ same_element (l.filter (is_named n)) (l'.filter (is_named n)) := by
  intro l l' h
  induction h with
  | nil => exact List.Forall₂.nil
  | cons hab _ ih =>
    rw [List.filter_cons, List.filter_cons, same_element_named hab]
    split
    · exact List.Forall₂.cons hab ih
    · exact ih

theorem is_named_objectClass (flags : Nat) (vals : List String) :
    is_named "objectClass" ⟨flags, "objectClass", vals⟩ = true := by
  show (ldb_attr_cmp "objectClass" "objectClass" == 0) = true
  decide

/-- Adding the sorted classes to a message whose only `objectClass` element is
its last one appends the class names to that element, in order. -/
theorem add_sorted_classes_ret :
    ∀ (sorted : List class_list) (msg msg' : ldb_message) (E : List ldb_message_element)
      (vals : List String),
      msg.elements = E ++ [⟨0, "objectClass", vals⟩] →
      (∀ x ∈ E, is_named "objectClass" x = false) →
      add_sorted_classes sorted msg = .ret msg' →
      ∃ classes : List dsdb_class, sorted.map (·.objectclass) = classes.map some ∧
        msg'.elements = E ++ [⟨0, "objectClass", vals ++ classes.map (·.lDAPDisplayName)⟩] ∧
        msg'.dn = msg.dn := by
  intro sorted
  induction sorted with
  | nil =>
    intro msg msg' E vals hm _ h
    simp only [add_sorted_classes] at h
    cases h
    exact ⟨[], rfl, by simpa using hm, rfl⟩
  | cons current rest ih =>
    intro msg msg' E vals hm hE h
    unfold add_sorted_classes at h
    cases hc : current.objectclass with
    | none => rw [hc] at h; cases h
    | some c =>
      rw [hc] at h
      simp only at h
      have hfind : ldb_msg_find_element msg "objectClass" =
          some (0 + E.length, ⟨0, "objectClass", vals⟩) := by
        unfold ldb_msg_find_element
        rw [hm]
        exact find_element_from_split "objectClass" _ (is_named_objectClass 0 vals) E [] 0 hE
      have hadd : (ldb_msg_add_string msg "objectClass" c.lDAPDisplayName).elements =
          E ++ [⟨0, "objectClass", vals ++ [c.lDAPDisplayName]⟩] := by
        unfold ldb_msg_add_string
        rw [hfind]
        simp only [hm]
        simp
      obtain ⟨classes, h1, h2, h3⟩ := ih _ msg' E _ hadd hE h
      refine ⟨c :: classes, by simp [hc, h1], by simp [h2], ?_⟩
      rw [h3]
      unfold ldb_msg_add_string
      rw [hfind]

/-- A successful rebuild: the message had an `objectClass` element, its values
sort into a chain, and the rebuilt message holds the class names of the chain
in its only `objectClass` element, provided the message had no second one. -/
theorem rebuild_objectclass_ok (schema : dsdb_schema) (fuel : Nat) (msg msg' : ldb_message)
    (h : rebuild_objectclass schema fuel msg = .ret (.ok msg'))
    (huniq : (msg.elements.filter (is_named "objectClass")).length ≤ 1) :
    ∃ p el sorted, ldb_msg_find_element msg "objectClass" = some (p, el) ∧
      objectclass_sort schema fuel el.values = .ret (.ok sorted) ∧
      ∃ classes : List dsdb_class, sorted.map (·.objectclass) = classes.map some ∧
        msg'.elements.filter (is_named "objectClass") =
          [⟨0, "objectClass", classes.map (·.lDAPDisplayName)⟩] ∧
        msg'.dn = msg.dn := by
  unfold rebuild_objectclass at h
  cases hf : ldb_msg_find_element msg "objectClass" with
  | none => rw [hf] at h; cases h
  | some r =>
    obtain ⟨p, el⟩ := r
    rw [hf] at h
    simp only at h
    cases hs : objectclass_sort schema fuel el.values with
    | fault => rw [hs] at h; cases h
    | out_of_fuel => rw [hs] at h; cases h
    | ret r =>
      cases r with
      | error e => rw [hs] at h; cases h
      | ok sorted =>
        rw [hs] at h
        simp only at h
        have hf' := hf
        unfold ldb_msg_find_element at hf'
        obtain ⟨before, after, hl, hp, hn, hb⟩ := find_element_from_some _ _ 0 p el hf'
        have hbn : before.filter (is_named "objectClass") = [] := by
          rw [List.filter_eq_nil_iff]
          intro x hx
          simp [hb x hx]
        have han : after.filter (is_named "objectClass") = [] := by
          rw [hl, List.filter_append, hbn, List.filter_cons, if_pos hn] at huniq
          simp only [List.nil_append, List.length_cons] at huniq
          exact List.eq_nil_of_length_eq_zero (by omega)
        have hrem : (ldb_msg_remove_attr msg "objectClass").elements = before ++ after := by
          unfold ldb_msg_remove_attr
          rw [hf]
          simp only [ldb_msg_remove_element, hl, hp]
          simp [List.eraseIdx_append_of_length_le]
        have hE : ∀ x ∈ before ++ after, is_named "objectClass" x = false := by
          intro x hx
          rcases List.mem_append.1 hx with hx | hx
          · exact hb x hx
          · cases hx' : is_named "objectClass" x with
            | false => rfl
            | true =>
              have : x ∈ after.filter (is_named "objectClass") := List.mem_filter.2 ⟨hx, hx'⟩
              rw [han] at this
              cases this
        cases ha : add_sorted_classes sorted
            (ldb_msg_add_empty (ldb_msg_remove_attr msg "objectClass") "objectClass" 0) with
        | fault => rw [ha] at h; cases h
        | out_of_fuel => rw [ha] at h; cases h
        | ret m =>
          rw [ha] at h
          simp only at h
          cases h
          obtain ⟨classes, h1, h2, h3⟩ := add_sorted_classes_ret sorted _ msg' (before ++ after) []
            (by simp [ldb_msg_add_empty, hrem]) hE ha
          refine ⟨p, el, sorted, rfl, hs, classes, h1, ?_, ?_⟩
          · rw [h2, List.filter_append]
            have : (before ++ after).filter (is_named "objectClass") = [] := by
              rw [List.filter_eq_nil_iff]
              intro x hx
              simp [hE x hx]
            rw [this]
            simp only [List.nil_append, List.filter_cons, List.filter_nil]
            rw [if_pos (is_named_objectClass 0 _)]
          · rw [h3]
            simp [ldb_msg_add_empty, ldb_msg_remove_attr, hf, ldb_msg_remove_element]

theorem add_defaults_filter (ldb : ldb_context) (objectclass : dsdb_class)
    (msg msg' : ldb_message) (h : add_defaults ldb objectclass msg = .ok msg') :
    msg'.elements.filter (is_named "objectClass") =
      msg.elements.filter (is_named "objectClass") := by
  unfold add_defaults at h
  cases h1 : add_objectCategory ldb objectclass msg with
  | error e => rw [h1] at h; cases h
  | ok m1 =>
    rw [h1] at h
    simp only [Except.ok.injEq] at h
    have e1 : m1.elements.filter (is_named "objectClass") =
        msg.elements.filter (is_named "objectClass") := by
      unfold add_objectCategory at h1
      split at h1
      · dsimp only at h1
        cases hv : (if ldb.dn_format = some false then
            ldb.strip_extended objectclass.defaultObjectCategory
            else some objectclass.defaultObjectCategory) with
        | none => rw [hv] at h1; cases h1
        | some value =>
          rw [hv] at h1
          cases h1
          exact filter_add_string _ _ _ _ (by decide)
      · cases h1; rfl
    have e2 : (add_showInAdvancedViewOnly objectclass m1).elements.filter
        (is_named "objectClass") = m1.elements.filter (is_named "objectClass") := by
      unfold add_showInAdvancedViewOnly
      split
      · exact filter_add_string _ _ _ _ (by decide)
      · rfl
    have e3 : ∀ m : ldb_message, (add_systemFlags ldb objectclass m).elements.filter
        (is_named "objectClass") = m.elements.filter (is_named "objectClass") := by
      intro m
      unfold add_systemFlags
      simp only
      have hrem : (match ldb_msg_find_element m "systemFlags" with
          | some (pos, _) => ldb_msg_remove_element m pos
          | none => m).elements.filter (is_named "objectClass") =
          m.elements.filter (is_named "objectClass") := by
        cases hf : ldb_msg_find_element m "systemFlags" with
        | none => rfl
        | some r =>
          obtain ⟨p, el⟩ := r
          exact filter_remove_found m "systemFlags" "objectClass" p el hf (by decide)
      split
      · unfold samdb_msg_add_int
        rw [filter_add_string _ _ _ _ (by decide)]
        exact hrem
      · exact hrem
    rw [← h, e3, e2, e1]

/-- An add that is forwarded with a schema present went through every stage
of the transform. -/
theorem objectclass_do_add_forwarded (ldb : ldb_context) (schema : dsdb_schema)
    (hschema : ldb.schema = some schema) (ac : oc_context) (fuel : Nat) (req' : ldb_request)
    (h : objectclass_do_add ldb ac fuel = .ret (.next_request req')) :
    ∃ msg0 msg1 msg2 objectclass,
      msg0.elements = ac.req.message.elements ∧
      fix_check_attributes schema msg0 ac.req.operation = (LDB_SUCCESS, msg1) ∧
      rebuild_objectclass schema fuel msg1 = .ret (.ok msg2) ∧
      check_structural_class schema ac msg2 = .ret (.ok objectclass) ∧
      add_defaults ldb objectclass msg2 = .ok req'.message ∧
      ldb.ldb_msg_sanity_check req'.message = LDB_SUCCESS ∧
      req' = { ac.req with operation := LDB_ADD, message := req'.message } := by
  unfold objectclass_do_add at h
  simp only [hschema] at h
  split at h
  · cases h
  · cases h
  · cases h
  · rename_i msg0 hpc
    have hel : msg0.elements = ac.req.message.elements := by
      split at hpc
      · split at hpc
        · cases hpc; rfl
        · cases hpc
      · split at hpc
        · cases hpc
        · split at hpc
          · cases hpc
          · cases hpc
          · split at hpc
            · cases hpc
            · cases hpc; rfl
    split at h
    · cases h
    · cases h
    · cases h
    · rename_i msg4 htr
      split at h
      · cases h
      · rename_i hsan
        simp only [exec.ret.injEq, oc_result.next_request.injEq] at h
        subst h
        unfold do_add_with_schema at htr
        cases hfc : fix_check_attributes schema msg0 ac.req.operation with
        | mk ret msg1 =>
          rw [hfc] at htr
          simp only at htr
          split at htr
          · cases htr
          · rename_i hret
            have hret' : ret = LDB_SUCCESS := by simpa using hret
            subst hret'
            split at htr
            · cases htr
            · cases htr
            · cases htr
            · rename_i msg2 hrb
              split at htr
              · cases htr
              · cases htr
              · cases htr
              · rename_i objectclass hcs
                simp only [exec.ret.injEq] at htr
                exact ⟨msg0, msg1, msg2, objectclass, hel, hfc, hrb, hcs, htr,
                  by simpa using hsan, rfl⟩

/-- C10 as stated fails: the add `two_objectclass_add` carries its classes in
two `objectClass` elements, `organizationalPerson` and `person`.  It is
accepted and sent down with the `objectClass` values `person`, `top`, `person`,
`organizationalPerson` in one element and a second, empty `objectClass`
element, whereas the supplied values, those of the first element or those of
both, sort into the chain `top`, `person`, `organizationalPerson`. -/
theorem objectclass_do_add_two_objectclass_elements :
    objectclass_do_add directory_ldb two_objectclass_add 10 =
      .ret (.next_request two_objectclass_add_forwarded) ∧
    two_objectclass_add_forwarded.message.elements.filter (is_named "objectClass") =
      [⟨0, "objectClass", ["person", "top", "person", "organizationalPerson"]⟩,
        ⟨0, "objectClass", []⟩] ∧
    objectclass_sort directory_schema 10 ["organizationalPerson"] =
      .ret (.ok [node { plain_class "top" "top" 0 with objectClassCategory := 2 },
        node (plain_class "person" "top" 1),
        node (plain_class "organizationalPerson" "person" 2)]) ∧
    objectclass_sort directory_schema 10 ["organizationalPerson", "person"] =
      .ret (.ok [node { plain_class "top" "top" 0 with objectClassCategory := 2 },
        node (plain_class "person" "top" 1),
        node (plain_class "organizationalPerson" "person" 2)]) := by
  refine ⟨?_, ?_, ?_, ?_⟩ <;> decide

/-- C10 (amended): for every add the transform forwards with a schema present,
the entry having at most one `objectClass` element: the supplied `objectClass`
values sort into a chain, and the `objectClass` attribute of the forwarded
entry holds exactly the canonical names of the classes of that chain, in chain
order. -/
theorem objectclass_do_add_objectclass_sorted (ldb : ldb_context) (schema : dsdb_schema)
    (hschema : ldb.schema = some schema) (ac : oc_context) (fuel : Nat) (req' : ldb_request)
    (h : objectclass_do_add ldb ac fuel = .ret (.next_request req'))
    (huniq : (ac.req.message.elements.filter (is_named "objectClass")).length ≤ 1) :
    ∃ p el sorted, ldb_msg_find_element ac.req.message "objectClass" = some (p, el) ∧
      objectclass_sort schema fuel el.values = .ret (.ok sorted) ∧
      ∃ classes : List dsdb_class, sorted.map (·.objectclass) = classes.map some ∧
        ∃ p' el', ldb_msg_find_element req'.message "objectClass" = some (p', el') ∧
          el'.values = classes.map (·.lDAPDisplayName) := by
  obtain ⟨msg0, msg1, msg2, oc, hel, hfc, hrb, -, had, -, -⟩ :=
    objectclass_do_add_forwarded ldb schema hschema ac fuel req' h
  have hm1 : msg1.elements = (fix_check_elements schema ac.req.operation msg0.elements).2 := by
    unfold fix_check_attributes at hfc
    simp only [Prod.mk.injEq] at hfc
    rw [← hfc.2]
  have hsame : List.Forall₂ same_element msg0.elements msg1.elements := by
    rw [hm1]; exact fix_check_elements_same schema _ _
  have hfsame := filter_same "objectClass" _ _ hsame
  have huniq1 : (msg1.elements.filter (is_named "objectClass")).length ≤ 1 := by
    rw [← hfsame.length_eq, hel]; exact huniq
  obtain ⟨p1, el1, sorted, hf1, hsort, classes, hc1, hc2, -⟩ :=
    rebuild_objectclass_ok schema fuel msg1 msg2 hrb huniq1
  -- the element sorted is the one the client supplied
  have hfilt1 : ∃ rest, msg1.elements.filter (is_named "objectClass") = el1 :: rest := by
    unfold ldb_msg_find_element at hf1
    obtain ⟨before, after, hl, -, hn, hb⟩ := find_element_from_some _ _ 0 p1 el1 hf1
    have hbn : before.filter (is_named "objectClass") = [] := by
      rw [List.filter_eq_nil_iff]
      intro x hx
      simp [hb x hx]
    exact ⟨after.filter (is_named "objectClass"),
      by rw [hl, List.filter_append, hbn, List.filter_cons, if_pos hn]; rfl⟩
  obtain ⟨rest1, hrest1⟩ := hfilt1
  rw [hrest1] at hfsame
  obtain ⟨el0, rest0, hel0, -, hrest0⟩ := List.forall₂_cons_right_iff.1 hfsame
  obtain ⟨p0, hf0⟩ := find_element_filter msg0 "objectClass" el0 rest0 hrest0
  have hf0' : ldb_msg_find_element ac.req.message "objectClass" = some (p0, el0) := by
    unfold ldb_msg_find_element at hf0 ⊢
    rw [← hel]; exact hf0
  have hfwd : req'.message.elements.filter (is_named "objectClass") =
      [⟨0, "objectClass", classes.map (·.lDAPDisplayName)⟩] := by
    rw [add_defaults_filter ldb oc msg2 _ had, hc2]
  obtain ⟨p', hf'⟩ := find_element_filter req'.message "objectClass" _ [] hfwd
  refine ⟨p0, el0, sorted, hf0', ?_, classes, hc1, p', _, hf', rfl⟩
  rw [← hel0.2.1]; exact hsort

/-- C10 (amended) at work, the example of the claim: the classes `person`,
`top`, `organizationalPerson` under a parent that allows `organizationalPerson` are forwarded as `top`,
`person`, `organizationalPerson`, and the forwarded entry has no `systemFlags`
attribute. -/
theorem objectclass_do_add_objectclass_sorted_witness :
    directory_ldb.schema = some directory_schema ∧
    objectclass_do_add directory_ldb admins_add 10 = .ret (.next_request admins_add_forwarded) ∧
    (admins_add.req.message.elements.filter (is_named "objectClass")).length ≤ 1 ∧
    (∃ p el sorted, ldb_msg_find_element admins_add.req.message "objectClass" = some (p, el) ∧
      objectclass_sort directory_schema 10 el.values = .ret (.ok sorted) ∧
      ∃ classes : List dsdb_class, sorted.map (·.objectclass) = classes.map some ∧
        ∃ p' el', ldb_msg_find_element admins_add_forwarded.message "objectClass"
            = some (p', el') ∧
          el'.values = classes.map (·.lDAPDisplayName)) ∧
    ldb_msg_find_element admins_add_forwarded.message "objectClass" =
      some (1, ⟨0, "objectClass", ["top", "person", "organizationalPerson"]⟩) ∧
    ldb_msg_find_element admins_add_forwarded.message "systemFlags" = none :=
  ⟨rfl, by decide, by decide,
    objectclass_do_add_objectclass_sorted directory_ldb directory_schema rfl admins_add 10
      admins_add_forwarded (by decide) (by decide),
    by decide, by decide⟩

/-! ## The stages of the add transform -/

theorem objectclass_do_add_eq (ldb : ldb_context) (ac : oc_context) (fuel : Nat) :
    objectclass_do_add ldb ac fuel =
      match check_parent ldb ac with
      | .fault => .fault
      | .out_of_fuel => .out_of_fuel
      | .ret (.error ret) => .ret (.done ret)
      | .ret (.ok msg) => do_add_transform ldb ac fuel msg := by
  have h : objectclass_do_add ldb ac fuel =
      match check_parent ldb ac with
      | .fault => .fault
      | .out_of_fuel => .out_of_fuel
      | .ret (.error ret) => .ret (.done ret)
      | .ret (.ok msg) =>
        match (match ldb.schema with
            | some schema => do_add_with_schema ldb schema ac fuel msg
            | none => exec.ret (Except.ok msg)) with
        | .fault => .fault
        | .out_of_fuel => .out_of_fuel
        | .ret (.error ret) => .ret (.done ret)
        | .ret (.ok msg) =>
          if ldb.ldb_msg_sanity_check msg ≠ LDB_SUCCESS then
            .ret (.done (ldb.ldb_msg_sanity_check msg))
          else .ret (.next_request { ac.req with operation := LDB_ADD, message := msg }) := rfl
  rw [h]
  cases check_parent ldb ac with
  | fault => rfl
  | out_of_fuel => rfl
  | ret r =>
    cases r with
    | error e => rfl
    | ok msg =>
      simp only [do_add_transform]
      cases (match ldb.schema with
          | some schema => do_add_with_schema ldb schema ac fuel msg
          | none => exec.ret (Except.ok msg)) with
      | fault => rfl
      | out_of_fuel => rfl
      | ret r' =>
        cases r' with
        | error e => rfl
        | ok m =>
          simp only [finish_add]
          split <;> rfl

/-- An add that reached the policy checks: its outcome is decided by them, the
defaults and the sanity check. -/
theorem objectclass_do_add_reached (ldb : ldb_context) (schema : dsdb_schema)
    (hschema : ldb.schema = some schema) (ac : oc_context) (fuel : Nat) (msg : ldb_message)
    (hreach : add_reaches_checks ldb schema ac fuel msg) :
    objectclass_do_add ldb ac fuel =
      match check_structural_class schema ac msg with
      | .fault => .fault
      | .out_of_fuel => .out_of_fuel
      | .ret (.error ret) => .ret (.done ret)
      | .ret (.ok objectclass) =>
        match add_defaults ldb objectclass msg with
        | .error ret => .ret (.done ret)
        | .ok msg => .ret (finish_add ldb ac msg) := by
  obtain ⟨msg0, msg1, h0, h1, h2⟩ := hreach
  rw [objectclass_do_add_eq, h0]
  simp only [do_add_transform, hschema, do_add_with_schema, h1, h2]
  simp only [ne_eq, not_true_eq_false, if_false]
  cases check_structural_class schema ac msg with
  | fault => rfl
  | out_of_fuel => rfl
  | ret r =>
    cases r with
    | error e => rfl
    | ok oc =>
      simp only
      cases add_defaults ldb oc msg with
      | error e => rfl
      | ok m => rfl

/-- The policy checks on a message whose structural class is known. -/
theorem check_structural_class_eq (schema : dsdb_schema) (ac : oc_context) (msg : ldb_message)
    (p : Nat) (el : ldb_message_element) (objectclass : dsdb_class)
    (hel : ldb_msg_find_element msg "objectClass" = some (p, el))
    (hoc : get_last_structural_class schema el = some objectclass) :
    check_structural_class schema ac msg =
      match rdn_mismatch objectclass (ldb_dn_get_rdn_name msg.dn) with
      | .fault => .fault
      | .out_of_fuel => .out_of_fuel
      | .ret true => .ret (.error LDB_ERR_NAMING_VIOLATION)
      | .ret false =>
        if child_not_allowed schema ac objectclass then .ret (.error LDB_ERR_NAMING_VIOLATION)
        else if objectclass.systemOnly
            && !ldb_request_get_control ac.req LDB_CONTROL_RELAX_OID then
          .ret (.error LDB_ERR_UNWILLING_TO_PERFORM)
        else .ret (.ok objectclass) := by
  simp only [check_structural_class, hel, hoc]

/-- An add that reached the policy checks with a structural class that passes
the check of the RDN attribute: its outcome is that of the allowed-child check
and what follows. -/
theorem objectclass_do_add_rdn_passed (ldb : ldb_context) (schema : dsdb_schema)
    (hschema : ldb.schema = some schema) (ac : oc_context) (fuel : Nat) (msg : ldb_message)
    (hreach : add_reaches_checks ldb schema ac fuel msg)
    (p : Nat) (el : ldb_message_element) (objectclass : dsdb_class)
    (hel : ldb_msg_find_element msg "objectClass" = some (p, el))
    (hoc : get_last_structural_class schema el = some objectclass)
    (hrdn : rdn_mismatch objectclass (ldb_dn_get_rdn_name msg.dn) = .ret false) :
    objectclass_do_add ldb ac fuel = .ret (allowed_child_gate ldb schema ac objectclass msg) := by
  rw [objectclass_do_add_reached ldb schema hschema ac fuel msg hreach,
    check_structural_class_eq schema ac msg p el objectclass hel hoc, hrdn]
  simp only [allowed_child_gate, system_only_gate]
  by_cases hc : child_not_allowed schema ac objectclass = true
  · simp [hc]
  · simp only [hc, Bool.false_eq_true, if_false]
    by_cases hs : (objectclass.systemOnly
        && !ldb_request_get_control ac.req LDB_CONTROL_RELAX_OID) = true
    · simp [hs]
    · simp only [hs, Bool.false_eq_true, if_false]
      cases add_defaults ldb objectclass msg with
      | error e => rfl
      | ok m => rfl

/-! ## The entry of an add -/

/-- C11: when `objectclass_do_add` runs without a result of the parent lookup,
it fails with `LDB_ERR_NO_SUCH_OBJECT` if the DN of the entry is not the root
base DN; if it is, the missing parent is no reason to reject: the transform
goes on with the message as supplied, the DN not normalised.  An add whose DN
has one component is such a run: `objectclass_add` makes no lookup for it. -/
theorem objectclass_do_add_no_parent (ldb : ldb_context) (ac : oc_context) (fuel : Nat)
    (hres : ac.search_res = none) :
    (ldb_dn_compare ldb.root_basedn (some ac.req.message.dn) ≠ 0 →
      objectclass_do_add ldb ac fuel = .ret (.done LDB_ERR_NO_SUCH_OBJECT)) ∧
    (ldb_dn_compare ldb.root_basedn (some ac.req.message.dn) = 0 →
      objectclass_do_add ldb ac fuel = do_add_transform ldb ac fuel ac.req.message) ∧
    (ldb_dn_is_special ac.req.message.dn = false →
      (ldb_msg_find_element ac.req.message "objectClass").isSome = true →
      ldb_dn_get_comp_num ac.req.message.dn = 1 →
      objectclass_add ldb ac.req fuel =
        match objectclass_do_add ldb ac fuel with
        | .fault => .fault
        | .out_of_fuel => .out_of_fuel
        | .ret r => .ret (step_action r)) := by
  refine ⟨?_, ?_, ?_⟩
  · intro hne
    rw [objectclass_do_add_eq]
    simp only [check_parent, hres, hne, if_false]
  · intro heq
    rw [objectclass_do_add_eq]
    simp only [check_parent, hres, heq, if_true]
  · intro hsp hoc hone
    have hac : ({ req := ac.req, search_res := none } : oc_context) = ac := by
      cases ac
      simp only at hres
      subst hres
      rfl
    have hnone : (ldb_msg_find_element ac.req.message "objectClass").isNone = false := by
      cases h : ldb_msg_find_element ac.req.message "objectClass" with
      | none => rw [h] at hoc; cases hoc
      | some x => rfl
    simp only [objectclass_add, hsp, hnone, hone, hac, Bool.false_eq_true, if_false, if_true]

/-- C11 at work: the add of `cn=Admins,cn=Users,…` whose parent was not found
fails with `LDB_ERR_NO_SUCH_OBJECT`; the add of the root `dc=EXAMPLE,dc=com`
without a parent is sent down with its DN as supplied. -/
theorem objectclass_do_add_no_parent_witness :
    orphan_add.search_res = none ∧
    ldb_dn_compare directory_ldb.root_basedn (some orphan_add.req.message.dn) ≠ 0 ∧
    objectclass_do_add directory_ldb orphan_add 10 = .ret (.done LDB_ERR_NO_SUCH_OBJECT) ∧
    root_add.search_res = none ∧
    ldb_dn_compare directory_ldb.root_basedn (some root_add.req.message.dn) = 0 ∧
    objectclass_do_add directory_ldb root_add 10 =
      do_add_transform directory_ldb root_add 10 root_add.req.message ∧
    (∃ req', do_add_transform directory_ldb root_add 10 root_add.req.message =
        .ret (.next_request req') ∧ req'.message.dn = root_add.req.message.dn) :=
  ⟨rfl, by decide, (objectclass_do_add_no_parent directory_ldb orphan_add 10 rfl).1 (by decide),
    rfl, by decide, (objectclass_do_add_no_parent directory_ldb root_add 10 rfl).2.1 (by decide),
    ⟨_, rfl, rfl⟩⟩

/-- C12: an add whose DN is not special and whose message has no `objectClass`
element makes `objectclass_add` return `LDB_ERR_OBJECT_CLASS_VIOLATION`; no
search for the parent and no request are sent down. -/
theorem objectclass_add_without_objectclass (ldb : ldb_context) (req : ldb_request) (fuel : Nat)
    (hsp : ldb_dn_is_special req.message.dn = false)
    (hoc : ldb_msg_find_element req.message "objectClass" = none) :
    objectclass_add ldb req fuel = .ret (.done LDB_ERR_OBJECT_CLASS_VIOLATION) := by
  unfold objectclass_add
  rw [hsp, hoc]
  simp only [Bool.false_eq_true, if_false, Option.isNone_none, if_true]

/-- C12 at work: the add of `cn=Admins,…` with the attribute `cn` alone. -/
theorem objectclass_add_without_objectclass_witness :
    ldb_dn_is_special classless_request.message.dn = false ∧
    ldb_msg_find_element classless_request.message "objectClass" = none ∧
    objectclass_add directory_ldb classless_request 10 =
      .ret (.done LDB_ERR_OBJECT_CLASS_VIOLATION) :=
  ⟨rfl, by decide,
    objectclass_add_without_objectclass directory_ldb classless_request 10 rfl (by decide)⟩

/-! ## The policy checks of an add -/

theorem rdn_mismatch_some (objectclass : dsdb_class) (r n : String)
    (hr : objectclass.rDNAttID = some r) :
    rdn_mismatch objectclass (some n) = .ret (ldb_attr_cmp n r != 0) := by
  simp only [rdn_mismatch, hr]

/-- C13 as stated fails: the structural class `organizationalPerson` is named
by `cn`, the RDN of the entry, upper-cased by `fix_dn`, has the attribute name
`CN`, which is not the same text, and the add passes the naming check and is
sent down. -/
theorem objectclass_do_add_rdn_case_insensitive :
    add_reaches_checks policy_ldb policy_schema admins_add 10 admins_rebuilt ∧
    ldb_msg_find_element admins_rebuilt "objectClass" =
      some (1, ⟨0, "objectClass", ["top", "person", "organizationalPerson"]⟩) ∧
    get_last_structural_class policy_schema
      ⟨0, "objectClass", ["top", "person", "organizationalPerson"]⟩ =
      some policy_organizationalPerson ∧
    policy_organizationalPerson.rDNAttID = some "cn" ∧
    ldb_dn_get_rdn_name admins_rebuilt.dn = some "CN" ∧
    "CN" ≠ "cn" ∧
    objectclass_do_add policy_ldb admins_add 10 = .ret (.next_request admins_add_forwarded) :=
  ⟨⟨_, _, rfl, rfl, rfl⟩, by decide, by decide, rfl, by decide, by decide, by decide⟩

/-- C13, amended: in an add that reached the policy checks with a structural
class that declares a naming attribute, the check compares the attribute name
of the RDN of the entry with it without regard to case (`ldb_attr_cmp`): a
name that differs fails the add with `LDB_ERR_NAMING_VIOLATION`, a name that
is equal passes the add on to the allowed-child check. -/
theorem objectclass_do_add_naming_check (ldb : ldb_context) (schema : dsdb_schema)
    (hschema : ldb.schema = some schema) (ac : oc_context) (fuel : Nat) (msg : ldb_message)
    (hreach : add_reaches_checks ldb schema ac fuel msg)
    (p : Nat) (el : ldb_message_element) (objectclass : dsdb_class) (r n : String)
    (hel : ldb_msg_find_element msg "objectClass" = some (p, el))
    (hoc : get_last_structural_class schema el = some objectclass)
    (hr : objectclass.rDNAttID = some r)
    (hn : ldb_dn_get_rdn_name msg.dn = some n) :
    (strlower n ≠ strlower r →
      objectclass_do_add ldb ac fuel = .ret (.done LDB_ERR_NAMING_VIOLATION)) ∧
    (strlower n = strlower r →
      objectclass_do_add ldb ac fuel =
        .ret (allowed_child_gate ldb schema ac objectclass msg)) := by
  constructor
  · intro hne
    rw [objectclass_do_add_reached ldb schema hschema ac fuel msg hreach,
      check_structural_class_eq schema ac msg p el objectclass hel hoc, hn,
      rdn_mismatch_some objectclass r n hr, ldb_attr_cmp_bne_zero.2 hne]
  · intro heq
    refine objectclass_do_add_rdn_passed ldb schema hschema ac fuel msg hreach p el objectclass
      hel hoc ?_
    rw [hn, rdn_mismatch_some objectclass r n hr]
    have : ¬ (ldb_attr_cmp n r != 0) = true := by
      rw [ldb_attr_cmp_bne_zero]; exact fun h => h heq
    simp only [Bool.not_eq_true] at this
    rw [this]

/-- The amended C13 at work: the RDN attribute `CN` against the naming
attribute `cn`. -/
theorem objectclass_do_add_naming_check_witness :
    policy_ldb.schema = some policy_schema ∧
    add_reaches_checks policy_ldb policy_schema admins_add 10 admins_rebuilt ∧
    ldb_msg_find_element admins_rebuilt "objectClass" =
      some (1, ⟨0, "objectClass", ["top", "person", "organizationalPerson"]⟩) ∧
    get_last_structural_class policy_schema
      ⟨0, "objectClass", ["top", "person", "organizationalPerson"]⟩ =
      some policy_organizationalPerson ∧
    policy_organizationalPerson.rDNAttID = some "cn" ∧
    ldb_dn_get_rdn_name admins_rebuilt.dn = some "CN" ∧
    strlower "CN" = strlower "cn" ∧
    objectclass_do_add policy_ldb admins_add 10 =
      .ret (allowed_child_gate policy_ldb policy_schema admins_add policy_organizationalPerson
        admins_rebuilt) :=
  ⟨rfl, ⟨_, _, rfl, rfl, rfl⟩, by decide, by decide, rfl, by decide, by decide,
    (objectclass_do_add_naming_check policy_ldb policy_schema rfl admins_add 10 admins_rebuilt
      ⟨_, _, rfl, rfl, rfl⟩ 1 ⟨0, "objectClass", ["top", "person", "organizationalPerson"]⟩
      policy_organizationalPerson "cn" "CN" (by decide) (by decide)
      rfl (by decide)).2 (by decide)⟩

theorem inferiors_allow_iff (objectclass sclass : dsdb_class) :
    inferiors_allow objectclass sclass = true ↔
      ∃ inf ∈ sclass.systemPossibleInferiors,
        strlower objectclass.lDAPDisplayName = strlower inf := by
  unfold inferiors_allow
  rw [List.any_eq_true]
  simp only [ldb_attr_cmp_beq_zero]

/-- The loop over the classes of the parent finds a class that allows the new
entry, whatever the relax control. -/
theorem allowed_class_loop_iff (schema : dsdb_schema) (relax : Bool) (objectclass : dsdb_class) :
    ∀ values : List String,
      allowed_class_loop schema relax objectclass values = true ↔
        ∃ v ∈ values, ∃ sclass, dsdb_class_by_lDAPDisplayName schema v = some sclass ∧
          inferiors_allow objectclass sclass = true := by
  intro values
  induction values with
  | nil => simp [allowed_class_loop]
  | cons v rest ih =>
    unfold allowed_class_loop
    cases hl : dsdb_class_by_lDAPDisplayName schema v with
    | none =>
      simp only [ih, List.mem_cons, exists_eq_or_imp, hl]
      simp
    | some sclass =>
      dsimp only
      cases hi : inferiors_allow objectclass sclass with
      | true =>
        simp only [if_true, ite_self, List.mem_cons, exists_eq_or_imp, hl, true_iff]
        exact Or.inl ⟨sclass, rfl, hi⟩
      | false =>
        simp only [Bool.false_eq_true, if_false, ite_self, ih, List.mem_cons, exists_eq_or_imp,
          hl]
        constructor
        · intro h; exact Or.inr h
        · intro h
          rcases h with h | h
          · obtain ⟨s, hs, hs2⟩ := h
            cases hs
            rw [hi] at hs2
            cases hs2
          · exact h

theorem allowed_class_loop_relax (schema : dsdb_schema) (objectclass : dsdb_class)
    (values : List String) (relax relax' : Bool) :
    allowed_class_loop schema relax objectclass values =
      allowed_class_loop schema relax' objectclass values := by
  rw [Bool.eq_iff_iff, allowed_class_loop_iff, allowed_class_loop_iff]

/-- C14: in an add that reached the allowed-child check with a parent entry
found, the check passes (and the add goes on to the gate for system-only
classes) exactly when a value of the `objectClass` element of the parent
resolves to a class whose `systemPossibleInferiors` hold the name of the
structural class of the new entry, compared without regard to case; otherwise,
also for a parent without `objectClass` element, the add fails with
`LDB_ERR_NAMING_VIOLATION`.  The controls of the request do not change the
outcome of the check. -/
theorem objectclass_do_add_allowed_child (ldb : ldb_context) (schema : dsdb_schema)
    (hschema : ldb.schema = some schema) (ac : oc_context) (fuel : Nat) (msg : ldb_message)
    (hreach : add_reaches_checks ldb schema ac fuel msg)
    (p : Nat) (el : ldb_message_element) (objectclass : dsdb_class)
    (hel : ldb_msg_find_element msg "objectClass" = some (p, el))
    (hoc : get_last_structural_class schema el = some objectclass)
    (hrdn : rdn_mismatch objectclass (ldb_dn_get_rdn_name msg.dn) = .ret false)
    (res : ldb_reply) (parent : ldb_message)
    (hres : ac.search_res = some res) (hparent : res.message = some parent) :
    ((∃ q oc_el, ldb_msg_find_element parent "objectClass" = some (q, oc_el) ∧
        ∃ v ∈ oc_el.values, ∃ sclass, dsdb_class_by_lDAPDisplayName schema v = some sclass ∧
          ∃ inf ∈ sclass.systemPossibleInferiors,
            strlower objectclass.lDAPDisplayName = strlower inf) →
      objectclass_do_add ldb ac fuel = .ret (system_only_gate ldb ac objectclass msg)) ∧
    ((¬ ∃ q oc_el, ldb_msg_find_element parent "objectClass" = some (q, oc_el) ∧
        ∃ v ∈ oc_el.values, ∃ sclass, dsdb_class_by_lDAPDisplayName schema v = some sclass ∧
          ∃ inf ∈ sclass.systemPossibleInferiors,
            strlower objectclass.lDAPDisplayName = strlower inf) →
      objectclass_do_add ldb ac fuel = .ret (.done LDB_ERR_NAMING_VIOLATION)) ∧
    (∀ controls : List String,
      child_not_allowed schema { ac with req := { ac.req with controls := controls } } objectclass
        = child_not_allowed schema ac objectclass) := by
  have hrun := objectclass_do_add_rdn_passed ldb schema hschema ac fuel msg hreach p el
    objectclass hel hoc hrdn
  have hiff : child_not_allowed schema ac objectclass = false ↔
      ∃ q oc_el, ldb_msg_find_element parent "objectClass" = some (q, oc_el) ∧
        ∃ v ∈ oc_el.values, ∃ sclass, dsdb_class_by_lDAPDisplayName schema v = some sclass ∧
          ∃ inf ∈ sclass.systemPossibleInferiors,
            strlower objectclass.lDAPDisplayName = strlower inf := by
    simp only [child_not_allowed, hres, hparent]
    cases hf : ldb_msg_find_element parent "objectClass" with
    | none => simp
    | some r =>
      obtain ⟨q, oc_el⟩ := r
      simp only [Bool.not_eq_false', allowed_class_loop_iff, inferiors_allow_iff,
        Option.some.injEq, Prod.mk.injEq]
      constructor
      · intro h; exact ⟨q, oc_el, ⟨rfl, rfl⟩, h⟩
      · rintro ⟨q', oc_el', ⟨-, rfl⟩, h⟩; exact h
  refine ⟨?_, ?_, ?_⟩
  · intro h
    rw [hrun, allowed_child_gate, hiff.2 h]
    simp
  · intro h
    have : child_not_allowed schema ac objectclass = true := by
      cases hc : child_not_allowed schema ac objectclass with
      | true => rfl
      | false => exact absurd (hiff.1 hc) h
    rw [hrun, allowed_child_gate, this]
    simp
  · intro controls
    simp only [child_not_allowed, hres, hparent]
    cases ldb_msg_find_element parent "objectClass" with
    | none => rfl
    | some r =>
      simp only
      rw [allowed_class_loop_relax schema objectclass r.2.values _
        (ldb_request_get_control ac.req LDB_CONTROL_RELAX_OID)]

/-- C14 at work: the parent of `admins_add` is a `container`, which allows
`organizationalPerson` below it. -/
theorem objectclass_do_add_allowed_child_witness :
    policy_ldb.schema = some policy_schema ∧
    add_reaches_checks policy_ldb policy_schema admins_add 10 admins_rebuilt ∧
    rdn_mismatch policy_organizationalPerson (ldb_dn_get_rdn_name admins_rebuilt.dn)
      = .ret false ∧
    (∃ q oc_el, ldb_msg_find_element ⟨users_dn, [⟨0, "objectClass", ["top", "container"]⟩]⟩
        "objectClass" = some (q, oc_el) ∧
      ∃ v ∈ oc_el.values, ∃ sclass,
        dsdb_class_by_lDAPDisplayName policy_schema v = some sclass ∧
        ∃ inf ∈ sclass.systemPossibleInferiors,
          strlower policy_organizationalPerson.lDAPDisplayName = strlower inf) ∧
    objectclass_do_add policy_ldb admins_add 10 =
      .ret (system_only_gate policy_ldb admins_add policy_organizationalPerson admins_rebuilt) :=
  have hallowed : ∃ q oc_el,
      ldb_msg_find_element ⟨users_dn, [⟨0, "objectClass", ["top", "container"]⟩]⟩
        "objectClass" = some (q, oc_el) ∧
      ∃ v ∈ oc_el.values, ∃ sclass,
        dsdb_class_by_lDAPDisplayName policy_schema v = some sclass ∧
        ∃ inf ∈ sclass.systemPossibleInferiors,
          strlower policy_organizationalPerson.lDAPDisplayName = strlower inf :=
    ⟨0, ⟨0, "objectClass", ["top", "container"]⟩, by decide, "container", by decide, _,
      rfl, "organizationalPerson", by decide, by decide⟩
  ⟨rfl, ⟨_, _, rfl, rfl, rfl⟩, by decide, hallowed,
    (objectclass_do_add_allowed_child policy_ldb policy_schema rfl admins_add 10 admins_rebuilt
      ⟨_, _, rfl, rfl, rfl⟩ 1 ⟨0, "objectClass", ["top", "person", "organizationalPerson"]⟩
      policy_organizationalPerson (by decide) (by decide) (by decide)
      ⟨some ⟨users_dn, [⟨0, "objectClass", ["top", "container"]⟩]⟩⟩
      ⟨users_dn, [⟨0, "objectClass", ["top", "container"]⟩]⟩ rfl rfl).1 hallowed⟩

theorem add_defaults_error {ldb : ldb_context} {objectclass : dsdb_class} {msg : ldb_message}
    {ret : ldb_err} (h : add_defaults ldb objectclass msg = .error ret) :
    ret = LDB_ERR_OPERATIONS_ERROR := by
  unfold add_defaults at h
  cases h1 : add_objectCategory ldb objectclass msg with
  | ok m => rw [h1] at h; cases h
  | error e =>
    rw [h1] at h
    cases h
    unfold add_objectCategory at h1
    split at h1
    · dsimp only at h1
      split at h1
      · cases h1; rfl
      · cases h1
    · cases h1

/-- C15: in an add that passed the structural-class check, the RDN check and
the allowed-child check, a structural class marked `systemOnly` on a request
without the relax control ends the add with `LDB_ERR_UNWILLING_TO_PERFORM`;
in every other case the add goes on to the defaults and the final steps, which
end with `LDB_ERR_OPERATIONS_ERROR`, with the code of `ldb_msg_sanity_check`,
or with the request sent down.  So, for a sanity check that never answers
`LDB_ERR_UNWILLING_TO_PERFORM`, the add fails with that code if and only if
the class is `systemOnly` and the relax control is absent. -/
theorem objectclass_do_add_system_only (ldb : ldb_context) (schema : dsdb_schema)
    (hschema : ldb.schema = some schema) (ac : oc_context) (fuel : Nat) (msg : ldb_message)
    (hreach : add_reaches_checks ldb schema ac fuel msg)
    (p : Nat) (el : ldb_message_element) (objectclass : dsdb_class)
    (hel : ldb_msg_find_element msg "objectClass" = some (p, el))
    (hoc : get_last_structural_class schema el = some objectclass)
    (hrdn : rdn_mismatch objectclass (ldb_dn_get_rdn_name msg.dn) = .ret false)
    (hchild : child_not_allowed schema ac objectclass = false) :
    ((objectclass.systemOnly = true ∧
        ldb_request_get_control ac.req LDB_CONTROL_RELAX_OID = false) →
      objectclass_do_add ldb ac fuel = .ret (.done LDB_ERR_UNWILLING_TO_PERFORM)) ∧
    ((objectclass.systemOnly = false ∨
        ldb_request_get_control ac.req LDB_CONTROL_RELAX_OID = true) →
      objectclass_do_add ldb ac fuel = .ret
        (match add_defaults ldb objectclass msg with
          | .error _ => .done LDB_ERR_OPERATIONS_ERROR
          | .ok msg => finish_add ldb ac msg)) ∧
    ((∀ m, ldb.ldb_msg_sanity_check m ≠ LDB_ERR_UNWILLING_TO_PERFORM) →
      (objectclass_do_add ldb ac fuel = .ret (.done LDB_ERR_UNWILLING_TO_PERFORM) ↔
        (objectclass.systemOnly = true ∧
          ldb_request_get_control ac.req LDB_CONTROL_RELAX_OID = false))) := by
  have hrun := objectclass_do_add_rdn_passed ldb schema hschema ac fuel msg hreach p el
    objectclass hel hoc hrdn
  rw [allowed_child_gate, hchild] at hrun
  simp only [Bool.false_eq_true, if_false] at hrun
  have hyes : (objectclass.systemOnly = true ∧
        ldb_request_get_control ac.req LDB_CONTROL_RELAX_OID = false) →
      objectclass_do_add ldb ac fuel = .ret (.done LDB_ERR_UNWILLING_TO_PERFORM) := by
    rintro ⟨h1, h2⟩
    rw [hrun, system_only_gate, h1, h2]
    simp
  have hno : (objectclass.systemOnly = false ∨
        ldb_request_get_control ac.req LDB_CONTROL_RELAX_OID = true) →
      objectclass_do_add ldb ac fuel = .ret
        (match add_defaults ldb objectclass msg with
          | .error _ => .done LDB_ERR_OPERATIONS_ERROR
          | .ok msg => finish_add ldb ac msg) := by
    intro h
    have hc : (objectclass.systemOnly &&
        !ldb_request_get_control ac.req LDB_CONTROL_RELAX_OID) = false := by
      rcases h with h | h <;> simp [h]
    rw [hrun, system_only_gate, hc]
    simp only [Bool.false_eq_true, if_false]
    cases hd : add_defaults ldb objectclass msg with
    | error e => rw [add_defaults_error hd]
    | ok m => rfl
  refine ⟨hyes, hno, ?_⟩
  intro hsane
  refine ⟨?_, hyes⟩
  intro hu
  by_contra hnot
  have hcase : objectclass.systemOnly = false ∨
      ldb_request_get_control ac.req LDB_CONTROL_RELAX_OID = true := by
    cases h1 : objectclass.systemOnly with
    | false => exact Or.inl rfl
    | true =>
      cases h2 : ldb_request_get_control ac.req LDB_CONTROL_RELAX_OID with
      | true => exact Or.inr rfl
      | false => exact absurd ⟨h1, h2⟩ hnot
  rw [hno hcase] at hu
  cases hd : add_defaults ldb objectclass msg with
  | error e =>
    rw [hd] at hu
    cases hu
  | ok m =>
    rw [hd] at hu
    simp only [finish_add] at hu
    split at hu
    · injection hu with hu
      injection hu with hu
      exact hsane m hu
    · cases hu

/-- C15 at work: `crossref_add` creates an entry of the system-only class
`crossRefContainer` below a container that allows it, without the relax
control, and is refused. -/
theorem objectclass_do_add_system_only_witness :
    policy_ldb.schema = some policy_schema ∧
    add_reaches_checks policy_ldb policy_schema crossref_add 10 crossref_rebuilt ∧
    child_not_allowed policy_schema crossref_add policy_crossRefContainer = false ∧
    policy_crossRefContainer.systemOnly = true ∧
    ldb_request_get_control crossref_add.req LDB_CONTROL_RELAX_OID = false ∧
    objectclass_do_add policy_ldb crossref_add 10 = .ret (.done LDB_ERR_UNWILLING_TO_PERFORM) :=
  ⟨rfl, ⟨_, _, rfl, rfl, rfl⟩, by decide, rfl, by decide,
    (objectclass_do_add_system_only policy_ldb policy_schema rfl crossref_add 10 crossref_rebuilt
      ⟨_, _, rfl, rfl, rfl⟩ 0 ⟨0, "objectClass", ["top", "crossRefContainer"]⟩
      policy_crossRefContainer (by decide) (by decide) (by decide) (by decide)).1
      ⟨rfl, by decide⟩⟩

/-! ## The `systemFlags` of an add -/

theorem is_named_systemFlags (flags : Nat) (vals : List String) :
    is_named "systemFlags" ⟨flags, "systemFlags", vals⟩ = true := by
  show (ldb_attr_cmp "systemFlags" "systemFlags" == 0) = true
  decide

theorem check_parent_elements {ldb : ldb_context} {ac : oc_context} {msg0 : ldb_message}
    (h : check_parent ldb ac = .ret (.ok msg0)) : msg0.elements = ac.req.message.elements := by
  unfold check_parent at h
  split at h
  · split at h
    · cases h; rfl
    · cases h
  · split at h
    · cases h
    · split at h
      · cases h
      · cases h
      · split at h
        · cases h
        · cases h; rfl

/-- The element `ldb_msg_find_element` finds is the first of those that carry
the name. -/
theorem find_element_head (msg : ldb_message) (n : String) :
    (ldb_msg_find_element msg n).map (·.2) = (msg.elements.filter (is_named n)).head? := by
  unfold ldb_msg_find_element
  cases hf : find_element_from n msg.elements 0 with
  | none =>
    have := (find_element_from_none n _ 0).1 hf
    have hnil : msg.elements.filter (is_named n) = [] := by
      rw [List.filter_eq_nil_iff]
      intro x hx
      simp [this x hx]
    rw [hnil]
    rfl
  | some r =>
    obtain ⟨p, el⟩ := r
    obtain ⟨before, after, hl, -, hn, hb⟩ := find_element_from_some _ _ 0 p el hf
    have hbn : before.filter (is_named n) = [] := by
      rw [List.filter_eq_nil_iff]
      intro x hx
      simp [hb x hx]
    rw [hl, List.filter_append, hbn, List.filter_cons, if_pos hn]
    rfl

theorem find_values_same (msg msg' : ldb_message) (n : String)
    (h : List.Forall₂ same_element (msg.elements.filter (is_named n))
      (msg'.elements.filter (is_named n))) :
    (ldb_msg_find_element msg' n).map (·.2.values) =
      (ldb_msg_find_element msg n).map (·.2.values) := by
  have e : ∀ m : ldb_message, (ldb_msg_find_element m n).map (·.2.values) =
      ((ldb_msg_find_element m n).map (·.2)).map (·.values) := by
    intro m
    cases ldb_msg_find_element m n <;> rfl
  rw [e, e, find_element_head, find_element_head]
  generalize msg.elements.filter (is_named n) = l at h
  generalize msg'.elements.filter (is_named n) = l' at h
  cases h with
  | nil => rfl
  | cons hab _ => simp [hab.2.1]

theorem find_attr_as_int_values (ldb : ldb_context) (msg : ldb_message) (n : String) (d : Nat) :
    ldb_msg_find_attr_as_int ldb msg n d =
      match (ldb_msg_find_element msg n).map (·.2.values) with
      | some vs =>
        match vs.head? with
        | some v => to_int32_bits (ldb.strtol v)
        | none => d
      | none => d := by
  unfold ldb_msg_find_attr_as_int
  cases ldb_msg_find_element msg n <;> rfl

theorem find_isSome_values (msg : ldb_message) (n : String) :
    (ldb_msg_find_element msg n).isSome =
      ((ldb_msg_find_element msg n).map (·.2.values)).isSome := by
  cases ldb_msg_find_element msg n <;> rfl

theorem add_sorted_classes_filter (n : String) (hne : strlower "objectClass" ≠ strlower n) :
    ∀ (sorted : List class_list) (msg msg' : ldb_message),
      add_sorted_classes sorted msg = .ret msg' →
      msg'.elements.filter (is_named n) = msg.elements.filter (is_named n) := by
  intro sorted
  induction sorted with
  | nil =>
    intro msg msg' h
    simp only [add_sorted_classes] at h
    cases h
    rfl
  | cons c rest ih =>
    intro msg msg' h
    unfold add_sorted_classes at h
    cases hc : c.objectclass with
    | none => rw [hc] at h; cases h
    | some cls =>
      rw [hc] at h
      rw [ih _ _ h, filter_add_string _ _ _ _ hne]

/-- Rebuilding the `objectClass` element leaves the elements of every other
name as they are. -/
theorem rebuild_objectclass_filter (schema : dsdb_schema) (fuel : Nat) (msg msg' : ldb_message)
    (n : String) (hne : strlower "objectClass" ≠ strlower n)
    (h : rebuild_objectclass schema fuel msg = .ret (.ok msg')) :
    msg'.elements.filter (is_named n) = msg.elements.filter (is_named n) := by
  unfold rebuild_objectclass at h
  cases hf : ldb_msg_find_element msg "objectClass" with
  | none => rw [hf] at h; cases h
  | some r =>
    obtain ⟨p, el⟩ := r
    rw [hf] at h
    simp only at h
    cases hs : objectclass_sort schema fuel el.values with
    | fault => rw [hs] at h; cases h
    | out_of_fuel => rw [hs] at h; cases h
    | ret r =>
      cases r with
      | error e => rw [hs] at h; cases h
      | ok sorted =>
        rw [hs] at h
        simp only at h
        cases ha : add_sorted_classes sorted
            (ldb_msg_add_empty (ldb_msg_remove_attr msg "objectClass") "objectClass" 0) with
        | fault => rw [ha] at h; cases h
        | out_of_fuel => rw [ha] at h; cases h
        | ret m =>
          rw [ha] at h
          simp only at h
          cases h
          rw [add_sorted_classes_filter n hne sorted _ _ ha]
          have hnew : is_named n ⟨0, "objectClass", []⟩ = false := by
            cases hx : is_named n ⟨0, "objectClass", []⟩ with
            | false => rfl
            | true => exact absurd (is_named_iff.1 hx) hne
          unfold ldb_msg_add_empty ldb_msg_remove_attr
          rw [hf]
          simp only [List.filter_append, List.filter_cons, hnew, Bool.false_eq_true, if_false,
            List.filter_nil, List.append_nil]
          exact filter_remove_found msg "objectClass" n p el hf hne

/-- The elements of a name other than `objectClass` reach the policy checks as
the client supplied them, up to the case of the letters of their names. -/
theorem add_reaches_checks_filter (ldb : ldb_context) (schema : dsdb_schema) (ac : oc_context)
    (fuel : Nat) (msg : ldb_message) (hreach : add_reaches_checks ldb schema ac fuel msg)
    (n : String) (hne : strlower "objectClass" ≠ strlower n) :
    List.Forall₂ same_element (ac.req.message.elements.filter (is_named n))
      (msg.elements.filter (is_named n)) := by
  obtain ⟨msg0, msg1, h0, h1, h2⟩ := hreach
  have hm1 : msg1.elements = (fix_check_elements schema ac.req.operation msg0.elements).2 := by
    unfold fix_check_attributes at h1
    simp only [Prod.mk.injEq] at h1
    rw [← h1.2]
  rw [rebuild_objectclass_filter schema fuel msg1 msg n hne h2, hm1, ← check_parent_elements h0]
  exact filter_same n _ _ (fix_check_elements_same schema _ _)

/-- A forwarded add reached the policy checks, passed them with a structural
class, and carries the message the defaults were added to. -/
theorem objectclass_do_add_forwarded_checks (ldb : ldb_context) (schema : dsdb_schema)
    (hschema : ldb.schema = some schema) (ac : oc_context) (fuel : Nat) (req' : ldb_request)
    (h : objectclass_do_add ldb ac fuel = .ret (.next_request req')) :
    ∃ msg objectclass, add_reaches_checks ldb schema ac fuel msg ∧
      check_structural_class schema ac msg = .ret (.ok objectclass) ∧
      add_defaults ldb objectclass msg = .ok req'.message := by
  rw [objectclass_do_add_eq] at h
  cases h0 : check_parent ldb ac with
  | fault => rw [h0] at h; cases h
  | out_of_fuel => rw [h0] at h; cases h
  | ret r =>
    cases r with
    | error e => rw [h0] at h; cases h
    | ok msg0 =>
      rw [h0] at h
      simp only [do_add_transform, hschema, do_add_with_schema] at h
      cases hfc : fix_check_attributes schema msg0 ac.req.operation with
      | mk ret msg1 =>
        rw [hfc] at h
        simp only at h
        by_cases hret : ret = LDB_SUCCESS
        · subst hret
          simp only [ne_eq, not_true_eq_false, if_false] at h
          cases hrb : rebuild_objectclass schema fuel msg1 with
          | fault => rw [hrb] at h; cases h
          | out_of_fuel => rw [hrb] at h; cases h
          | ret r1 =>
            cases r1 with
            | error e => rw [hrb] at h; cases h
            | ok msg =>
              rw [hrb] at h
              simp only at h
              cases hcs : check_structural_class schema ac msg with
              | fault => rw [hcs] at h; cases h
              | out_of_fuel => rw [hcs] at h; cases h
              | ret r2 =>
                cases r2 with
                | error e => rw [hcs] at h; cases h
                | ok objectclass =>
                  rw [hcs] at h
                  simp only at h
                  cases hd : add_defaults ldb objectclass msg with
                  | error e => rw [hd] at h; cases h
                  | ok m =>
                    rw [hd] at h
                    simp only [finish_add] at h
                    split at h
                    · cases h
                    · simp only [exec.ret.injEq, oc_result.next_request.injEq] at h
                      subst h
                      exact ⟨msg, objectclass, ⟨msg0, msg1, h0, hfc, hrb⟩, hcs, hd⟩
        · simp only [ne_eq, hret, not_false_eq_true, if_true] at h
          cases h

/-- The `systemFlags` step on a message with at most one `systemFlags`
element: the message ends with one such element, which holds the recomputed
value, when it had one or the value is not zero, and with none otherwise. -/
theorem add_systemFlags_filter (ldb : ldb_context) (objectclass : dsdb_class) (m : ldb_message)
    (hone : (m.elements.filter (is_named "systemFlags")).length ≤ 1) :
    (add_systemFlags ldb objectclass m).elements.filter (is_named "systemFlags") =
      if (ldb_msg_find_element m "systemFlags").isSome ||
          class_systemFlags objectclass (ldb_msg_find_attr_as_int ldb m "systemFlags" 0) != 0 then
        [⟨0, "systemFlags", [ldb.format_int (of_int32_bits
          (class_systemFlags objectclass (ldb_msg_find_attr_as_int ldb m "systemFlags" 0)))]⟩]
      else [] := by
  have hrem : ∀ x ∈ (match ldb_msg_find_element m "systemFlags" with
      | some (pos, _) => ldb_msg_remove_element m pos
      | none => m).elements, is_named "systemFlags" x = false := by
    cases hf : ldb_msg_find_element m "systemFlags" with
    | none =>
      exact (find_element_from_none "systemFlags" _ 0).1 hf
    | some r =>
      obtain ⟨p, el⟩ := r
      have hf' := hf
      unfold ldb_msg_find_element at hf'
      obtain ⟨before, after, hl, hp, hn, hb⟩ := find_element_from_some _ _ 0 p el hf'
      have hbn : before.filter (is_named "systemFlags") = [] := by
        rw [List.filter_eq_nil_iff]
        intro x hx
        simp [hb x hx]
      have han : after.filter (is_named "systemFlags") = [] := by
        rw [hl, List.filter_append, hbn, List.filter_cons, if_pos hn] at hone
        simp only [List.nil_append, List.length_cons] at hone
        exact List.eq_nil_of_length_eq_zero (by omega)
      have hels : (ldb_msg_remove_element m p).elements = before ++ after := by
        simp only [ldb_msg_remove_element, hl, hp]
        simp [List.eraseIdx_append_of_length_le]
      intro x hx
      simp only at hx
      rw [hels] at hx
      rcases List.mem_append.1 hx with hx | hx
      · exact hb x hx
      · cases hx2 : is_named "systemFlags" x with
        | false => rfl
        | true =>
          have : x ∈ after.filter (is_named "systemFlags") := List.mem_filter.2 ⟨hx, hx2⟩
          rw [han] at this
          cases this
  have hnil : (match ldb_msg_find_element m "systemFlags" with
      | some (pos, _) => ldb_msg_remove_element m pos
      | none => m).elements.filter (is_named "systemFlags") = [] := by
    rw [List.filter_eq_nil_iff]
    intro x hx
    simp [hrem x hx]
  unfold add_systemFlags
  simp only
  split
  · unfold samdb_msg_add_int ldb_msg_add_string
    have hnone : ldb_msg_find_element (match ldb_msg_find_element m "systemFlags" with
        | some (pos, _) => ldb_msg_remove_element m pos
        | none => m) "systemFlags" = none :=
      (find_element_from_none "systemFlags" _ 0).2 hrem
    rw [hnone]
    simp only [List.filter_append, hnil, List.nil_append, List.filter_cons,
      is_named_systemFlags, if_true, List.filter_nil]
  · exact hnil

/-- The defaults on a message with at most one `systemFlags` element: what the
`systemFlags` of the result are. -/
theorem add_defaults_systemFlags (ldb : ldb_context) (objectclass : dsdb_class)
    (msg msg' : ldb_message) (h : add_defaults ldb objectclass msg = .ok msg')
    (hone : (msg.elements.filter (is_named "systemFlags")).length ≤ 1) :
    msg'.elements.filter (is_named "systemFlags") =
      if (ldb_msg_find_element msg "systemFlags").isSome ||
          class_systemFlags objectclass (ldb_msg_find_attr_as_int ldb msg "systemFlags" 0) != 0
      then
        [⟨0, "systemFlags", [ldb.format_int (of_int32_bits
          (class_systemFlags objectclass (ldb_msg_find_attr_as_int ldb msg "systemFlags" 0)))]⟩]
      else [] := by
  unfold add_defaults at h
  cases h1 : add_objectCategory ldb objectclass msg with
  | error e => rw [h1] at h; cases h
  | ok m1 =>
    rw [h1] at h
    simp only [Except.ok.injEq] at h
    have e1 : m1.elements.filter (is_named "systemFlags") =
        msg.elements.filter (is_named "systemFlags") := by
      unfold add_objectCategory at h1
      split at h1
      · dsimp only at h1
        cases hv : (if ldb.dn_format = some false then
            ldb.strip_extended objectclass.defaultObjectCategory
            else some objectclass.defaultObjectCategory) with
        | none => rw [hv] at h1; cases h1
        | some value =>
          rw [hv] at h1
          cases h1
          exact filter_add_string _ _ _ _ (by decide)
      · cases h1; rfl
    have e2 : (add_showInAdvancedViewOnly objectclass m1).elements.filter
        (is_named "systemFlags") = msg.elements.filter (is_named "systemFlags") := by
      rw [← e1]
      unfold add_showInAdvancedViewOnly
      split
      · exact filter_add_string _ _ _ _ (by decide)
      · rfl
    have hrefl : ∀ l : List ldb_message_element, List.Forall₂ same_element l l := by
      intro l
      induction l with
      | nil => exact List.Forall₂.nil
      | cons x l ihl => exact List.Forall₂.cons ⟨rfl, rfl, rfl⟩ ihl
    have hv := find_values_same msg (add_showInAdvancedViewOnly objectclass m1) "systemFlags"
      (by rw [e2]; exact hrefl _)
    rw [← h, add_systemFlags_filter ldb objectclass _ (by rw [e2]; exact hone),
      find_attr_as_int_values, find_isSome_values, hv, ← find_attr_as_int_values,
      ← find_isSome_values]

/-- The fixed bits of the class are set on top of the value read, from which
the bit `SYSTEM_FLAG_ATTR_IS_RDN` is cleared for the class `attributeSchema`. -/
theorem class_systemFlags_split (objectclass : dsdb_class) (x : Nat) :
    class_systemFlags objectclass x =
      (if strlower objectclass.lDAPDisplayName = strlower "attributeSchema" then
        x &&& (0xFFFFFFFF ^^^ SYSTEM_FLAG_ATTR_IS_RDN)
      else x) ||| class_systemFlags objectclass 0 := by
  simp only [class_systemFlags, ldb_attr_cmp_beq_zero, Bool.or_eq_true]
  by_cases ha : strlower objectclass.lDAPDisplayName = strlower "attributeSchema"
  · have h1 : ¬ strlower objectclass.lDAPDisplayName = strlower "server" := by
      rw [ha]; decide
    have h2 : ¬ strlower objectclass.lDAPDisplayName = strlower "site" := by
      rw [ha]; decide
    have h3 : ¬ strlower objectclass.lDAPDisplayName = strlower "serverContainer" := by
      rw [ha]; decide
    have h4 : ¬ strlower objectclass.lDAPDisplayName = strlower "ntDSDSA" := by
      rw [ha]; decide
    have h5 : ¬ strlower objectclass.lDAPDisplayName = strlower "siteLink" := by
      rw [ha]; decide
    have h6 : ¬ strlower objectclass.lDAPDisplayName = strlower "siteLinkBridge" := by
      rw [ha]; decide
    have h7 : ¬ strlower objectclass.lDAPDisplayName = strlower "nTDSConnection" := by
      rw [ha]; decide
    simp only [h1, h2, h3, h4, h5, h6, h7, or_self, if_false, if_pos ha, Nat.zero_and,
      Nat.or_zero]
  · simp only [if_neg ha]
    split
    · rw [Nat.zero_or]
    · split
      · rw [Nat.zero_or]
      · split
        · rw [Nat.zero_or]
        · rw [Nat.or_zero]

/-- What a forwarded add carries as `systemFlags`, in terms of the entry the
client supplied. -/
theorem objectclass_do_add_systemFlags (ldb : ldb_context) (schema : dsdb_schema)
    (hschema : ldb.schema = some schema) (ac : oc_context) (fuel : Nat) (req' : ldb_request)
    (h : objectclass_do_add ldb ac fuel = .ret (.next_request req'))
    (hone : (ac.req.message.elements.filter (is_named "systemFlags")).length ≤ 1) :
    ∃ msg objectclass, add_reaches_checks ldb schema ac fuel msg ∧
      check_structural_class schema ac msg = .ret (.ok objectclass) ∧
      req'.message.elements.filter (is_named "systemFlags") =
        if (ldb_msg_find_element ac.req.message "systemFlags").isSome ||
            class_systemFlags objectclass
              (ldb_msg_find_attr_as_int ldb ac.req.message "systemFlags" 0) != 0 then
          [⟨0, "systemFlags", [ldb.format_int (of_int32_bits (class_systemFlags objectclass
            (ldb_msg_find_attr_as_int ldb ac.req.message "systemFlags" 0)))]⟩]
        else [] := by
  obtain ⟨msg, objectclass, hreach, hcs, hd⟩ :=
    objectclass_do_add_forwarded_checks ldb schema hschema ac fuel req' h
  have hsame := add_reaches_checks_filter ldb schema ac fuel msg hreach "systemFlags" (by decide)
  have hone2 : (msg.elements.filter (is_named "systemFlags")).length ≤ 1 := by
    rw [← hsame.length_eq]; exact hone
  have hv := find_values_same ac.req.message msg "systemFlags" hsame
  refine ⟨msg, objectclass, hreach, hcs, ?_⟩
  rw [add_defaults_systemFlags ldb objectclass msg _ hd hone2, find_attr_as_int_values,
    find_isSome_values, hv, ← find_attr_as_int_values, ← find_isSome_values]

/-- C16 (counterexample): two adds of an `organizationalPerson`, a class
without fixed `systemFlags` bits, that differ only in the `systemFlags` value
the client supplies, `1` and `2`: the first is forwarded with `systemFlags`
`1`, the second with `systemFlags` `2`. -/
theorem objectclass_do_add_systemFlags_not_stripped :
    objectclass_do_add policy_ldb (flags_add "1") 10 =
      .ret (.next_request (flags_add_forwarded "1")) ∧
    objectclass_do_add policy_ldb (flags_add "2") 10 =
      .ret (.next_request (flags_add_forwarded "2")) ∧
    (flags_add_forwarded "1").message.elements.filter (is_named "systemFlags") =
      [⟨0, "systemFlags", ["1"]⟩] ∧
    (flags_add_forwarded "2").message.elements.filter (is_named "systemFlags") =
      [⟨0, "systemFlags", ["2"]⟩] ∧
    check_structural_class policy_schema (flags_add "1") admins_rebuilt =
      .ret (.ok policy_organizationalPerson) ∧
    class_systemFlags policy_organizationalPerson 0 = 0 := by
  refine ⟨?_, ?_, ?_, ?_, ?_, ?_⟩ <;> decide

theorem add_reaches_checks_unique {ldb : ldb_context} {schema : dsdb_schema} {ac : oc_context}
    {fuel : Nat} {msg msg' : ldb_message} (h : add_reaches_checks ldb schema ac fuel msg)
    (h' : add_reaches_checks ldb schema ac fuel msg') : msg = msg' := by
  obtain ⟨m0, m1, h0, h1, h2⟩ := h
  obtain ⟨n0, n1, k0, k1, k2⟩ := h'
  rw [h0] at k0
  cases k0
  rw [h1] at k1
  cases k1
  rw [h2] at k2
  cases k2
  rfl

/-- C16 (amended): the `systemFlags` value the client supplies is kept.  For
every add the transform forwards with a schema present, the entry having
exactly one `systemFlags` element, with first value `v`, and the structural
class, the one found in the rebuilt message `msg`, being another one than
`attributeSchema`: the forwarded entry has one `systemFlags` element, whose one
value is the text of the 32-bit integer read from `v` with the fixed bits of
the structural class set on top. -/
theorem objectclass_do_add_systemFlags_kept (ldb : ldb_context) (schema : dsdb_schema)
    (hschema : ldb.schema = some schema) (ac : oc_context) (fuel : Nat) (req' : ldb_request)
    (h : objectclass_do_add ldb ac fuel = .ret (.next_request req'))
    (hone : (ac.req.message.elements.filter (is_named "systemFlags")).length ≤ 1)
    (p : Nat) (el : ldb_message_element) (v : String)
    (hel : ldb_msg_find_element ac.req.message "systemFlags" = some (p, el))
    (hv : el.values.head? = some v)
    (msg : ldb_message) (hreach : add_reaches_checks ldb schema ac fuel msg)
    (objectclass : dsdb_class)
    (hcs : check_structural_class schema ac msg = .ret (.ok objectclass))
    (hclass : ¬ strlower objectclass.lDAPDisplayName = strlower "attributeSchema") :
    req'.message.elements.filter (is_named "systemFlags") =
      [⟨0, "systemFlags", [ldb.format_int (of_int32_bits
        (to_int32_bits (ldb.strtol v) ||| class_systemFlags objectclass 0))]⟩] := by
  obtain ⟨msg', objectclass', hreach', hcs', hf⟩ :=
    objectclass_do_add_systemFlags ldb schema hschema ac fuel req' h hone
  have hm : msg' = msg := add_reaches_checks_unique hreach' hreach
  rw [hm, hcs] at hcs'
  have ho : objectclass = objectclass' := by
    simp only [exec.ret.injEq, Except.ok.injEq] at hcs'
    exact hcs'
  rw [← ho] at hf
  have hint : ldb_msg_find_attr_as_int ldb ac.req.message "systemFlags" 0 =
      to_int32_bits (ldb.strtol v) := by
    unfold ldb_msg_find_attr_as_int
    rw [hel]
    simp only [hv]
  rw [hf, hel, hint, class_systemFlags_split, if_neg hclass]
  simp

/-- C16 (amended) at work: the client supplies `-1`, every bit set, in the one
`systemFlags` element of the add of an `organizationalPerson`, a class without
fixed bits, and `-1` is forwarded. -/
theorem objectclass_do_add_systemFlags_kept_witness :
    policy_ldb.schema = some policy_schema ∧
    objectclass_do_add policy_ldb (flags_add "-1") 10 =
      .ret (.next_request (flags_add_forwarded "-1")) ∧
    ((flags_add "-1").req.message.elements.filter (is_named "systemFlags")).length ≤ 1 ∧
    ldb_msg_find_element (flags_add "-1").req.message "systemFlags" =
      some (2, ⟨0, "systemFlags", ["-1"]⟩) ∧
    add_reaches_checks policy_ldb policy_schema (flags_add "-1") 10 (flags_rebuilt "-1") ∧
    check_structural_class policy_schema (flags_add "-1") (flags_rebuilt "-1") =
      .ret (.ok policy_organizationalPerson) ∧
    ¬ strlower policy_organizationalPerson.lDAPDisplayName = strlower "attributeSchema" ∧
    class_systemFlags policy_organizationalPerson 0 = 0 ∧
    (flags_add_forwarded "-1").message.elements.filter (is_named "systemFlags") =
      [⟨0, "systemFlags", ["-1"]⟩] ∧
    (flags_add_forwarded "-1").message.elements.filter (is_named "systemFlags") =
      [⟨0, "systemFlags", [policy_ldb.format_int (of_int32_bits
        (to_int32_bits (policy_ldb.strtol "-1") |||
          class_systemFlags policy_organizationalPerson 0))]⟩] :=
  ⟨rfl, by decide, by decide, by decide, ⟨_, _, rfl, rfl, rfl⟩, by decide, by decide, by decide,
    by decide,
    objectclass_do_add_systemFlags_kept policy_ldb policy_schema rfl (flags_add "-1") 10
      (flags_add_forwarded "-1") (by decide) (by decide) 2 ⟨0, "systemFlags", ["-1"]⟩ "-1"
      (by decide) rfl (flags_rebuilt "-1") ⟨_, _, rfl, rfl, rfl⟩ policy_organizationalPerson
      (by decide) (by decide)⟩

/-- C17 as stated fails: the add `two_flags_add` of a `server` carries two
`systemFlags` elements, `1` and `0`.  It is sent down with one `systemFlags`
element that holds two values, the `0` of the client and the recomputed
`1375731713`: the element does not hold the recomputed value alone. -/
theorem objectclass_do_add_two_systemFlags_values :
    objectclass_do_add sites_ldb two_flags_add 10 =
      .ret (.next_request two_flags_add_forwarded) ∧
    two_flags_add_forwarded.message.elements.filter (is_named "systemFlags") =
      [⟨0, "systemFlags", ["0", "1375731713"]⟩] ∧
    class_systemFlags (plain_class "server" "top" 1)
      (ldb_msg_find_attr_as_int sites_ldb two_flags_add.req.message "systemFlags" 0) =
        1375731713 := by
  refine ⟨?_, ?_, ?_⟩ <;> decide

/-- C17 (amended): for every add the transform forwards with a schema present,
the entry having at most one `systemFlags` element: the forwarded entry carries a
`systemFlags` attribute if and only if the incoming entry carried one or the
recomputed value is not zero; when it is carried it appears once, as one
element with one value, the text of the recomputed value.  The recomputed
value is the value read from the incoming entry (zero without one) with the
rules of the structural class applied. -/
theorem objectclass_do_add_systemFlags_emitted (ldb : ldb_context) (schema : dsdb_schema)
    (hschema : ldb.schema = some schema) (ac : oc_context) (fuel : Nat) (req' : ldb_request)
    (h : objectclass_do_add ldb ac fuel = .ret (.next_request req'))
    (hone : (ac.req.message.elements.filter (is_named "systemFlags")).length ≤ 1) :
    ∃ msg objectclass, add_reaches_checks ldb schema ac fuel msg ∧
      check_structural_class schema ac msg = .ret (.ok objectclass) ∧
      ((ldb_msg_find_element req'.message "systemFlags").isSome =
        ((ldb_msg_find_element ac.req.message "systemFlags").isSome ||
          class_systemFlags objectclass
            (ldb_msg_find_attr_as_int ldb ac.req.message "systemFlags" 0) != 0)) ∧
      ((ldb_msg_find_element req'.message "systemFlags").isSome = true →
        req'.message.elements.filter (is_named "systemFlags") =
          [⟨0, "systemFlags", [ldb.format_int (of_int32_bits (class_systemFlags objectclass
            (ldb_msg_find_attr_as_int ldb ac.req.message "systemFlags" 0)))]⟩]) := by
  obtain ⟨msg, objectclass, hreach, hcs, hf⟩ :=
    objectclass_do_add_systemFlags ldb schema hschema ac fuel req' h hone
  have hsome : (ldb_msg_find_element req'.message "systemFlags").isSome =
      (req'.message.elements.filter (is_named "systemFlags")).head?.isSome := by
    rw [← find_element_head]
    cases ldb_msg_find_element req'.message "systemFlags" <;> rfl
  refine ⟨msg, objectclass, hreach, hcs, ?_, ?_⟩
  · rw [hsome, hf]
    split
    · rename_i hc
      rw [hc]; rfl
    · rename_i hc
      rw [Bool.not_eq_true] at hc
      rw [hc]; rfl
  · intro hs
    rw [hsome, hf] at hs
    rw [hf]
    split
    · rfl
    · rename_i hc
      rw [if_neg hc] at hs
      cases hs

/-- C17 (amended) at work: the client supplies `systemFlags` `0` for an
`organizationalPerson`; the recomputed value is zero, and the attribute is
forwarded, with the value `0`, because the entry carried one. -/
theorem objectclass_do_add_systemFlags_emitted_witness :
    objectclass_do_add policy_ldb (flags_add "0") 10 =
      .ret (.next_request (flags_add_forwarded "0")) ∧
    ((flags_add "0").req.message.elements.filter (is_named "systemFlags")).length ≤ 1 ∧
    ∃ msg objectclass, add_reaches_checks policy_ldb policy_schema (flags_add "0") 10 msg ∧
      check_structural_class policy_schema (flags_add "0") msg = .ret (.ok objectclass) ∧
      ((ldb_msg_find_element (flags_add_forwarded "0").message "systemFlags").isSome =
        ((ldb_msg_find_element (flags_add "0").req.message "systemFlags").isSome ||
          class_systemFlags objectclass
            (ldb_msg_find_attr_as_int policy_ldb (flags_add "0").req.message "systemFlags" 0)
              != 0)) ∧
      ((ldb_msg_find_element (flags_add_forwarded "0").message "systemFlags").isSome = true →
        (flags_add_forwarded "0").message.elements.filter (is_named "systemFlags") =
          [⟨0, "systemFlags", [policy_ldb.format_int (of_int32_bits
            (class_systemFlags objectclass (ldb_msg_find_attr_as_int policy_ldb
              (flags_add "0").req.message "systemFlags" 0)))]⟩]) :=
  ⟨by decide, by decide,
    objectclass_do_add_systemFlags_emitted policy_ldb policy_schema rfl (flags_add "0") 10
      (flags_add_forwarded "0") (by decide) (by decide)⟩

/-! ## Modifications of `objectClass` -/

/-- C18: for every modify with a schema present and a DN that is not special,
whose `objectClass` element is a delete without values, `objectclass_modify`
returns `LDB_ERR_OBJECT_CLASS_MODS_PROHIBITED`: nothing is sent down, and the
other elements of the message, valid or not, play no part. -/
theorem objectclass_modify_delete_all (ldb : ldb_context) (schema : dsdb_schema)
    (hschema : ldb.schema = some schema) (req : ldb_request) (fuel : Nat)
    (hdn : ldb_dn_is_special req.message.dn = false)
    (p : Nat) (el : ldb_message_element)
    (hel : ldb_msg_find_element req.message "objectClass" = some (p, el))
    (hdel : el.flags &&& LDB_FLAG_MOD_MASK = LDB_FLAG_MOD_DELETE)
    (hvals : el.values = []) :
    objectclass_modify ldb req fuel = .ret (.done LDB_ERR_OBJECT_CLASS_MODS_PROHIBITED) := by
  have hne : ¬ req.message.elements.length = 0 := by
    intro h0
    have hnil : req.message.elements = [] := List.eq_nil_of_length_eq_zero h0
    unfold ldb_msg_find_element at hel
    rw [hnil] at hel
    simp [find_element_from] at hel
  unfold objectclass_modify
  simp only [hdn, Bool.false_eq_true, if_false, hschema, hne, hel, hdel, if_true, hvals,
    List.length_nil]

/-- C18 at work: `delete_all_modify` is refused although its second element
names an attribute the schema does not know, which the attribute validation
would answer with `LDB_ERR_NO_SUCH_ATTRIBUTE`. -/
theorem objectclass_modify_delete_all_witness :
    (fix_check_attributes directory_schema delete_all_modify.message LDB_MODIFY).1 =
      LDB_ERR_NO_SUCH_ATTRIBUTE ∧
    objectclass_modify directory_ldb delete_all_modify 10 =
      .ret (.done LDB_ERR_OBJECT_CLASS_MODS_PROHIBITED) :=
  ⟨by decide,
    objectclass_modify_delete_all directory_ldb directory_schema rfl delete_all_modify 10
      (by decide) 0 ⟨LDB_FLAG_MOD_DELETE, "objectClass", []⟩ (by decide) (by decide) rfl⟩

/-- C19: a replace of `objectClass` by the empty set is not refused.  Sorting
no value succeeds, for every schema, with the chain that holds `top` alone; in
the sample directory the modify `replace_none_modify` is sent down as a replace
of `objectClass` by `top`, while the delete without values next to it,
`delete_none_modify`, is refused with `LDB_ERR_OBJECT_CLASS_MODS_PROHIBITED`. -/
theorem objectclass_modify_replace_none_forwarded :
    (∀ (schema : dsdb_schema) (fuel : Nat),
      objectclass_sort schema (fuel + 1) [] =
        .ret (.ok [⟨dsdb_class_by_lDAPDisplayName schema "top"⟩])) ∧
    objectclass_modify directory_ldb replace_none_modify 10 =
      .ret (.next_request
        { replace_none_modify with
          message :=
            { dn := admins_dn,
              elements := [⟨LDB_FLAG_MOD_REPLACE, "objectClass", ["top"]⟩] } }
        .oc_op_callback) ∧
    objectclass_modify directory_ldb delete_none_modify 10 =
      .ret (.done LDB_ERR_OBJECT_CLASS_MODS_PROHIBITED) := by
  refine ⟨?_, by decide, by decide⟩
  intro schema fuel
  cases fuel <;> rfl

/-- C20 (counterexample): the modify `delete_person_modify` deletes one value
of `objectClass`.  It is sent down with `oc_modify_callback`, and when the
reply `LDB_REPLY_DONE` with `LDB_SUCCESS` comes back that callback does not hand
it to the caller: it sends down a search of the entry for `objectClass`, to
resume with `objectclass_do_mod`. -/
theorem objectclass_modify_delete_some_looks_up :
    objectclass_modify directory_ldb delete_person_modify 10 =
      .ret (.next_request
        { delete_person_modify with
          message :=
            { dn := admins_dn,
              elements := [⟨LDB_FLAG_MOD_DELETE, "objectClass", ["organizationalPerson"]⟩] } }
        .oc_modify_callback) ∧
    oc_modify_callback ⟨delete_person_modify, none⟩
        (some ⟨LDB_SUCCESS, .LDB_REPLY_DONE, none, [], none⟩) =
      .go_on (.search admins_dn ["objectClass"] [] .objectclass_do_mod) := by
  refine ⟨by decide, by decide⟩

/-- C20 (amended): for every modify with a schema present and a DN that is not
special, whose `objectClass` element is a delete of a set of values that is not
empty: the module validates the attribute names; when the validation fails it
returns the error and sends nothing down; otherwise it sends the modification
down, its elements the ones supplied up to the case of the letters of their
names, with `oc_modify_callback`.  That callback hands a failure of the
modification to the caller as the final reply, and after the reply
`LDB_REPLY_DONE` with `LDB_SUCCESS` it sends down a search of the entry for its
`objectClass`, to resume with `objectclass_do_mod`. -/
theorem objectclass_modify_delete_some (ldb : ldb_context) (schema : dsdb_schema)
    (hschema : ldb.schema = some schema) (req : ldb_request) (fuel : Nat)
    (hdn : ldb_dn_is_special req.message.dn = false)
    (p : Nat) (el : ldb_message_element)
    (hel : ldb_msg_find_element req.message "objectClass" = some (p, el))
    (hdel : el.flags &&& LDB_FLAG_MOD_MASK = LDB_FLAG_MOD_DELETE)
    (hvals : el.values ≠ []) :
    ((fix_check_attributes schema req.message req.operation).1 ≠ LDB_SUCCESS →
      objectclass_modify ldb req fuel =
        .ret (.done (fix_check_attributes schema req.message req.operation).1)) ∧
    ((fix_check_attributes schema req.message req.operation).1 = LDB_SUCCESS →
      objectclass_modify ldb req fuel =
        .ret (.next_request
          { req with operation := LDB_MODIFY,
                     message := (fix_check_attributes schema req.message req.operation).2 }
          .oc_modify_callback)) ∧
    (fix_check_attributes schema req.message req.operation).2.dn = req.message.dn ∧
    List.Forall₂ same_element req.message.elements
      (fix_check_attributes schema req.message req.operation).2.elements ∧
    (∀ ares : ldb_ares, ares.error ≠ LDB_SUCCESS →
      oc_modify_callback ⟨req, none⟩ (some ares) =
        .module_done ares.controls ares.response ares.error) ∧
    (∀ ares : ldb_ares, ares.error = LDB_SUCCESS → ares.type = .LDB_REPLY_DONE →
      oc_modify_callback ⟨req, none⟩ (some ares) =
        .go_on (.search req.message.dn ["objectClass"] [] .objectclass_do_mod)) := by
  have hne : ¬ req.message.elements.length = 0 := by
    intro h0
    have hnil : req.message.elements = [] := List.eq_nil_of_length_eq_zero h0
    unfold ldb_msg_find_element at hel
    rw [hnil] at hel
    simp [find_element_from] at hel
  have hlen : ¬ el.values.length = 0 := by
    intro h0
    exact hvals (List.eq_nil_of_length_eq_zero h0)
  have hrun : objectclass_modify ldb req fuel = .ret (modify_other schema req) := by
    unfold objectclass_modify
    simp only [hdn, Bool.false_eq_true, if_false, hschema, hne, hel, hdel, if_true, hlen]
  refine ⟨?_, ?_, rfl, fix_check_elements_same schema _ _, ?_, ?_⟩
  · intro hf
    rw [hrun, modify_other]
    simp only [hf, ne_eq, not_false_eq_true, if_true]
  · intro hf
    rw [hrun, modify_other]
    simp only [hf, ne_eq, not_true_eq_false, if_false]
  · intro ares he
    simp only [oc_modify_callback, he, ne_eq, not_false_eq_true, if_true]
  · intro ares he ht
    simp only [oc_modify_callback, he, ht, ne_eq, not_true_eq_false, if_false]

/-- C20 (amended) at work: the modify `delete_person_modify` in the sample
directory. -/
theorem objectclass_modify_delete_some_witness :
    (fix_check_attributes directory_schema delete_person_modify.message LDB_MODIFY).1 =
      LDB_SUCCESS ∧
    objectclass_modify directory_ldb delete_person_modify 10 =
      .ret (.next_request
        { delete_person_modify with
          operation := LDB_MODIFY,
          message := (fix_check_attributes directory_schema delete_person_modify.message
            delete_person_modify.operation).2 }
        .oc_modify_callback) :=
  ⟨by decide,
    (objectclass_modify_delete_some directory_ldb directory_schema rfl delete_person_modify 10
      (by decide) 0 ⟨LDB_FLAG_MOD_DELETE, "OBJECTCLASS", ["organizationalPerson"]⟩ (by decide)
      (by decide) (by decide)).2.1 (by decide)⟩

/-! ## Control entries -/

/-- C25: an add or a modify whose DN is special, and a rename whose new DN is
special, is passed on as it came, with the callback of the original request:
the entry point takes no other action, for every message, schema and context,
so no check is made. -/
theorem objectclass_special_dn_passed_on (ldb : ldb_context) (req : ldb_request) (fuel : Nat) :
    (ldb_dn_is_special req.message.dn = true →
      objectclass_add ldb req fuel = .ret (.next_request req .original) ∧
      objectclass_modify ldb req fuel = .ret (.next_request req .original)) ∧
    (ldb_dn_is_special req.newdn = true →
      objectclass_rename req = .next_request req .original) := by
  refine ⟨?_, ?_⟩
  · intro h
    constructor
    · unfold objectclass_add
      rw [if_pos h]
    · unfold objectclass_modify
      rw [if_pos h]
  · intro h
    unfold objectclass_rename
    rw [if_pos h]

/-- C25 at work: an add without `objectClass`, a modify without elements and a
modify that deletes every `objectClass` value, all of a control entry, and a
rename to the name of a control entry, are passed on; the same add and
modifies of an ordinary entry are refused. -/
theorem objectclass_special_dn_passed_on_witness :
    objectclass_add directory_ldb special_add 10 = .ret (.next_request special_add .original) ∧
    objectclass_modify directory_ldb special_empty_modify 10 =
      .ret (.next_request special_empty_modify .original) ∧
    objectclass_modify directory_ldb special_delete_modify 10 =
      .ret (.next_request special_delete_modify .original) ∧
    objectclass_rename special_rename = .next_request special_rename .original ∧
    objectclass_add directory_ldb
        { special_add with message := { special_add.message with dn := admins_dn } } 10 =
      .ret (.done LDB_ERR_OBJECT_CLASS_VIOLATION) ∧
    objectclass_modify directory_ldb
        { special_empty_modify with
          message := { special_empty_modify.message with dn := admins_dn } } 10 =
      .ret (.done LDB_ERR_UNWILLING_TO_PERFORM) ∧
    objectclass_modify directory_ldb
        { special_delete_modify with
          message := { special_delete_modify.message with dn := admins_dn } } 10 =
      .ret (.done LDB_ERR_OBJECT_CLASS_MODS_PROHIBITED) :=
  ⟨((objectclass_special_dn_passed_on directory_ldb special_add 10).1 rfl).1,
    ((objectclass_special_dn_passed_on directory_ldb special_empty_modify 10).1 rfl).2,
    ((objectclass_special_dn_passed_on directory_ldb special_delete_modify 10).1 rfl).2,
    (objectclass_special_dn_passed_on directory_ldb special_rename 10).2 rfl,
    by decide, by decide, by decide⟩

/-! ## Renames -/

theorem ldb_dn_compare_base_eq_zero (base dn : ldb_dn) :
    ldb_dn_compare_base base dn = 0 ↔ ∃ front, dn_key dn = front ++ dn_key base := by
  unfold ldb_dn_compare_base
  split
  · rename_i h
    simp only [true_iff]
    obtain ⟨t, ht⟩ := h
    exact ⟨t, ht.symm⟩
  · rename_i h
    simp only [one_ne_zero, false_iff]
    rintro ⟨t, ht⟩
    exact h ⟨t, ht.symm⟩

theorem ldb_dn_compare_eq_zero (a b : ldb_dn) :
    ldb_dn_compare (some a) (some b) = 0 ↔ dn_key a = dn_key b := by
  unfold ldb_dn_compare dn_key
  simp only
  split
  · rename_i h
    simp only [true_iff]
    exact h
  · rename_i h
    simp only [one_ne_zero, false_iff]
    exact h

/-- C22: a rename whose new DN is not special is refused by `objectclass_rename`
with `LDB_ERR_UNWILLING_TO_PERFORM` if and only if the old DN is a base of the
new DN (`ldb_dn_compare_base`: the components of the old DN are the trailing
components of the new one) and the two are not the same name
(`ldb_dn_compare`); the names are compared without regard to case.  The
refusal is the return value of the entry point: no search and no request are
sent down.  In particular a rename to the same name is not refused. -/
theorem objectclass_rename_below_itself (req : ldb_request)
    (hsp : ldb_dn_is_special req.newdn = false) :
    (objectclass_rename req = .done LDB_ERR_UNWILLING_TO_PERFORM ↔
      (ldb_dn_compare_base req.olddn req.newdn = 0 ∧
        ldb_dn_compare (some req.olddn) (some req.newdn) ≠ 0)) ∧
    ((ldb_dn_compare_base req.olddn req.newdn = 0 ∧
        ldb_dn_compare (some req.olddn) (some req.newdn) ≠ 0) ↔
      ∃ front, front ≠ [] ∧ dn_key req.newdn = front ++ dn_key req.olddn) ∧
    (dn_key req.newdn = dn_key req.olddn →
      objectclass_rename req =
        match ldb_dn_get_parent req.newdn with
        | none => .done LDB_ERR_OPERATIONS_ERROR
        | some parent_dn =>
          .search parent_dn [] [LDB_CONTROL_SHOW_DELETED_OID] .objectclass_do_rename) := by
  have hwords : (ldb_dn_compare_base req.olddn req.newdn = 0 ∧
        ldb_dn_compare (some req.olddn) (some req.newdn) ≠ 0) ↔
      ∃ front, front ≠ [] ∧ dn_key req.newdn = front ++ dn_key req.olddn := by
    rw [ldb_dn_compare_base_eq_zero, Ne, ldb_dn_compare_eq_zero]
    constructor
    · rintro ⟨⟨front, hf⟩, hne⟩
      refine ⟨front, ?_, hf⟩
      intro h0
      rw [h0, List.nil_append] at hf
      exact hne hf.symm
    · rintro ⟨front, hne, hf⟩
      refine ⟨⟨front, hf⟩, ?_⟩
      intro heq
      rw [heq] at hf
      have hlen := congrArg List.length hf
      rw [List.length_append] at hlen
      exact hne (List.eq_nil_of_length_eq_zero (by omega))
  refine ⟨?_, hwords, ?_⟩
  · unfold objectclass_rename
    rw [hsp]
    simp only [Bool.false_eq_true, if_false]
    constructor
    · intro h
      by_contra hc
      rw [if_neg hc] at h
      cases hp : ldb_dn_get_parent req.newdn with
      | none => rw [hp] at h; cases h
      | some parent_dn => rw [hp] at h; cases h
    · intro h
      rw [if_pos h]
  · intro heq
    have hnot : ¬ (ldb_dn_compare_base req.olddn req.newdn = 0 ∧
        ldb_dn_compare (some req.olddn) (some req.newdn) ≠ 0) := by
      rintro ⟨-, hne⟩
      exact hne ((ldb_dn_compare_eq_zero _ _).2 heq.symm)
    unfold objectclass_rename
    rw [hsp]
    simp only [Bool.false_eq_true, if_false, if_neg hnot]

/-- C22 at work: the rename of `cn=Admins,cn=Users,…` to a name below itself is
refused; the rename to its own name in another spelling and the rename to a
name next to it go on to the search for the new parent. -/
theorem objectclass_rename_below_itself_witness :
    objectclass_rename (rename_request admins_dn below_admins_dn) =
      .done LDB_ERR_UNWILLING_TO_PERFORM ∧
    objectclass_rename (rename_request admins_dn
        ⟨false, [⟨"CN", "admins"⟩, ⟨"CN", "users"⟩, ⟨"DC", "example"⟩, ⟨"DC", "com"⟩]⟩) =
      .search ⟨false, [⟨"CN", "users"⟩, ⟨"DC", "example"⟩, ⟨"DC", "com"⟩]⟩ []
        [LDB_CONTROL_SHOW_DELETED_OID] .objectclass_do_rename ∧
    objectclass_rename (rename_request admins_dn operators_dn) =
      .search ⟨false, [⟨"cn", "Users"⟩, ⟨"dc", "EXAMPLE"⟩, ⟨"dc", "com"⟩]⟩ []
        [LDB_CONTROL_SHOW_DELETED_OID] .objectclass_do_rename :=
  ⟨(objectclass_rename_below_itself (rename_request admins_dn below_admins_dn) rfl).1.2
      ⟨by decide, by decide⟩,
    by decide, by decide⟩

/-- C23: when `objectclass_do_rename` runs without a result of the lookup of
the new parent it returns `LDB_ERR_UNWILLING_TO_PERFORM` and sends nothing
down.  With the parent entry found, and a new DN that has a leading component
(`objectclass_rename` looks the parent up only for such a DN), it sends down a
rename of the old DN as requested to the DN `fix_dn` makes of the requested one
and the DN of the parent: the components of the parent behind the leading
component of the requested DN, its attribute name in upper case. -/
theorem objectclass_do_rename_fixed (ac : oc_context) :
    (ac.search_res = none →
      objectclass_do_rename ac = .ret (.done LDB_ERR_UNWILLING_TO_PERFORM)) ∧
    (∀ (parent : ldb_message) (rdn : ldb_dn_component),
      ac.search_res = some ⟨some parent⟩ → ac.req.newdn.components.head? = some rdn →
      fix_dn ac.req.newdn parent.dn = .ret (LDB_SUCCESS,
        { parent.dn with
          components := ⟨strupper_talloc rdn.name, rdn.value⟩ :: parent.dn.components }) ∧
      objectclass_do_rename ac = .ret (.next_request
        { ac.req with
          operation := LDB_RENAME,
          olddn := ac.req.olddn,
          newdn := { parent.dn with
            components :=
              ⟨strupper_talloc rdn.name, rdn.value⟩ :: parent.dn.components } })) ∧
    (∀ (base : ldb_dn) (attrs controls : List String) (step_fn : oc_step_fn),
      objectclass_rename ac.req = .search base attrs controls step_fn →
      step_fn = .objectclass_do_rename ∧ ∃ rdn, ac.req.newdn.components.head? = some rdn) := by
  refine ⟨?_, ?_, ?_⟩
  · intro h
    unfold objectclass_do_rename
    rw [h]
  · intro parent rdn hres hrdn
    have hfix : fix_dn ac.req.newdn parent.dn = .ret (LDB_SUCCESS,
        { parent.dn with
          components := ⟨strupper_talloc rdn.name, rdn.value⟩ :: parent.dn.components }) := by
      simp [fix_dn, ldb_dn_get_rdn_name, ldb_dn_get_rdn_val, ldb_dn_copy, ldb_dn_add_child_fmt,
        ldb_dn_set_component, hrdn]
    refine ⟨hfix, ?_⟩
    unfold objectclass_do_rename
    rw [hres]
    simp only [hfix, ne_eq, not_true_eq_false, if_false]
  · intro base attrs controls step_fn h
    unfold objectclass_rename at h
    split at h
    · cases h
    · split at h
      · cases h
      · cases hc : ac.req.newdn.components with
        | nil =>
          simp only [ldb_dn_get_parent, hc] at h
          cases h
        | cons rdn rest =>
          simp only [ldb_dn_get_parent, hc] at h
          cases h
          exact ⟨rfl, rdn, rfl⟩

/-- C23 at work: the rename of `cn=Admins,…` to `cn=Operators,cn=Users,
dc=EXAMPLE,dc=com`, the parent having been found as `CN=Users,DC=example,
DC=com`, is sent down as a rename to `CN=Operators,CN=Users,DC=example,
DC=com`; without the parent it is refused. -/
theorem objectclass_do_rename_fixed_witness :
    objectclass_do_rename ⟨rename_request admins_dn operators_dn, none⟩ =
      .ret (.done LDB_ERR_UNWILLING_TO_PERFORM) ∧
    objectclass_do_rename
        ⟨rename_request admins_dn operators_dn, some ⟨some ⟨users_dn, []⟩⟩⟩ =
      .ret (.next_request (rename_request admins_dn
        ⟨false, [⟨"CN", "Operators"⟩, ⟨"CN", "Users"⟩, ⟨"DC", "example"⟩, ⟨"DC", "com"⟩]⟩)) :=
  ⟨(objectclass_do_rename_fixed ⟨rename_request admins_dn operators_dn, none⟩).1 rfl,
    ((objectclass_do_rename_fixed
      ⟨rename_request admins_dn operators_dn, some ⟨some ⟨users_dn, []⟩⟩⟩).2.1
      ⟨users_dn, []⟩ ⟨"cn", "Operators"⟩ rfl rfl).2⟩

/-! ## The replace of `objectClass` -/

theorem filter_same_not :
    ∀ l l' : List ldb_message_element, List.Forall₂ same_element l l' →
      List.Forall₂ same_element (l.filter not_objectClass) (l'.filter not_objectClass) := by
  intro l l' h
  induction h with
  | nil => exact List.Forall₂.nil
  | cons hab _ ih =>
    have hp : ∀ {a b : ldb_message_element}, same_element a b →
        not_objectClass b = not_objectClass a := by
      intro a b hab
      unfold not_objectClass
      rw [same_element_named hab]
    rw [List.filter_cons, List.filter_cons, hp hab]
    split
    · exact List.Forall₂.cons hab ih
    · exact ih

theorem is_named_objectClass_name (flags : Nat) (vals : List String) :
    not_objectClass ⟨flags, "objectClass", vals⟩ = false := by
  unfold not_objectClass
  rw [is_named_objectClass]
  rfl

/-- Adding the sorted classes to a message whose only `objectClass` element is
its last one appends the class names to that element, in order, whatever the
flags of the element. -/
theorem add_sorted_classes_flags (flags : Nat) :
    ∀ (sorted : List class_list) (msg msg' : ldb_message) (E : List ldb_message_element)
      (vals : List String),
      msg.elements = E ++ [⟨flags, "objectClass", vals⟩] →
      (∀ x ∈ E, is_named "objectClass" x = false) →
      add_sorted_classes sorted msg = .ret msg' →
      ∃ classes : List dsdb_class, sorted.map (·.objectclass) = classes.map some ∧
        msg'.elements = E ++ [⟨flags, "objectClass", vals ++ classes.map (·.lDAPDisplayName)⟩] ∧
        msg'.dn = msg.dn := by
  intro sorted
  induction sorted with
  | nil =>
    intro msg msg' E vals hm _ h
    simp only [add_sorted_classes] at h
    cases h
    exact ⟨[], rfl, by simpa using hm, rfl⟩
  | cons current rest ih =>
    intro msg msg' E vals hm hE h
    unfold add_sorted_classes at h
    cases hc : current.objectclass with
    | none => rw [hc] at h; cases h
    | some c =>
      rw [hc] at h
      simp only at h
      have hfind : ldb_msg_find_element msg "objectClass" =
          some (0 + E.length, ⟨flags, "objectClass", vals⟩) := by
        unfold ldb_msg_find_element
        rw [hm]
        exact find_element_from_split "objectClass" _ (is_named_objectClass flags vals) E [] 0 hE
      have hadd : (ldb_msg_add_string msg "objectClass" c.lDAPDisplayName).elements =
          E ++ [⟨flags, "objectClass", vals ++ [c.lDAPDisplayName]⟩] := by
        unfold ldb_msg_add_string
        rw [hfind]
        simp only [hm]
        simp
      obtain ⟨classes, h1, h2, h3⟩ := ih _ msg' E _ hadd hE h
      refine ⟨c :: classes, by simp [hc, h1], by simp [h2], ?_⟩
      rw [h3]
      unfold ldb_msg_add_string
      rw [hfind]

/-- The rebuild of the `objectClass` element of a message that has exactly one:
the element is taken out, and a new one, with the flags given and the names of
the sorted classes, is put at the end; the other elements stay as they are. -/
theorem rebuild_elements (msg msg' : ldb_message) (sorted : List class_list) (flags : Nat)
    (p : Nat) (el : ldb_message_element)
    (hf : ldb_msg_find_element msg "objectClass" = some (p, el))
    (huniq : (msg.elements.filter (is_named "objectClass")).length ≤ 1)
    (ha : add_sorted_classes sorted
      (ldb_msg_add_empty (ldb_msg_remove_attr msg "objectClass") "objectClass" flags)
        = .ret msg') :
    ∃ classes : List dsdb_class, sorted.map (·.objectclass) = classes.map some ∧
      msg'.elements.filter (is_named "objectClass") =
        [⟨flags, "objectClass", classes.map (·.lDAPDisplayName)⟩] ∧
      msg'.elements.filter not_objectClass = msg.elements.filter not_objectClass ∧
      msg'.dn = msg.dn := by
  have hf' := hf
  unfold ldb_msg_find_element at hf'
  obtain ⟨before, after, hl, hp, hn, hb⟩ := find_element_from_some _ _ 0 p el hf'
  have hbn : before.filter (is_named "objectClass") = [] := by
    rw [List.filter_eq_nil_iff]
    intro x hx
    simp [hb x hx]
  have han : after.filter (is_named "objectClass") = [] := by
    rw [hl, List.filter_append, hbn, List.filter_cons, if_pos hn] at huniq
    simp only [List.nil_append, List.length_cons] at huniq
    exact List.eq_nil_of_length_eq_zero (by omega)
  have hrem : (ldb_msg_remove_attr msg "objectClass").elements = before ++ after := by
    unfold ldb_msg_remove_attr
    rw [hf]
    simp only [ldb_msg_remove_element, hl, hp]
    simp [List.eraseIdx_append_of_length_le]
  have hE : ∀ x ∈ before ++ after, is_named "objectClass" x = false := by
    intro x hx
    rcases List.mem_append.1 hx with hx | hx
    · exact hb x hx
    · cases hx2 : is_named "objectClass" x with
      | false => rfl
      | true =>
        have : x ∈ after.filter (is_named "objectClass") := List.mem_filter.2 ⟨hx, hx2⟩
        rw [han] at this
        cases this
  obtain ⟨classes, h1, h2, h3⟩ := add_sorted_classes_flags flags sorted _ msg' (before ++ after)
    [] (by simp [ldb_msg_add_empty, hrem]) hE ha
  have hEn : (before ++ after).filter (is_named "objectClass") = [] := by
    rw [List.filter_eq_nil_iff]
    intro x hx
    simp [hE x hx]
  have hEk : (before ++ after).filter not_objectClass = before ++ after := by
    rw [List.filter_eq_self]
    intro x hx
    simp [not_objectClass, hE x hx]
  have hel : not_objectClass el = false := by
    simp [not_objectClass, hn]
  refine ⟨classes, h1, ?_, ?_, ?_⟩
  · rw [h2, List.filter_append, hEn]
    simp [List.filter_cons, is_named_objectClass]
  · rw [h2, List.filter_append, hEk, hl]
    simp only [List.filter_cons, is_named_objectClass_name, Bool.false_eq_true, if_false,
      List.filter_nil, List.append_nil, List.filter_append, hel]
    rw [← List.filter_append, hEk]
  · rw [h3]
    unfold ldb_msg_add_empty ldb_msg_remove_attr
    rw [hf]
    rfl

/-- A chain the sorter returns starts with the class `top`. -/
theorem objectclass_sort_head (schema : dsdb_schema) (fuel : Nat) (values : List String)
    (sorted : List class_list) (classes : List dsdb_class)
    (h : objectclass_sort schema fuel values = .ret (.ok sorted))
    (hc : sorted.map (·.objectclass) = classes.map some) :
    ∃ top rest, classes = top :: rest ∧
      dsdb_class_by_lDAPDisplayName schema "top" = some top ∧
      strlower top.lDAPDisplayName = strlower "top" := by
  obtain ⟨-, final, -, -, -, hchain⟩ := objectclass_sort_on_ok _ fuel values sorted h
  rw [hchain] at hc
  cases classes with
  | nil => simp at hc
  | cons top rest =>
    simp only [List.map_cons, List.cons.injEq] at hc
    exact ⟨top, rest, rfl, hc.1, (class_by_name_some hc.1).2⟩

/-- C21 as stated fails: the modify `replace_and_add_modify` carries two
`objectClass` elements, a replace by `organizationalPerson` and an add of
`person`.  The element found is the replace, validation and sorting pass, and
the modification sent down has two `objectClass` elements: the add of the
client, now holding `person` and the names of the chain, and an empty
replace. -/
theorem objectclass_modify_replace_and_add :
    ldb_msg_find_element replace_and_add_modify.message "objectClass" =
      some (0, ⟨LDB_FLAG_MOD_REPLACE, "objectClass", ["organizationalPerson"]⟩) ∧
    fix_check_attributes directory_schema replace_and_add_modify.message LDB_MODIFY =
      (LDB_SUCCESS, replace_and_add_modify.message) ∧
    objectclass_sort directory_schema 10 ["organizationalPerson"] =
      .ret (.ok [node { plain_class "top" "top" 0 with objectClassCategory := 2 },
        node (plain_class "person" "top" 1),
        node (plain_class "organizationalPerson" "person" 2)]) ∧
    objectclass_modify directory_ldb replace_and_add_modify 10 =
      .ret (.next_request replace_and_add_modify_forwarded .oc_op_callback) ∧
    replace_and_add_modify_forwarded.message.elements.filter (is_named "objectClass") =
      [⟨LDB_FLAG_MOD_ADD, "objectClass", ["person", "top", "person", "organizationalPerson"]⟩,
        ⟨LDB_FLAG_MOD_REPLACE, "objectClass", []⟩] := by
  refine ⟨?_, ?_, ?_, ?_, ?_⟩ <;> decide

/-- C21 (amended): for every modify with a schema present and a DN that is not
special, whose message has one `objectClass` element and no second one, a
replace, and that is sent down:
the values of the element sort into a chain, which starts with `top`; the
modification sent down has one `objectClass` element, with the flag
`LDB_FLAG_MOD_REPLACE`, whose values are the names of the classes of the chain,
in chain order; the other elements are the ones supplied, in their order, with
their values and flags (up to the case of the letters of their names); the DN
is the one supplied; and the request goes down with `oc_op_callback`, so that
the operation makes no search and ends with the reply to that one request. -/
theorem objectclass_modify_replace_sorted (ldb : ldb_context) (schema : dsdb_schema)
    (hschema : ldb.schema = some schema) (req : ldb_request) (fuel : Nat)
    (req' : ldb_request) (callback : oc_callback)
    (hdn : ldb_dn_is_special req.message.dn = false)
    (p : Nat) (el : ldb_message_element)
    (hel : ldb_msg_find_element req.message "objectClass" = some (p, el))
    (hrep : el.flags &&& LDB_FLAG_MOD_MASK = LDB_FLAG_MOD_REPLACE)
    (huniq : (req.message.elements.filter (is_named "objectClass")).length ≤ 1)
    (h : objectclass_modify ldb req fuel = .ret (.next_request req' callback)) :
    callback = .oc_op_callback ∧
    (∃ sorted classes, objectclass_sort schema fuel el.values = .ret (.ok sorted) ∧
      sorted.map (·.objectclass) = classes.map some ∧
      (∃ top rest, classes = top :: rest ∧ strlower top.lDAPDisplayName = strlower "top") ∧
      req'.message.elements.filter (is_named "objectClass") =
        [⟨LDB_FLAG_MOD_REPLACE, "objectClass", classes.map (·.lDAPDisplayName)⟩]) ∧
    List.Forall₂ same_element (req.message.elements.filter not_objectClass)
      (req'.message.elements.filter not_objectClass) ∧
    req'.message.dn = req.message.dn ∧
    (∀ env : downstream, ∃ error,
      run_modify ldb env req fuel = .ret ⟨[], [req'], some error⟩) := by
  have hne : ¬ req.message.elements.length = 0 := by
    intro h0
    have hnil : req.message.elements = [] := List.eq_nil_of_length_eq_zero h0
    unfold ldb_msg_find_element at hel
    rw [hnil] at hel
    simp [find_element_from] at hel
  have hnd : ¬ LDB_FLAG_MOD_REPLACE = LDB_FLAG_MOD_DELETE := by decide
  have hrun : objectclass_modify ldb req fuel = modify_replace ldb schema req fuel el := by
    unfold objectclass_modify
    simp only [hdn, Bool.false_eq_true, if_false, hschema, hne, hel, hrep, hnd, if_true]
  have h0 := h
  rw [hrun] at h
  unfold modify_replace at h
  cases hfc : fix_check_attributes schema req.message req.operation with
  | mk ret msg1 =>
    rw [hfc] at h
    simp only at h
    by_cases hret : ret = LDB_SUCCESS
    · subst hret
      simp only [ne_eq, not_true_eq_false, if_false] at h
      cases hs : objectclass_sort schema fuel el.values with
      | fault => rw [hs] at h; cases h
      | out_of_fuel => rw [hs] at h; cases h
      | ret r =>
        cases r with
        | error e => rw [hs] at h; cases h
        | ok sorted =>
          rw [hs] at h
          simp only at h
          cases ha : add_sorted_classes sorted
              (ldb_msg_add_empty (ldb_msg_remove_attr msg1 "objectClass") "objectClass"
                LDB_FLAG_MOD_REPLACE) with
          | fault => rw [ha] at h; cases h
          | out_of_fuel => rw [ha] at h; cases h
          | ret msgB =>
            rw [ha] at h
            simp only at h
            split at h
            · cases h
            · simp only [exec.ret.injEq, oc_action.next_request.injEq] at h
              obtain ⟨hreq, hcb⟩ := h
              subst hreq
              have hm1 : msg1.elements =
                  (fix_check_elements schema req.operation req.message.elements).2 := by
                unfold fix_check_attributes at hfc
                simp only [Prod.mk.injEq] at hfc
                rw [← hfc.2]
              have hdn1 : msg1.dn = req.message.dn := by
                unfold fix_check_attributes at hfc
                simp only [Prod.mk.injEq] at hfc
                rw [← hfc.2]
              have hsame : List.Forall₂ same_element req.message.elements msg1.elements := by
                rw [hm1]; exact fix_check_elements_same schema _ _
              have hfsame := filter_same "objectClass" _ _ hsame
              have huniq1 : (msg1.elements.filter (is_named "objectClass")).length ≤ 1 := by
                rw [← hfsame.length_eq]; exact huniq
              have hfind1 : ∃ p1 el1, ldb_msg_find_element msg1 "objectClass" = some (p1, el1) := by
                have hhead := find_element_head req.message "objectClass"
                rw [hel] at hhead
                cases hfl : req.message.elements.filter (is_named "objectClass") with
                | nil => rw [hfl] at hhead; cases hhead
                | cons a rest =>
                  rw [hfl] at hfsame
                  obtain ⟨b, rest', -, -, hb⟩ := List.forall₂_cons_left_iff.1 hfsame
                  obtain ⟨p1, hp1⟩ := find_element_filter msg1 "objectClass" b rest' hb
                  exact ⟨p1, b, hp1⟩
              obtain ⟨p1, el1, hf1⟩ := hfind1
              obtain ⟨classes, hc1, hc2, hc3, hc4⟩ :=
                rebuild_elements msg1 msgB sorted LDB_FLAG_MOD_REPLACE p1 el1 hf1 huniq1 ha
              obtain ⟨top, rest, htop, -, hname⟩ :=
                objectclass_sort_head schema fuel el.values sorted classes hs hc1
              refine ⟨hcb.symm, ⟨sorted, classes, rfl, hc1, ⟨top, rest, htop, hname⟩, hc2⟩, ?_,
                ?_, ?_⟩
              · show List.Forall₂ same_element _ (msgB.elements.filter not_objectClass)
                rw [hc3]
                exact filter_same_not _ _ hsame
              · show msgB.dn = req.message.dn
                rw [hc4, hdn1]
              · intro env
                unfold run_modify run_entry
                rw [h0, ← hcb]
                simp only [run_action, oc_op_callback]
                split
                · rename_i hx
                  split at hx
                  · cases hx; exact ⟨_, rfl⟩
                  · split at hx
                    · cases hx; exact ⟨_, rfl⟩
                    · cases hx; exact ⟨_, rfl⟩
                · rename_i hx
                  split at hx
                  · cases hx
                  · split at hx
                    · cases hx
                    · cases hx
    · simp only [ne_eq, hret, not_false_eq_true, if_true] at h
      cases h

/-- C21 (amended) at work: `replace_modify` replaces the classes by
`organizationalPerson`; the modification sent down replaces them by `top`,
`person`, `organizationalPerson`, and keeps the add of `sn` and the delete of
`cn`. -/
theorem objectclass_modify_replace_sorted_witness :
    objectclass_modify directory_ldb replace_modify 10 =
      .ret (.next_request replace_modify_forwarded .oc_op_callback) ∧
    replace_modify_forwarded.message.elements.filter (is_named "objectClass") =
      [⟨LDB_FLAG_MOD_REPLACE, "objectClass", ["top", "person", "organizationalPerson"]⟩] ∧
    List.Forall₂ same_element (replace_modify.message.elements.filter not_objectClass)
      (replace_modify_forwarded.message.elements.filter not_objectClass) ∧
    run_modify directory_ldb empty_downstream replace_modify 10 =
      .ret ⟨[], [replace_modify_forwarded], some LDB_SUCCESS⟩ :=
  ⟨by decide, by decide,
    (objectclass_modify_replace_sorted directory_ldb directory_schema rfl replace_modify 10
      replace_modify_forwarded .oc_op_callback (by decide) 1
      ⟨LDB_FLAG_MOD_REPLACE, "OBJECTCLASS", ["organizationalPerson"]⟩ (by decide) (by decide)
      (by decide) (by decide)).2.2.1,
    by decide⟩

/-! ## The chain as a stable sort -/

theorem of_rank_orderedInsert (r : Int) (a : dsdb_class) :
    ∀ s : List dsdb_class,
      of_rank r (s.orderedInsert order_le a) = of_rank r (a :: s) := by
  intro s
  induction s with
  | nil => rfl
  | cons b s ih =>
    simp only [List.orderedInsert]
    split
    · rfl
    · rename_i hab
      have hlt : b.subClass_order < a.subClass_order := by
        unfold order_le at hab
        omega
      unfold of_rank at ih ⊢
      rw [List.filter_cons, ih]
      by_cases ha : a.subClass_order = r
      · have hb : ¬ b.subClass_order = r := by omega
        simp [List.filter_cons, ha, hb]
      · simp [List.filter_cons, ha]

theorem of_rank_sort_by_order (r : Int) :
    ∀ l : List dsdb_class, of_rank r (sort_by_order l) = of_rank r l := by
  intro l
  induction l with
  | nil => rfl
  | cons a l ih =>
    unfold sort_by_order at ih ⊢
    rw [List.insertionSort, of_rank_orderedInsert]
    unfold of_rank at ih ⊢
    rw [List.filter_cons, List.filter_cons, ih]

theorem sort_by_order_stable (l : List dsdb_class) : is_stable_sort l (sort_by_order l) :=
  ⟨sort_by_order_sorted l, fun r => of_rank_sort_by_order r l⟩

/-- A working list has one stable sort. -/
theorem is_stable_sort_unique :
    ∀ (s₁ s₂ : List dsdb_class), s₁.Sorted order_le → s₂.Sorted order_le →
      (∀ r : Int, of_rank r s₁ = of_rank r s₂) → s₁ = s₂ := by
  intro s₁
  induction s₁ with
  | nil =>
    intro s₂ _ _ h
    cases s₂ with
    | nil => rfl
    | cons b t =>
      have := h b.subClass_order
      simp [of_rank, List.filter_cons] at this
  | cons a t₁ ih =>
    intro s₂ h₁ h₂ h
    cases s₂ with
    | nil =>
      have := h a.subClass_order
      simp [of_rank, List.filter_cons] at this
    | cons b t₂ =>
      have ha : a ∈ b :: t₂ := by
        have hm : a ∈ of_rank a.subClass_order (a :: t₁) := by
          simp [of_rank, List.filter_cons]
        rw [h a.subClass_order] at hm
        exact (List.mem_filter.1 hm).1
      have hb : b ∈ a :: t₁ := by
        have hm : b ∈ of_rank b.subClass_order (b :: t₂) := by
          simp [of_rank, List.filter_cons]
        rw [← h b.subClass_order] at hm
        exact (List.mem_filter.1 hm).1
      have hab : a.subClass_order ≤ b.subClass_order := by
        rcases List.mem_cons.1 hb with hb | hb
        · rw [hb]
        · exact List.rel_of_sorted_cons h₁ b hb
      have hba : b.subClass_order ≤ a.subClass_order := by
        rcases List.mem_cons.1 ha with ha | ha
        · rw [ha]
        · exact List.rel_of_sorted_cons h₂ a ha
      have hrank : b.subClass_order = a.subClass_order := by omega
      have hhead := h a.subClass_order
      simp only [of_rank, List.filter_cons, hrank, decide_True, if_true, List.cons.injEq]
        at hhead
      obtain ⟨hab2, -⟩ := hhead
      subst hab2
      have htail : ∀ r : Int, of_rank r t₁ = of_rank r t₂ := by
        intro r
        have hr := h r
        simp only [of_rank, List.filter_cons] at hr ⊢
        split at hr
        · exact (List.cons.injEq _ _ _ _ ▸ hr).2
        · exact hr
      rw [ih t₂ (List.Sorted.of_cons h₁) (List.Sorted.of_cons h₂) htail]

/-- C26: with a schema present, whenever `objectclass_sort` succeeds, the
parent-chain pass ended with a working list: the classes other than `top` that
the values name, in input order, followed by the parents it looked up, each
the parent of a record of the list.  The chain is `top` followed by the stable
sort of the working list by `subClass_order`: the ranks do not decrease along
it and the records of equal rank keep the order of the working list; and it is
the only list of which that holds. -/
theorem objectclass_sort_stable (schema : dsdb_schema) (fuel : Nat) (values : List String)
    (chain : List class_list)
    (h : objectclass_sort schema fuel values = .ret (.ok chain)) :
    ∃ added tail,
      find_parent_chain true (dsdb_class_by_lDAPDisplayName schema) fuel
        (named_classes (dsdb_class_by_lDAPDisplayName schema) values) 0 =
          .ret (named_classes (dsdb_class_by_lDAPDisplayName schema) values ++ added) ∧
      (∀ a ∈ added, ∃ e ∈ named_classes (dsdb_class_by_lDAPDisplayName schema) values ++ added,
        dsdb_class_by_lDAPDisplayName schema e.subClassOf = some a) ∧
      chain = ⟨dsdb_class_by_lDAPDisplayName schema "top"⟩ :: tail.map node ∧
      is_stable_sort (named_classes (dsdb_class_by_lDAPDisplayName schema) values ++ added)
        tail ∧
      tail = sort_by_order
        (named_classes (dsdb_class_by_lDAPDisplayName schema) values ++ added) ∧
      ∀ s, is_stable_sort
        (named_classes (dsdb_class_by_lDAPDisplayName schema) values ++ added) s → s = tail := by
  obtain ⟨-, final, hfinal, -, -, hchain⟩ := objectclass_sort_on_ok _ fuel values chain h
  obtain ⟨added, hadd, -, -, -, -, -, hparents⟩ :=
    find_parent_chain_ret _ (lookup_ok_schema schema) fuel _ 0 final (Nat.zero_le _) hfinal
  subst hadd
  refine ⟨added, sort_by_order _, hfinal, hparents, hchain, sort_by_order_stable _, rfl, ?_⟩
  intro s hs
  exact is_stable_sort_unique s _ hs.1 (sort_by_order_sorted _)
    (fun r => (hs.2 r).trans (of_rank_sort_by_order r _).symm)

/-- C26 at work: for the values `organizationalPerson` and `securityPrincipal`
the parent `person` is looked up and put at the end of the working list;
`securityPrincipal` and `person` have the same rank, and the chain keeps
`securityPrincipal` before `person`, as the working list has them. -/
theorem objectclass_sort_stable_witness :
    objectclass_sort sample_schema 5 ["organizationalPerson", "securityPrincipal"] =
      .ret (.ok [⟨some (plain_class "top" "top" 0)⟩,
        ⟨some (plain_class "securityPrincipal" "top" 1)⟩,
        ⟨some (plain_class "person" "top" 1)⟩,
        ⟨some (plain_class "organizationalPerson" "person" 2)⟩]) ∧
    ∃ added tail,
      find_parent_chain true (dsdb_class_by_lDAPDisplayName sample_schema) 5
        (named_classes (dsdb_class_by_lDAPDisplayName sample_schema)
          ["organizationalPerson", "securityPrincipal"]) 0 =
          .ret (named_classes (dsdb_class_by_lDAPDisplayName sample_schema)
            ["organizationalPerson", "securityPrincipal"] ++ added) ∧
      (∀ a ∈ added, ∃ e ∈ named_classes (dsdb_class_by_lDAPDisplayName sample_schema)
          ["organizationalPerson", "securityPrincipal"] ++ added,
        dsdb_class_by_lDAPDisplayName sample_schema e.subClassOf = some a) ∧
      [⟨some (plain_class "top" "top" 0)⟩,
        ⟨some (plain_class "securityPrincipal" "top" 1)⟩,
        ⟨some (plain_class "person" "top" 1)⟩,
        ⟨some (plain_class "organizationalPerson" "person" 2)⟩] =
        ⟨dsdb_class_by_lDAPDisplayName sample_schema "top"⟩ :: tail.map node ∧
      is_stable_sort (named_classes (dsdb_class_by_lDAPDisplayName sample_schema)
        ["organizationalPerson", "securityPrincipal"] ++ added) tail ∧
      tail = sort_by_order (named_classes (dsdb_class_by_lDAPDisplayName sample_schema)
        ["organizationalPerson", "securityPrincipal"] ++ added) ∧
      ∀ s, is_stable_sort (named_classes (dsdb_class_by_lDAPDisplayName sample_schema)
        ["organizationalPerson", "securityPrincipal"] ++ added) s → s = tail :=
  ⟨by decide,
    objectclass_sort_stable sample_schema 5
      ["organizationalPerson", "securityPrincipal"] _ (by decide)⟩

/-! ## The order of the checks of an add -/

/-- C27: with a schema present the add transform makes its checks in this
order, and returns the error of the first that fails, whatever the later ones
would find: the check for a parent and the normalisation of the DN
(`check_parent`: `LDB_ERR_NO_SUCH_OBJECT` without a parent for an entry that is
not the root, the error of `fix_dn` otherwise), the validation of the attribute
names, the sorting of the classes, the presence of a structural class, the RDN
attribute, the allowed-child check (all three `LDB_ERR_NAMING_VIOLATION`), and
the system-only gate (`LDB_ERR_UNWILLING_TO_PERFORM`). -/
theorem objectclass_do_add_first_failure (ldb : ldb_context) (schema : dsdb_schema)
    (hschema : ldb.schema = some schema) (ac : oc_context) (fuel : Nat) :
    (ac.search_res = none → ldb_dn_compare ldb.root_basedn (some ac.req.message.dn) ≠ 0 →
      objectclass_do_add ldb ac fuel = .ret (.done LDB_ERR_NO_SUCH_OBJECT)) ∧
    (∀ e, check_parent ldb ac = .ret (.error e) →
      objectclass_do_add ldb ac fuel = .ret (.done e)) ∧
    (∀ msg0, check_parent ldb ac = .ret (.ok msg0) →
      ((fix_check_attributes schema msg0 ac.req.operation).1 ≠ LDB_SUCCESS →
        objectclass_do_add ldb ac fuel =
          .ret (.done (fix_check_attributes schema msg0 ac.req.operation).1)) ∧
      ((fix_check_attributes schema msg0 ac.req.operation).1 = LDB_SUCCESS →
        ∀ e, rebuild_objectclass schema fuel
            (fix_check_attributes schema msg0 ac.req.operation).2 = .ret (.error e) →
          objectclass_do_add ldb ac fuel = .ret (.done e))) ∧
    (∀ msg, add_reaches_checks ldb schema ac fuel msg →
      ∀ p el, ldb_msg_find_element msg "objectClass" = some (p, el) →
        (get_last_structural_class schema el = none →
          objectclass_do_add ldb ac fuel = .ret (.done LDB_ERR_NAMING_VIOLATION)) ∧
        (∀ objectclass, get_last_structural_class schema el = some objectclass →
          (rdn_mismatch objectclass (ldb_dn_get_rdn_name msg.dn) = .ret true →
            objectclass_do_add ldb ac fuel = .ret (.done LDB_ERR_NAMING_VIOLATION)) ∧
          (rdn_mismatch objectclass (ldb_dn_get_rdn_name msg.dn) = .ret false →
            (child_not_allowed schema ac objectclass = true →
              objectclass_do_add ldb ac fuel = .ret (.done LDB_ERR_NAMING_VIOLATION)) ∧
            (child_not_allowed schema ac objectclass = false →
              objectclass.systemOnly = true →
              ldb_request_get_control ac.req LDB_CONTROL_RELAX_OID = false →
              objectclass_do_add ldb ac fuel =
                .ret (.done LDB_ERR_UNWILLING_TO_PERFORM))))) := by
  refine ⟨?_, ?_, ?_, ?_⟩
  · intro hres hne
    rw [objectclass_do_add_eq]
    simp only [check_parent, hres, hne, if_false]
  · intro e he
    rw [objectclass_do_add_eq, he]
  · intro msg0 h0
    constructor
    · intro hne
      rw [objectclass_do_add_eq, h0]
      simp only [do_add_transform, hschema, do_add_with_schema]
      cases hfc : fix_check_attributes schema msg0 ac.req.operation with
      | mk ret msg1 =>
        rw [hfc] at hne
        simp only [ne_eq] at hne
        simp only [ne_eq, hne, not_false_eq_true, if_true]
    · intro heq e he
      rw [objectclass_do_add_eq, h0]
      simp only [do_add_transform, hschema, do_add_with_schema]
      cases hfc : fix_check_attributes schema msg0 ac.req.operation with
      | mk ret msg1 =>
        rw [hfc] at heq he
        simp only at heq he
        simp only [heq, ne_eq, not_true_eq_false, if_false, he]
  · intro msg hreach p el hel
    have hrun := objectclass_do_add_reached ldb schema hschema ac fuel msg hreach
    constructor
    · intro hnone
      rw [hrun]
      simp only [check_structural_class, hel, hnone]
    · intro objectclass hoc
      have hcs := check_structural_class_eq schema ac msg p el objectclass hel hoc
      constructor
      · intro hrdn
        rw [hrun, hcs, hrdn]
      · intro hrdn
        have hgate := objectclass_do_add_rdn_passed ldb schema hschema ac fuel msg hreach p el
          objectclass hel hoc hrdn
        constructor
        · intro hc
          rw [hgate, allowed_child_gate, hc]
          simp
        · intro hc hs hr
          rw [hgate, allowed_child_gate, hc, system_only_gate, hs, hr]
          simp

/-- C27 at work: an add of the system-only class `crossRefContainer` with an
attribute the schema does not know fails with `LDB_ERR_NO_SUCH_ATTRIBUTE`, the
error of the attribute validation; the same add, without that attribute, below
a parent that allows no class below it fails with `LDB_ERR_NAMING_VIOLATION`,
the error of the allowed-child check; below a parent that allows it, it fails
with `LDB_ERR_UNWILLING_TO_PERFORM`. -/
theorem objectclass_do_add_first_failure_witness :
    policy_crossRefContainer.systemOnly = true ∧
    (fix_check_attributes policy_schema
      { crossref_bogus_add.req.message with
        dn := ⟨false, [⟨"CN", "Partitions"⟩, ⟨"CN", "Users"⟩, ⟨"DC", "example"⟩,
          ⟨"DC", "com"⟩]⟩ } LDB_ADD).1 = LDB_ERR_NO_SUCH_ATTRIBUTE ∧
    objectclass_do_add policy_ldb crossref_bogus_add 10 =
      .ret (.done LDB_ERR_NO_SUCH_ATTRIBUTE) ∧
    add_reaches_checks policy_ldb policy_schema crossref_under_person_add 10 crossref_rebuilt ∧
    child_not_allowed policy_schema crossref_under_person_add policy_crossRefContainer = true ∧
    ldb_request_get_control crossref_under_person_add.req LDB_CONTROL_RELAX_OID = false ∧
    objectclass_do_add policy_ldb crossref_under_person_add 10 =
      .ret (.done LDB_ERR_NAMING_VIOLATION) ∧
    objectclass_do_add policy_ldb crossref_add 10 = .ret (.done LDB_ERR_UNWILLING_TO_PERFORM) :=
  ⟨rfl, by decide,
    ((objectclass_do_add_first_failure policy_ldb policy_schema rfl crossref_bogus_add 10).2.2.1
      { crossref_bogus_add.req.message with
        dn := ⟨false, [⟨"CN", "Partitions"⟩, ⟨"CN", "Users"⟩, ⟨"DC", "example"⟩,
          ⟨"DC", "com"⟩]⟩ } (by decide)).1 (by decide),
    ⟨_, _, rfl, rfl, rfl⟩, by decide, by decide,
    ((((objectclass_do_add_first_failure policy_ldb policy_schema rfl crossref_under_person_add
      10).2.2.2 crossref_rebuilt ⟨_, _, rfl, rfl, rfl⟩ 0
      ⟨0, "objectClass", ["top", "crossRefContainer"]⟩ (by decide)).2
      policy_crossRefContainer (by decide)).2 (by decide)).1 (by decide),
    by decide⟩

/-! ## The bits of `systemFlags` -/

theorem or_and_right_self (a b : Nat) : (a ||| b) &&& b = b := by
  apply Nat.eq_of_testBit_eq
  intro i
  simp only [Nat.testBit_and, Nat.testBit_or]
  cases a.testBit i <;> cases b.testBit i <;> rfl

theorem and_self_ne_zero {x b : Nat} (h : x &&& b = b) (hb : b ≠ 0) : (x != 0) = true := by
  rw [bne_iff_ne]
  intro hx
  rw [hx, Nat.zero_and] at h
  exact hb h.symm

/-- C28 (not what the code does): the bit `SYSTEM_FLAG_ATTR_IS_RDN` is kept on
an entry that is not an `attributeSchema` and cleared on one that is.  The add
of a `server` with the `systemFlags` value `32`, the bit alone, is sent down
with `systemFlags` `1375731744`, which has the bit; the add of an
`attributeSchema` with the value `32` is sent down with `systemFlags` `0`. -/
theorem objectclass_do_add_attr_is_rdn_kept :
    SYSTEM_FLAG_ATTR_IS_RDN = 32 ∧
    objectclass_do_add sites_ldb (class_add "server" "32") 10 =
      .ret (.next_request (class_add_forwarded "server" "1375731744")) ∧
    1375731744 &&& SYSTEM_FLAG_ATTR_IS_RDN = SYSTEM_FLAG_ATTR_IS_RDN ∧
    objectclass_do_add sites_ldb (class_add "container" "32") 10 =
      .ret (.next_request (class_add_forwarded "container" "32")) ∧
    objectclass_do_add sites_ldb (class_add "attributeSchema" "32") 10 =
      .ret (.next_request (class_add_forwarded "attributeSchema" "0")) ∧
    (∀ x : Nat, class_systemFlags (plain_class "container" "top" 1) x = x) ∧
    (∀ x : Nat, class_systemFlags (plain_class "attributeSchema" "top" 1) x =
      x &&& (0xFFFFFFFF ^^^ SYSTEM_FLAG_ATTR_IS_RDN)) := by
  refine ⟨rfl, by decide, by decide, by decide, by decide, ?_, ?_⟩
  · intro x
    rw [class_systemFlags_split, if_neg (by decide)]
    have h0 : class_systemFlags (plain_class "container" "top" 1) 0 = 0 := by decide
    rw [h0, Nat.or_zero]
  · intro x
    rw [class_systemFlags_split, if_pos (by decide)]
    have h0 : class_systemFlags (plain_class "attributeSchema" "top" 1) 0 = 0 := by decide
    rw [h0, Nat.or_zero]

theorem class_systemFlags_server (objectclass : dsdb_class) (x : Nat)
    (h : strlower objectclass.lDAPDisplayName = strlower "server") :
    class_systemFlags objectclass x = x ||| (SYSTEM_FLAG_DISALLOW_MOVE_ON_DELETE |||
      SYSTEM_FLAG_CONFIG_ALLOW_RENAME ||| SYSTEM_FLAG_CONFIG_ALLOW_LIMITED_MOVE) := by
  have ha : ¬ strlower objectclass.lDAPDisplayName = strlower "attributeSchema" := by
    rw [h]; decide
  simp only [class_systemFlags, ldb_attr_cmp_beq_zero, Bool.or_eq_true, if_neg ha, if_pos h]

theorem class_systemFlags_site (objectclass : dsdb_class) (x : Nat)
    (h : strlower objectclass.lDAPDisplayName = strlower "site" ∨
      strlower objectclass.lDAPDisplayName = strlower "serverContainer" ∨
      strlower objectclass.lDAPDisplayName = strlower "ntDSDSA") :
    class_systemFlags objectclass x = x ||| SYSTEM_FLAG_DISALLOW_MOVE_ON_DELETE := by
  have ha : ¬ strlower objectclass.lDAPDisplayName = strlower "attributeSchema" := by
    rcases h with h | h | h <;> rw [h] <;> decide
  have hs : ¬ strlower objectclass.lDAPDisplayName = strlower "server" := by
    rcases h with h | h | h <;> rw [h] <;> decide
  simp only [class_systemFlags, ldb_attr_cmp_beq_zero, Bool.or_eq_true, if_neg ha, if_neg hs,
    or_assoc, if_pos h]

theorem class_systemFlags_siteLink (objectclass : dsdb_class) (x : Nat)
    (h : strlower objectclass.lDAPDisplayName = strlower "siteLink" ∨
      strlower objectclass.lDAPDisplayName = strlower "siteLinkBridge" ∨
      strlower objectclass.lDAPDisplayName = strlower "nTDSConnection") :
    class_systemFlags objectclass x = x ||| SYSTEM_FLAG_CONFIG_ALLOW_RENAME := by
  have ha : ¬ strlower objectclass.lDAPDisplayName = strlower "attributeSchema" := by
    rcases h with h | h | h <;> rw [h] <;> decide
  have hs : ¬ strlower objectclass.lDAPDisplayName = strlower "server" := by
    rcases h with h | h | h <;> rw [h] <;> decide
  have hd : ¬ (strlower objectclass.lDAPDisplayName = strlower "site" ∨
      strlower objectclass.lDAPDisplayName = strlower "serverContainer" ∨
      strlower objectclass.lDAPDisplayName = strlower "ntDSDSA") := by
    rcases h with h | h | h <;> rw [h] <;> decide
  simp only [class_systemFlags, ldb_attr_cmp_beq_zero, Bool.or_eq_true, if_neg ha, if_neg hs,
    or_assoc, if_neg hd, if_pos h]

theorem and_or_self_left (a m : Nat) : (a &&& m) ||| a = a := by
  apply Nat.eq_of_testBit_eq
  intro i
  simp only [Nat.testBit_or, Nat.testBit_and]
  cases a.testBit i <;> simp

theorem class_systemFlags_plain (objectclass : dsdb_class) (x : Nat)
    (hs : ¬ strlower objectclass.lDAPDisplayName = strlower "server")
    (hd : ¬ (strlower objectclass.lDAPDisplayName = strlower "site" ∨
      strlower objectclass.lDAPDisplayName = strlower "serverContainer" ∨
      strlower objectclass.lDAPDisplayName = strlower "ntDSDSA"))
    (hr : ¬ (strlower objectclass.lDAPDisplayName = strlower "siteLink" ∨
      strlower objectclass.lDAPDisplayName = strlower "siteLinkBridge" ∨
      strlower objectclass.lDAPDisplayName = strlower "nTDSConnection")) :
    class_systemFlags objectclass x =
      if strlower objectclass.lDAPDisplayName = strlower "attributeSchema" then
        x &&& (0xFFFFFFFF ^^^ SYSTEM_FLAG_ATTR_IS_RDN)
      else x := by
  simp only [class_systemFlags, ldb_attr_cmp_beq_zero, Bool.or_eq_true, if_neg hs, or_assoc,
    if_neg hd, if_neg hr]

/-- C29 as stated fails: the add `two_flags_add` of a `server` carries two
`systemFlags` elements, `1` and `0`.  The structural class is `server`, and the
`systemFlags` value of the entry sent down, the first value of its
`systemFlags` element, is `0`: none of the fixed bits of the class is set. -/
theorem objectclass_do_add_server_bits_missing :
    objectclass_do_add sites_ldb two_flags_add 10 =
      .ret (.next_request two_flags_add_forwarded) ∧
    get_last_structural_class sites_schema ⟨0, "objectClass", ["top", "server"]⟩ =
      some (plain_class "server" "top" 1) ∧
    ldb_msg_find_element two_flags_add_forwarded.message "systemFlags" =
      some (0, ⟨0, "systemFlags", ["0", "1375731713"]⟩) ∧
    ldb_msg_find_attr_as_int sites_ldb two_flags_add_forwarded.message "systemFlags" 0 = 0 ∧
    0 &&& (SYSTEM_FLAG_DISALLOW_MOVE_ON_DELETE ||| SYSTEM_FLAG_CONFIG_ALLOW_RENAME |||
        SYSTEM_FLAG_CONFIG_ALLOW_LIMITED_MOVE) = 0 := by
  refine ⟨?_, ?_, ?_, ?_, ?_⟩ <;> decide

/-- C29 (amended): for every add the transform forwards with a schema present,
the entry having at most one `systemFlags` element, the value `x` computed from
the value the client supplied (zero without one) has the fixed bits of the
structural class set, and is the value sent down as `systemFlags`:
`DISALLOW_MOVE_ON_DELETE`, `CONFIG_ALLOW_RENAME` and `CONFIG_ALLOW_LIMITED_MOVE`
for the class `server`; `DISALLOW_MOVE_ON_DELETE` for `site`, `serverContainer`
and `ntDSDSA`; `CONFIG_ALLOW_RENAME` for `siteLink`, `siteLinkBridge` and
`nTDSConnection`, the names compared without regard to case.  For any other
structural class no bit is added: every bit of `x` is a bit of the value of the
client, and `x` is that value when the class is not `attributeSchema`. -/
theorem objectclass_do_add_class_bits (ldb : ldb_context) (schema : dsdb_schema)
    (hschema : ldb.schema = some schema) (ac : oc_context) (fuel : Nat) (req' : ldb_request)
    (h : objectclass_do_add ldb ac fuel = .ret (.next_request req'))
    (hone : (ac.req.message.elements.filter (is_named "systemFlags")).length ≤ 1) :
    ∃ msg objectclass x, add_reaches_checks ldb schema ac fuel msg ∧
      check_structural_class schema ac msg = .ret (.ok objectclass) ∧
      x = class_systemFlags objectclass
        (ldb_msg_find_attr_as_int ldb ac.req.message "systemFlags" 0) ∧
      (strlower objectclass.lDAPDisplayName = strlower "server" →
        x &&& (SYSTEM_FLAG_DISALLOW_MOVE_ON_DELETE ||| SYSTEM_FLAG_CONFIG_ALLOW_RENAME |||
            SYSTEM_FLAG_CONFIG_ALLOW_LIMITED_MOVE) =
          SYSTEM_FLAG_DISALLOW_MOVE_ON_DELETE ||| SYSTEM_FLAG_CONFIG_ALLOW_RENAME |||
            SYSTEM_FLAG_CONFIG_ALLOW_LIMITED_MOVE ∧
        req'.message.elements.filter (is_named "systemFlags") =
          [⟨0, "systemFlags", [ldb.format_int (of_int32_bits x)]⟩]) ∧
      ((strlower objectclass.lDAPDisplayName = strlower "site" ∨
          strlower objectclass.lDAPDisplayName = strlower "serverContainer" ∨
          strlower objectclass.lDAPDisplayName = strlower "ntDSDSA") →
        x &&& SYSTEM_FLAG_DISALLOW_MOVE_ON_DELETE = SYSTEM_FLAG_DISALLOW_MOVE_ON_DELETE ∧
        req'.message.elements.filter (is_named "systemFlags") =
          [⟨0, "systemFlags", [ldb.format_int (of_int32_bits x)]⟩]) ∧
      ((strlower objectclass.lDAPDisplayName = strlower "siteLink" ∨
          strlower objectclass.lDAPDisplayName = strlower "siteLinkBridge" ∨
          strlower objectclass.lDAPDisplayName = strlower "nTDSConnection") →
        x &&& SYSTEM_FLAG_CONFIG_ALLOW_RENAME = SYSTEM_FLAG_CONFIG_ALLOW_RENAME ∧
        req'.message.elements.filter (is_named "systemFlags") =
          [⟨0, "systemFlags", [ldb.format_int (of_int32_bits x)]⟩]) ∧
      (¬ strlower objectclass.lDAPDisplayName = strlower "server" →
        ¬ (strlower objectclass.lDAPDisplayName = strlower "site" ∨
          strlower objectclass.lDAPDisplayName = strlower "serverContainer" ∨
          strlower objectclass.lDAPDisplayName = strlower "ntDSDSA") →
        ¬ (strlower objectclass.lDAPDisplayName = strlower "siteLink" ∨
          strlower objectclass.lDAPDisplayName = strlower "siteLinkBridge" ∨
          strlower objectclass.lDAPDisplayName = strlower "nTDSConnection") →
        x ||| ldb_msg_find_attr_as_int ldb ac.req.message "systemFlags" 0 =
            ldb_msg_find_attr_as_int ldb ac.req.message "systemFlags" 0 ∧
          (¬ strlower objectclass.lDAPDisplayName = strlower "attributeSchema" →
            x = ldb_msg_find_attr_as_int ldb ac.req.message "systemFlags" 0)) := by
  obtain ⟨msg, objectclass, hreach, hcs, hf⟩ :=
    objectclass_do_add_systemFlags ldb schema hschema ac fuel req' h hone
  refine ⟨msg, objectclass, _, hreach, hcs, rfl, ?_, ?_, ?_, ?_⟩
  · intro hn
    have hbits := class_systemFlags_server objectclass
      (ldb_msg_find_attr_as_int ldb ac.req.message "systemFlags" 0) hn
    have hand : class_systemFlags objectclass
        (ldb_msg_find_attr_as_int ldb ac.req.message "systemFlags" 0) &&&
        (SYSTEM_FLAG_DISALLOW_MOVE_ON_DELETE ||| SYSTEM_FLAG_CONFIG_ALLOW_RENAME |||
          SYSTEM_FLAG_CONFIG_ALLOW_LIMITED_MOVE) =
        SYSTEM_FLAG_DISALLOW_MOVE_ON_DELETE ||| SYSTEM_FLAG_CONFIG_ALLOW_RENAME |||
          SYSTEM_FLAG_CONFIG_ALLOW_LIMITED_MOVE := by
      rw [hbits]; exact or_and_right_self _ _
    refine ⟨hand, ?_⟩
    rw [hf, and_self_ne_zero hand (by decide), Bool.or_true, if_pos rfl]
  · intro hn
    have hbits := class_systemFlags_site objectclass
      (ldb_msg_find_attr_as_int ldb ac.req.message "systemFlags" 0) hn
    have hand : class_systemFlags objectclass
        (ldb_msg_find_attr_as_int ldb ac.req.message "systemFlags" 0) &&&
        SYSTEM_FLAG_DISALLOW_MOVE_ON_DELETE = SYSTEM_FLAG_DISALLOW_MOVE_ON_DELETE := by
      rw [hbits]; exact or_and_right_self _ _
    refine ⟨hand, ?_⟩
    rw [hf, and_self_ne_zero hand (by decide), Bool.or_true, if_pos rfl]
  · intro hn
    have hbits := class_systemFlags_siteLink objectclass
      (ldb_msg_find_attr_as_int ldb ac.req.message "systemFlags" 0) hn
    have hand : class_systemFlags objectclass
        (ldb_msg_find_attr_as_int ldb ac.req.message "systemFlags" 0) &&&
        SYSTEM_FLAG_CONFIG_ALLOW_RENAME = SYSTEM_FLAG_CONFIG_ALLOW_RENAME := by
      rw [hbits]; exact or_and_right_self _ _
    refine ⟨hand, ?_⟩
    rw [hf, and_self_ne_zero hand (by decide), Bool.or_true, if_pos rfl]
  · intro hs hd hr
    have hp := class_systemFlags_plain objectclass
      (ldb_msg_find_attr_as_int ldb ac.req.message "systemFlags" 0) hs hd hr
    constructor
    · rw [hp]
      split
      · exact and_or_self_left _ _
      · exact Nat.or_self _
    · intro hn
      rw [hp, if_neg hn]

/-- C29 (amended) at work: the add of a `server` with the `systemFlags` value `1` is sent
down with `systemFlags` `1375731713`, the three bits of the class on top of the
bit of the client. -/
theorem objectclass_do_add_class_bits_witness :
    objectclass_do_add sites_ldb (class_add "server" "1") 10 =
      .ret (.next_request (class_add_forwarded "server" "1375731713")) ∧
    1375731713 = 1 ||| (SYSTEM_FLAG_DISALLOW_MOVE_ON_DELETE ||| SYSTEM_FLAG_CONFIG_ALLOW_RENAME
      ||| SYSTEM_FLAG_CONFIG_ALLOW_LIMITED_MOVE) ∧
    ∃ msg objectclass x, add_reaches_checks sites_ldb sites_schema (class_add "server" "1") 10
        msg ∧
      check_structural_class sites_schema (class_add "server" "1") msg =
        .ret (.ok objectclass) ∧
      x = class_systemFlags objectclass
        (ldb_msg_find_attr_as_int sites_ldb (class_add "server" "1").req.message
          "systemFlags" 0) ∧
      (strlower objectclass.lDAPDisplayName = strlower "server" →
        x &&& (SYSTEM_FLAG_DISALLOW_MOVE_ON_DELETE ||| SYSTEM_FLAG_CONFIG_ALLOW_RENAME |||
            SYSTEM_FLAG_CONFIG_ALLOW_LIMITED_MOVE) =
          SYSTEM_FLAG_DISALLOW_MOVE_ON_DELETE ||| SYSTEM_FLAG_CONFIG_ALLOW_RENAME |||
            SYSTEM_FLAG_CONFIG_ALLOW_LIMITED_MOVE ∧
        (class_add_forwarded "server" "1375731713").message.elements.filter
            (is_named "systemFlags") =
          [⟨0, "systemFlags", [sites_ldb.format_int (of_int32_bits x)]⟩]) := by
  refine ⟨by decide, by decide, ?_⟩
  obtain ⟨msg, objectclass, x, h1, h2, h3, h4, -⟩ :=
    objectclass_do_add_class_bits sites_ldb sites_schema rfl (class_add "server" "1") 10
      (class_add_forwarded "server" "1375731713") (by decide) (by decide)
  exact ⟨msg, objectclass, x, h1, h2, h3, h4⟩

/-! ## The course of an operation -/

theorem oc_op_callback_done (ares : ldb_ares) (ht : ares.type = .LDB_REPLY_DONE) :
    oc_op_callback (some ares) = .module_done ares.controls ares.response ares.error := by
  unfold oc_op_callback
  simp only [ht, ne_eq, not_true_eq_false, if_false, ite_self]

theorem run_action_op (ldb : ldb_context) (env : downstream) (fuel depth : Nat)
    (ac : oc_context) (req : ldb_request)
    (ht : (env.write_reply req).type = .LDB_REPLY_DONE) :
    run_action ldb env fuel (depth + 1) ac (.next_request req .oc_op_callback) =
      .ret ⟨[], [req], some (env.write_reply req).error⟩ := by
  simp only [run_action, oc_op_callback_done _ ht]

theorem get_search_callback_go_on (step_fn : oc_context → exec oc_result) (ac ac' : oc_context)
    (ares : Option ldb_ares) (action : oc_action)
    (h : get_search_callback step_fn ac ares = .ret (ac', some (.go_on action))) :
    ∃ req, action = .next_request req .oc_op_callback := by
  unfold get_search_callback at h
  split at h
  · cases h
  · split at h
    · cases h
    · split at h
      · split at h <;> cases h
      · cases h
      · split at h
        · cases h
        · cases h
        · split at h <;> cases h
        · cases h
          exact ⟨_, rfl⟩

theorem deliver_search_go_on (step_fn : oc_context → exec oc_result) :
    ∀ (replies : List ldb_ares) (ac ac' : oc_context) (action : oc_action),
      deliver_search step_fn ac replies = .ret (ac', some (.go_on action)) →
      ∃ req, action = .next_request req .oc_op_callback := by
  intro replies
  induction replies with
  | nil =>
    intro ac ac' action h
    simp only [deliver_search] at h
    cases h
  | cons ares rest ih =>
    intro ac ac' action h
    unfold deliver_search at h
    cases hg : get_search_callback step_fn ac (some ares) with
    | fault => rw [hg] at h; cases h
    | out_of_fuel => rw [hg] at h; cases h
    | ret r =>
      obtain ⟨ac1, r1⟩ := r
      cases r1 with
      | none =>
        rw [hg] at h
        exact ih ac1 ac' action h
      | some r2 =>
        rw [hg] at h
        simp only [exec.ret.injEq, Prod.mk.injEq, Option.some.injEq] at h
        obtain ⟨h1, h2⟩ := h
        subst h1 h2
        exact get_search_callback_go_on step_fn ac ac1 (some ares) action hg

/-- An operation that starts with a search sends down at most one write
request, the one its step function builds, and ends with the reply to it. -/
theorem run_action_search (ldb : ldb_context) (env : downstream) (fuel depth : Nat)
    (henv : ∀ req, (env.write_reply req).type = .LDB_REPLY_DONE)
    (ac : oc_context) (base : ldb_dn) (attrs controls : List String) (step_fn : oc_step_fn)
    (t : oc_trace)
    (h : run_action ldb env fuel (depth + 2) ac (.search base attrs controls step_fn) = .ret t) :
    at_most_one_write env t := by
  rw [run_action] at h
  cases hd : deliver_search (run_step_fn ldb fuel step_fn) ac (search_replies env base) with
  | fault => rw [hd] at h; cases h
  | out_of_fuel => rw [hd] at h; cases h
  | ret r =>
    obtain ⟨ac1, r1⟩ := r
    rw [hd] at h
    cases r1 with
    | none =>
      simp only [exec.ret.injEq] at h
      subst h
      exact Or.inl rfl
    | some r2 =>
      cases r2 with
      | module_done c r e =>
        simp only [exec.ret.injEq] at h
        subst h
        exact Or.inl rfl
      | go_on action =>
        obtain ⟨req, hreq⟩ := deliver_search_go_on _ _ _ _ _ hd
        subst hreq
        simp only [run_action_op ldb env fuel depth ac1 req (henv req), exec.ret.injEq] at h
        subst h
        exact Or.inr ⟨req, rfl, rfl⟩

/-- The classes of a list are added to the only element of a message, in
order. -/
theorem add_sorted_classes_nodes (dn : ldb_dn) (flags : Nat) :
    ∀ (classes : List dsdb_class) (vals : List String),
      add_sorted_classes (classes.map node) ⟨dn, [⟨flags, "objectClass", vals⟩]⟩ =
        .ret ⟨dn, [⟨flags, "objectClass", vals ++ classes.map (·.lDAPDisplayName)⟩]⟩ := by
  intro classes
  induction classes with
  | nil => intro vals; simp [add_sorted_classes]
  | cons c rest ih =>
    intro vals
    have hfind : ldb_msg_find_element ⟨dn, [⟨flags, "objectClass", vals⟩]⟩ "objectClass" =
        some (0, ⟨flags, "objectClass", vals⟩) := by
      unfold ldb_msg_find_element
      simp only [find_element_from]
      have hn : (ldb_attr_cmp "objectClass" "objectClass" == 0) = true := by decide
      rw [if_pos hn]
    simp only [List.map_cons, add_sorted_classes, node, ldb_msg_add_string, hfind,
      List.set_cons_zero]
    have := ih (vals ++ [c.lDAPDisplayName])
    simp only [node, List.append_assoc, List.singleton_append] at this
    exact this

theorem nodes_of_classes :
    ∀ (sorted : List class_list) (classes : List dsdb_class),
      sorted.map (·.objectclass) = classes.map some → sorted = classes.map node := by
  intro sorted
  induction sorted with
  | nil =>
    intro classes h
    cases classes with
    | nil => rfl
    | cons c rest => simp at h
  | cons s rest ih =>
    intro classes h
    cases classes with
    | nil => simp at h
    | cons c rest' =>
      simp only [List.map_cons, List.cons.injEq] at h
      obtain ⟨s1⟩ := s
      simp only at h
      rw [ih rest' h.2, List.map_cons, node, h.1]

theorem class_lookup_some (schema : dsdb_schema) :
    class_lookup (some schema) = dsdb_class_by_lDAPDisplayName schema := rfl

/-- A modify whose `objectClass` element is neither a replace nor a delete
without values takes the path "in any other case". -/
theorem objectclass_modify_other (ldb : ldb_context) (schema : dsdb_schema)
    (hschema : ldb.schema = some schema) (req : ldb_request) (fuel : Nat)
    (hdn : ldb_dn_is_special req.message.dn = false)
    (p : Nat) (el : ldb_message_element)
    (hel : ldb_msg_find_element req.message "objectClass" = some (p, el))
    (hrep : el.flags &&& LDB_FLAG_MOD_MASK ≠ LDB_FLAG_MOD_REPLACE)
    (hdel : el.flags &&& LDB_FLAG_MOD_MASK = LDB_FLAG_MOD_DELETE → el.values ≠ []) :
    objectclass_modify ldb req fuel = .ret (modify_other schema req) := by
  have hne : ¬ req.message.elements.length = 0 := by
    intro h0
    have hnil : req.message.elements = [] := List.eq_nil_of_length_eq_zero h0
    unfold ldb_msg_find_element at hel
    rw [hnil] at hel
    simp [find_element_from] at hel
  unfold objectclass_modify
  simp only [hdn, Bool.false_eq_true, if_false, hschema, hne, hel]
  by_cases hd : el.flags &&& LDB_FLAG_MOD_MASK = LDB_FLAG_MOD_DELETE
  · have hlen : ¬ el.values.length = 0 := fun h0 => hdel hd (List.eq_nil_of_length_eq_zero h0)
    simp only [hd, if_true, hlen, if_false]
  · simp only [hd, if_false, hrep]

/-- The course of a modify that takes the path "in any other case", passes the
attribute validation and has its first modification answered with success: a
search for the entry, and then what `objectclass_do_mod` makes of the entry
found. -/
theorem run_modify_other (ldb : ldb_context) (schema : dsdb_schema) (req : ldb_request)
    (fuel : Nat) (env : downstream)
    (henv : ∀ r, (env.write_reply r).type = .LDB_REPLY_DONE)
    (hrun : objectclass_modify ldb req fuel = .ret (modify_other schema req))
    (hfc : (fix_check_attributes schema req.message req.operation).1 = LDB_SUCCESS)
    (hreply : (env.write_reply (first_modification schema req)).error = LDB_SUCCESS) :
    run_modify ldb env req fuel =
      match objectclass_do_mod ldb (mod_context env req) fuel with
      | .fault => .fault
      | .out_of_fuel => .out_of_fuel
      | .ret (.done ret) =>
        .ret ⟨[req.message.dn], [first_modification schema req],
          if ret ≠ LDB_SUCCESS then some ret else none⟩
      | .ret (.next_request second) =>
        .ret ⟨[req.message.dn], [first_modification schema req, second],
          some (env.write_reply second).error⟩ := by
  have hother : modify_other schema req =
      .next_request (first_modification schema req) .oc_modify_callback := by
    unfold modify_other first_modification
    cases hf : fix_check_attributes schema req.message req.operation with
    | mk ret msg =>
      rw [hf] at hfc
      simp only at hfc
      simp only [hfc, ne_eq, not_true_eq_false, if_false]
  have hcb : oc_modify_callback ⟨req, none⟩
      (some (env.write_reply (first_modification schema req))) =
      .go_on (.search req.message.dn ["objectClass"] [] .objectclass_do_mod) := by
    simp only [oc_modify_callback, hreply, henv, ne_eq, not_true_eq_false, if_false]
  unfold run_modify run_entry
  rw [hrun, hother]
  simp only [run_action, hcb]
  have hdeliver : deliver_search (run_step_fn ldb fuel .objectclass_do_mod) ⟨req, none⟩
      (search_replies env req.message.dn) =
      match objectclass_do_mod ldb (mod_context env req) fuel with
      | .fault => .fault
      | .out_of_fuel => .out_of_fuel
      | .ret (.done ret) =>
        if ret ≠ LDB_SUCCESS then .ret (mod_context env req, some (.module_done [] none ret))
        else .ret (mod_context env req, none)
      | .ret (.next_request second) =>
        .ret (mod_context env req, some (.go_on (.next_request second .oc_op_callback))) := by
    unfold search_replies mod_context
    cases hl : env.lookup req.message.dn with
    | none =>
      simp only [deliver_search, get_search_callback, run_step_fn, Option.map_none']
      have hne : ¬ (LDB_ERR_NO_SUCH_OBJECT ≠ LDB_SUCCESS ∧
          LDB_ERR_NO_SUCH_OBJECT ≠ LDB_ERR_NO_SUCH_OBJECT) := by decide
      rw [if_neg hne]
      cases objectclass_do_mod ldb ⟨req, none⟩ fuel with
      | fault => rfl
      | out_of_fuel => rfl
      | ret r =>
        cases r with
        | done ret =>
          by_cases hr : ret = LDB_SUCCESS
          · simp [hr, deliver_search]
          · simp [hr]
        | next_request second => rfl
    | some entry =>
      simp only [deliver_search, get_search_callback, run_step_fn, Option.map_some']
      have hne : ¬ (LDB_SUCCESS ≠ LDB_SUCCESS ∧ LDB_SUCCESS ≠ LDB_ERR_NO_SUCH_OBJECT) := by
        decide
      simp only [if_neg hne, Option.isSome_none, Bool.false_eq_true, if_false]
      cases objectclass_do_mod ldb ⟨req, some ⟨some entry⟩⟩ fuel with
      | fault => rfl
      | out_of_fuel => rfl
      | ret r =>
        cases r with
        | done ret =>
          by_cases hr : ret = LDB_SUCCESS
          · simp [hr, deliver_search]
          · simp [hr]
        | next_request second => rfl
  rw [hdeliver]
  cases objectclass_do_mod ldb (mod_context env req) fuel with
  | fault => rfl
  | out_of_fuel => rfl
  | ret r =>
    cases r with
    | done ret =>
      by_cases hr : ret = LDB_SUCCESS
      · simp [hr]
      · simp [hr]
    | next_request second =>
      simp only [run_action_op ldb env fuel 1 _ second (henv second)]

/-- C30: for every modify with a schema present and a DN that is not special,
whose `objectClass` element is neither a replace nor a delete without values,
and that passes the attribute validation: the modification is sent down with
`oc_modify_callback`.  When it is answered with success, the entry is
searched for.  Without an entry, or with an entry that has no `objectClass`
element, the operation ends with `LDB_ERR_OPERATIONS_ERROR`, after the first
modification and without a second.  With an entry whose `objectClass` values
sort into a chain, and a message that passes `ldb_msg_sanity_check`, a second
modification is sent down: addressed to the same DN, with one element, a
replace of `objectClass` by the names of the classes of the chain; the caller
receives the reply to it. -/
theorem objectclass_modify_second_modification (ldb : ldb_context) (schema : dsdb_schema)
    (hschema : ldb.schema = some schema) (req : ldb_request) (fuel : Nat) (env : downstream)
    (henv : ∀ r, (env.write_reply r).type = .LDB_REPLY_DONE)
    (hdn : ldb_dn_is_special req.message.dn = false)
    (p : Nat) (el : ldb_message_element)
    (hel : ldb_msg_find_element req.message "objectClass" = some (p, el))
    (hrep : el.flags &&& LDB_FLAG_MOD_MASK ≠ LDB_FLAG_MOD_REPLACE)
    (hdel : el.flags &&& LDB_FLAG_MOD_MASK = LDB_FLAG_MOD_DELETE → el.values ≠ [])
    (hfc : (fix_check_attributes schema req.message req.operation).1 = LDB_SUCCESS)
    (hreply : (env.write_reply (first_modification schema req)).error = LDB_SUCCESS) :
    objectclass_modify ldb req fuel =
      .ret (.next_request (first_modification schema req) .oc_modify_callback) ∧
    (env.lookup req.message.dn = none →
      run_modify ldb env req fuel =
        .ret ⟨[req.message.dn], [first_modification schema req],
          some LDB_ERR_OPERATIONS_ERROR⟩) ∧
    (∀ entry, env.lookup req.message.dn = some entry →
      ldb_msg_find_element entry "objectClass" = none →
      run_modify ldb env req fuel =
        .ret ⟨[req.message.dn], [first_modification schema req],
          some LDB_ERR_OPERATIONS_ERROR⟩) ∧
    (∀ entry q oc_el sorted classes, env.lookup req.message.dn = some entry →
      ldb_msg_find_element entry "objectClass" = some (q, oc_el) →
      objectclass_sort schema fuel oc_el.values = .ret (.ok sorted) →
      sorted.map (·.objectclass) = classes.map some →
      ldb.ldb_msg_sanity_check (second_modification req classes).message = LDB_SUCCESS →
      run_modify ldb env req fuel =
        .ret ⟨[req.message.dn],
          [first_modification schema req, second_modification req classes],
          some (env.write_reply (second_modification req classes)).error⟩) := by
  have hrun := objectclass_modify_other ldb schema hschema req fuel hdn p el hel hrep hdel
  have hcourse := run_modify_other ldb schema req fuel env henv hrun hfc hreply
  refine ⟨?_, ?_, ?_, ?_⟩
  · rw [hrun]
    unfold modify_other first_modification
    cases hf : fix_check_attributes schema req.message req.operation with
    | mk ret msg =>
      rw [hf] at hfc
      simp only at hfc
      simp only [hfc, ne_eq, not_true_eq_false, if_false]
  · intro hl
    have hmod : objectclass_do_mod ldb (mod_context env req) fuel =
        .ret (.done LDB_ERR_OPERATIONS_ERROR) := by
      simp only [objectclass_do_mod, mod_context, hl, Option.map_none']
    rw [hcourse, hmod]
    simp
  · intro entry hl hnone
    have hmod : objectclass_do_mod ldb (mod_context env req) fuel =
        .ret (.done LDB_ERR_OPERATIONS_ERROR) := by
      simp only [objectclass_do_mod, mod_context, hl, Option.map_some', hnone]
    rw [hcourse, hmod]
    simp
  · intro entry q oc_el sorted classes hl hf hs hc hsane
    have hs2 : objectclass_sort_on true (dsdb_class_by_lDAPDisplayName schema) fuel
        oc_el.values = .ret (.ok sorted) := hs
    have hadd : add_sorted_classes sorted
        (ldb_msg_add_empty ⟨req.message.dn, []⟩ "objectClass" LDB_FLAG_MOD_REPLACE) =
        .ret (second_modification req classes).message := by
      rw [nodes_of_classes sorted classes hc]
      have := add_sorted_classes_nodes req.message.dn LDB_FLAG_MOD_REPLACE classes []
      simpa [ldb_msg_add_empty, second_modification] using this
    have hmod : objectclass_do_mod ldb (mod_context env req) fuel =
        .ret (.next_request (second_modification req classes)) := by
      simp only [objectclass_do_mod, mod_context, hl, Option.map_some', hf, hschema,
        Option.isSome_some, class_lookup_some, hs2, hadd, hsane, ne_eq, not_true_eq_false,
        if_false]
      rfl
    rw [hcourse, hmod]

/-- C30 at work: `add_person_modify` adds `organizationalPerson` to the classes
of an entry that is found afterwards with the classes `person`, `top`,
`organizationalPerson`; the second modification replaces them by `top`,
`person`, `organizationalPerson`.  When no entry is found the operation ends
with `LDB_ERR_OPERATIONS_ERROR`. -/
theorem objectclass_modify_second_modification_witness :
    first_modification directory_schema add_person_modify = add_person_modify_first ∧
    run_modify directory_ldb (one_entry_downstream ["person", "top", "organizationalPerson"])
      add_person_modify 10 =
      .ret ⟨[admins_dn], [add_person_modify_first, add_person_modify_second],
        some LDB_SUCCESS⟩ ∧
    run_modify directory_ldb empty_downstream add_person_modify 10 =
      .ret ⟨[add_person_modify.message.dn],
        [first_modification directory_schema add_person_modify],
        some LDB_ERR_OPERATIONS_ERROR⟩ :=
  ⟨by decide, by decide,
    (objectclass_modify_second_modification directory_ldb directory_schema rfl
      add_person_modify 10 empty_downstream (fun _ => rfl) (by decide) 0
      ⟨LDB_FLAG_MOD_ADD, "OBJECTCLASS", ["organizationalPerson"]⟩ (by decide) (by decide)
      (by decide) (by decide) rfl).2.1 rfl⟩

/-! ## Errors and writes -/

theorem objectclass_add_callback (ldb : ldb_context) (req r : ldb_request) (fuel : Nat)
    (callback : oc_callback)
    (h : objectclass_add ldb req fuel = .ret (.next_request r callback)) :
    callback = .original ∨ callback = .oc_op_callback := by
  unfold objectclass_add at h
  split at h
  · cases h; exact Or.inl rfl
  · split at h
    · cases h
    · dsimp only at h
      split at h
      · cases hd : objectclass_do_add ldb ⟨req, none⟩ fuel with
        | fault => rw [hd] at h; cases h
        | out_of_fuel => rw [hd] at h; cases h
        | ret res =>
          rw [hd] at h
          cases res with
          | done ret => cases h
          | next_request r2 =>
            simp only [step_action, exec.ret.injEq, oc_action.next_request.injEq] at h
            exact Or.inr h.2.symm
      · split at h <;> cases h

theorem objectclass_rename_callback (req r : ldb_request) (callback : oc_callback)
    (h : objectclass_rename req = .next_request r callback) : callback = .original := by
  unfold objectclass_rename at h
  split at h
  · cases h; rfl
  · split at h
    · cases h
    · split at h <;> cases h

/-- An operation whose entry point did not send a request down with
`oc_modify_callback` sends down at most one write request and ends with the
reply to it. -/
theorem run_action_at_most_one (ldb : ldb_context) (env : downstream) (fuel depth : Nat)
    (henv : ∀ req, (env.write_reply req).type = .LDB_REPLY_DONE)
    (ac : oc_context) (action : oc_action) (t : oc_trace)
    (hcb : ∀ r callback, action = .next_request r callback →
      callback = .original ∨ callback = .oc_op_callback)
    (h : run_action ldb env fuel (depth + 2) ac action = .ret t) :
    at_most_one_write env t := by
  cases action with
  | done ret =>
    simp only [run_action, exec.ret.injEq] at h
    subst h
    exact Or.inl rfl
  | next_request r callback =>
    rcases hcb r callback rfl with hc | hc
    · subst hc
      simp only [run_action, exec.ret.injEq] at h
      subst h
      exact Or.inr ⟨r, rfl, rfl⟩
    · subst hc
      rw [run_action_op ldb env fuel (depth + 1) ac r (henv r)] at h
      simp only [exec.ret.injEq] at h
      subst h
      exact Or.inr ⟨r, rfl, rfl⟩
  | search base attrs controls step_fn =>
    exact run_action_search ldb env fuel depth henv ac base attrs controls step_fn t h

/-- C24 as stated fails for a modify: `add_class_modify` adds a class the
schema does not know to the classes of an entry.  The modification is sent
down first; it is answered with success; the entry is then found with the
class among its values, `objectclass_do_mod` fails to sort them, and the
operation ends with `LDB_ERR_NO_SUCH_ATTRIBUTE` after one write request. -/
theorem objectclass_modify_error_after_write :
    dsdb_class_by_lDAPDisplayName directory_schema "securityPrincipal" = none ∧
    objectclass_modify directory_ldb add_class_modify 10 =
      .ret (.next_request add_class_modify_forwarded .oc_modify_callback) ∧
    (one_entry_downstream ["top", "person", "securityPrincipal"]).write_reply
        add_class_modify_forwarded = ⟨LDB_SUCCESS, .LDB_REPLY_DONE, none, [], none⟩ ∧
    objectclass_do_mod directory_ldb
        (mod_context (one_entry_downstream ["top", "person", "securityPrincipal"])
          add_class_modify) 10 = .ret (.done LDB_ERR_NO_SUCH_ATTRIBUTE) ∧
    run_modify directory_ldb (one_entry_downstream ["top", "person", "securityPrincipal"])
      add_class_modify 10 =
      .ret ⟨[admins_dn], [add_class_modify_forwarded], some LDB_ERR_NO_SUCH_ATTRIBUTE⟩ := by
  refine ⟨by decide, by decide, rfl, by decide, by decide⟩

/-- C24, amended: with stages below that answer a write request with a
terminal reply, an add, a rename, and a modify that is not sent down with
`oc_modify_callback` send down at most one write request, and when they send
one the caller receives the reply to it: an error the module raises comes
without a write.  A modify that is sent down with `oc_modify_callback` (its
`objectClass` element is neither a replace nor a delete without values) has
its attribute names validated before anything is sent down, but the classes
are validated by `objectclass_do_mod`, after the modification was sent down
and answered with success: an error of the sorter ends the operation with one
write request sent. -/
theorem objectclass_error_without_write (ldb : ldb_context) (env : downstream)
    (henv : ∀ req, (env.write_reply req).type = .LDB_REPLY_DONE)
    (req : ldb_request) (fuel : Nat) :
    (∀ t, run_add ldb env req fuel = .ret t → at_most_one_write env t) ∧
    (∀ t, run_rename ldb env req fuel = .ret t → at_most_one_write env t) ∧
    (∀ t, run_modify ldb env req fuel = .ret t →
      (∀ r, objectclass_modify ldb req fuel ≠ .ret (.next_request r .oc_modify_callback)) →
      at_most_one_write env t) ∧
    (∀ schema, objectclass_modify ldb req fuel = .ret (modify_other schema req) →
      ((fix_check_attributes schema req.message req.operation).1 ≠ LDB_SUCCESS →
        run_modify ldb env req fuel =
          .ret ⟨[], [], some (fix_check_attributes schema req.message req.operation).1⟩) ∧
      ((fix_check_attributes schema req.message req.operation).1 = LDB_SUCCESS →
        (env.write_reply (first_modification schema req)).error = LDB_SUCCESS →
        ∀ ret, objectclass_do_mod ldb (mod_context env req) fuel = .ret (.done ret) →
          ret ≠ LDB_SUCCESS →
          run_modify ldb env req fuel =
            .ret ⟨[req.message.dn], [first_modification schema req], some ret⟩)) := by
  refine ⟨?_, ?_, ?_, ?_⟩
  · intro t h
    unfold run_add run_entry at h
    cases ha : objectclass_add ldb req fuel with
    | fault => rw [ha] at h; cases h
    | out_of_fuel => rw [ha] at h; cases h
    | ret action =>
      rw [ha] at h
      refine run_action_at_most_one ldb env fuel 2 henv _ action t ?_ h
      intro r callback hc
      subst hc
      exact objectclass_add_callback ldb req r fuel callback ha
  · intro t h
    unfold run_rename run_entry at h
    refine run_action_at_most_one ldb env fuel 2 henv _ _ t ?_ h
    intro r callback hc
    exact Or.inl (objectclass_rename_callback req r callback hc)
  · intro t h hnot
    unfold run_modify run_entry at h
    cases ha : objectclass_modify ldb req fuel with
    | fault => rw [ha] at h; cases h
    | out_of_fuel => rw [ha] at h; cases h
    | ret action =>
      rw [ha] at h
      refine run_action_at_most_one ldb env fuel 2 henv _ action t ?_ h
      intro r callback hc
      subst hc
      cases callback with
      | original => exact Or.inl rfl
      | oc_op_callback => exact Or.inr rfl
      | oc_modify_callback => exact absurd ha (hnot r)
  · intro schema hrun
    constructor
    · intro hne
      unfold run_modify run_entry
      rw [hrun]
      unfold modify_other
      cases hf : fix_check_attributes schema req.message req.operation with
      | mk ret msg =>
        rw [hf] at hne
        simp only [ne_eq] at hne
        simp only [ne_eq, hne, not_false_eq_true, if_true, run_action]
    · intro hfc hreply ret hmod hret
      rw [run_modify_other ldb schema req fuel env henv hrun hfc hreply, hmod]
      simp only [ne_eq, hret, not_false_eq_true, if_true]

/-- The amended C24 at work: the add of `crossref_add`, refused after the
search for its parent, and the modify `delete_all_modify`, refused at once,
send no write request down; the modify `add_class_modify` has sent one when
the sorter refuses the classes of the entry. -/
theorem objectclass_error_without_write_witness :
    run_add policy_ldb (one_entry_downstream ["top", "container"]) crossref_add.req 10 =
      .ret ⟨[users_dn_as_asked], [], some LDB_ERR_UNWILLING_TO_PERFORM⟩ ∧
    at_most_one_write (one_entry_downstream ["top", "container"])
      ⟨[users_dn_as_asked], [], some LDB_ERR_UNWILLING_TO_PERFORM⟩ ∧
    run_modify directory_ldb (one_entry_downstream ["top", "person", "securityPrincipal"])
      add_class_modify 10 =
      .ret ⟨[add_class_modify.message.dn],
        [first_modification directory_schema add_class_modify],
        some LDB_ERR_NO_SUCH_ATTRIBUTE⟩ :=
  ⟨by decide,
    (objectclass_error_without_write policy_ldb (one_entry_downstream ["top", "container"])
      (fun _ => rfl) crossref_add.req 10).1 _ (by decide),
    ((objectclass_error_without_write directory_ldb
      (one_entry_downstream ["top", "person", "securityPrincipal"]) (fun _ => rfl)
      add_class_modify 10).2.2.2 directory_schema (by decide)).2 (by decide) rfl
      LDB_ERR_NO_SUCH_ATTRIBUTE (by decide) (by decide)⟩

/-! ## Termination of the sorter -/

/-- On a schema in which every parent name resolves the parent-chain pass ends
without a fault, for every fuel from `|values| + |classes| + 1` on, and its
records are classes of the schema. -/
theorem find_parent_chain_resolving (schema : dsdb_schema) (hres : parents_resolve schema)
    (values : List String) :
    ∃ final, (∀ fuel, values.length + schema.classes.length + 1 ≤ fuel →
        find_parent_chain true (dsdb_class_by_lDAPDisplayName schema) fuel
          (named_classes (dsdb_class_by_lDAPDisplayName schema) values) 0 = .ret final) ∧
      final.length ≤ values.length + schema.classes.length ∧
      ∀ e ∈ final, e ∈ schema.classes := by
  have hf := lookup_ok_schema schema
  let f := dsdb_class_by_lDAPDisplayName schema
  let S : dsdb_class → Prop := fun e => e ∈ schema.classes
  have hS : ∀ e, S e → ¬ top_parent e → ∃ p, f e.subClassOf = some p ∧ S p := by
    intro e he _
    obtain ⟨p, hp⟩ := Option.isSome_iff_exists.1 (hres e he)
    exact ⟨p, hp, (class_by_name_some hp).1⟩
  have hinit : ∀ e ∈ named_classes f values, S e := by
    intro e he
    obtain ⟨⟨v, -, hv⟩, -⟩ := mem_named_classes.1 he
    exact (class_by_name_some hv).1
  have hlen := named_classes_length_le f values
  have hB : (schema.classes.filter
      (fun b => decide (class_key b ∉ (named_classes f values).map class_key))).length
      ≤ schema.classes.length := List.length_filter_le _ _
  have hrun : ∀ fuel, values.length + schema.classes.length + 1 ≤ fuel →
      ∃ final, find_parent_chain true f fuel (named_classes f values) 0 = .ret final := by
    intro fuel hfuel
    have h1 := (find_parent_chain_inv f S hS fuel (named_classes f values) 0 hinit).1
    have h2 := find_parent_chain_terminates f hf schema.classes
      (fun n c h => (class_by_name_some h).1) fuel (named_classes f values) 0 (by omega)
      (by omega)
    cases h : find_parent_chain true f fuel (named_classes f values) 0 with
    | ret r => exact ⟨r, rfl⟩
    | fault => exact absurd h h1
    | out_of_fuel => exact absurd h h2
  obtain ⟨final, hfinal⟩ := hrun _ (le_refl _)
  obtain ⟨added, -, hbound, -⟩ := find_parent_chain_ret f hf _ _ 0 final (by omega) hfinal
  refine ⟨final, ?_, by omega, ?_⟩
  · intro fuel hfuel
    exact find_parent_chain_fuel f hf _ _ 0 final (by omega) hfinal fuel (by omega)
  · intro e he
    exact (find_parent_chain_inv f S hS _ (named_classes f values) 0 hinit).2 final hfinal e he

/-- A pass of the selection loop over a list that is not empty, with ranks
below `INT_MAX`, moves one record from `unsorted` to `sorted`. -/
theorem select_pass_moves_one (unsorted : List dsdb_class) (sorted : List class_list)
    (hne : unsorted ≠ []) (hall : ∀ x ∈ unsorted, x.subClass_order < INT_MAX) :
    (select_pass true unsorted sorted).1.length + 1 = unsorted.length ∧
    (select_pass true unsorted sorted).2.length = sorted.length + 1 := by
  rcases select_pass_spec unsorted sorted with ⟨-, hge⟩ | ⟨j, c, hp, hj, -, -, -⟩
  · cases unsorted with
    | nil => exact absurd rfl hne
    | cons a rest =>
      have h1 := hall a (List.mem_cons_self _ _)
      have h2 := hge a (List.mem_cons_self _ _)
      omega
  · rw [hp]
    have hlt : j < unsorted.length := by
      rcases Nat.lt_or_ge j unsorted.length with h | h
      · exact h
      · rw [List.getElem?_eq_none h] at hj
        cases hj
    constructor
    · simp only [List.length_eraseIdx, hlt, if_true]
      omega
    · simp

/-- C32: with a schema present in which the parent name of every class
resolves and every rank is below `INT_MAX`, `objectclass_sort` returns for
every input, with one and the same result for every fuel from
`|values| + |classes| + 1` on: the error of the first loop, or the chain.  The
parent-chain pass appends classes of the schema, no two of them with the same
name and none with the name of a record already in the list; a pass of the
selection loop over a list that is not empty moves exactly one record out of
`unsorted`, and the pass over the empty list ends the loop.  (A record of rank
`INT_MAX` or above is never selected: the loop does not end.) -/
theorem objectclass_sort_terminates (schema : dsdb_schema) (hres : parents_resolve schema)
    (hmax : ranks_below_int_max schema) (values : List String) :
    (∃ r, (∀ fuel, values.length + schema.classes.length + 1 ≤ fuel →
        objectclass_sort schema fuel values = .ret r) ∧
      (r = .error LDB_ERR_NO_SUCH_ATTRIBUTE ∨
        ∃ added,
          (∀ fuel, values.length + schema.classes.length + 1 ≤ fuel →
            find_parent_chain true (dsdb_class_by_lDAPDisplayName schema) fuel
              (named_classes (dsdb_class_by_lDAPDisplayName schema) values) 0 =
              .ret (named_classes (dsdb_class_by_lDAPDisplayName schema) values ++ added)) ∧
          (added.map class_key).Nodup ∧
          (∀ a ∈ added, class_key a ∉
            (named_classes (dsdb_class_by_lDAPDisplayName schema) values).map class_key) ∧
          (∀ a ∈ added, a ∈ schema.classes) ∧
          r = .ok (⟨dsdb_class_by_lDAPDisplayName schema "top"⟩ ::
            (sort_by_order
              (named_classes (dsdb_class_by_lDAPDisplayName schema) values ++ added)).map
                node))) ∧
    (∀ (unsorted : List dsdb_class) (sorted : List class_list), unsorted ≠ [] →
      (∀ x ∈ unsorted, x ∈ schema.classes) →
      (select_pass true unsorted sorted).1.length + 1 = unsorted.length ∧
      (select_pass true unsorted sorted).2.length = sorted.length + 1) ∧
    (∀ (sorted : List class_list) (fuel : Nat),
      select_loop true (fuel + 1) [] sorted = .ret ([], sorted)) ∧
    (∀ (unsorted : List dsdb_class) (sorted : List class_list) (x : dsdb_class) (fuel : Nat),
      x ∈ unsorted → INT_MAX ≤ x.subClass_order →
      select_loop true fuel unsorted sorted = .out_of_fuel) := by
  have hf := lookup_ok_schema schema
  refine ⟨?_, ?_, ?_, ?_⟩
  · obtain ⟨final, hrun, hlen, hin⟩ := find_parent_chain_resolving schema hres values
    cases hb : values.any (bad_value (dsdb_class_by_lDAPDisplayName schema)) with
    | true =>
      refine ⟨.error LDB_ERR_NO_SUCH_ATTRIBUTE, ?_, Or.inl rfl⟩
      intro fuel _
      unfold objectclass_sort objectclass_sort_on
      rw [dump_values_eq, hb]
      rfl
    | false =>
      have hrun0 := hrun _ (le_refl _)
      obtain ⟨added, hr, -, -, hnd, hnew, -, -⟩ :=
        find_parent_chain_ret _ hf _ _ 0 final (by omega) hrun0
      subst hr
      refine ⟨.ok (⟨dsdb_class_by_lDAPDisplayName schema "top"⟩ ::
        (sort_by_order
          (named_classes (dsdb_class_by_lDAPDisplayName schema) values ++ added)).map node),
        ?_, Or.inr ⟨added, hrun, hnd, hnew, ?_, rfl⟩⟩
      · intro fuel hfuel
        exact objectclass_sort_on_enough _ fuel values _ hb (hrun fuel hfuel)
          (fun x hx => hmax x (hin x hx)) (by omega)
      · intro a ha
        exact hin a (List.mem_append_right _ ha)
  · intro unsorted sorted hne hin
    exact select_pass_moves_one unsorted sorted hne (fun x hx => hmax x (hin x hx))
  · intro sorted fuel
    simp [select_loop, select_pass, scan_lowest]
  · intro unsorted sorted x fuel hx hge
    exact select_loop_int_max unsorted sorted x hx hge fuel

/-- C32 at work: on the schema in which `A` and `B` name each other as parent,
every parent name resolves and the ranks are below `INT_MAX`; the sorter
returns, for the input `A` as for every other, from the fuel
`|values| + |classes| + 1` on. -/
theorem objectclass_sort_terminates_witness :
    parents_resolve cycle_schema ∧ ranks_below_int_max cycle_schema ∧
    objectclass_sort cycle_schema 5 ["A"] =
      .ret (.ok [node (plain_class "top" "top" 0), node (plain_class "A" "B" 1),
        node (plain_class "B" "A" 2)]) ∧
    ∃ r, ∀ fuel, ["A"].length + cycle_schema.classes.length + 1 ≤ fuel →
      objectclass_sort cycle_schema fuel ["A"] = .ret r := by
  refine ⟨by decide, by decide, by decide, ?_⟩
  obtain ⟨r, hr, -⟩ := (objectclass_sort_terminates cycle_schema (by decide) (by decide) ["A"]).1
  exact ⟨r, hr⟩

/-! ## Sorting a chain again -/

/-- On a list that has a parent for each of its records the parent-chain pass
appends nothing. -/
theorem find_parent_chain_stays (f : String → Option dsdb_class) (u : List dsdb_class)
    (hclosed : parents_closed u) (fuel : Nat) :
    ∀ i, i ≤ u.length → u.length + 1 ≤ fuel + i →
      find_parent_chain true f fuel u i = .ret u := by
  induction fuel with
  | zero => intro i hi hfuel; omega
  | succ n ih =>
    intro i hi hfuel
    unfold find_parent_chain
    simp only [Bool.not_true, Bool.false_eq_true, if_false]
    cases hc : u[i]? with
    | none => rfl
    | some current =>
      simp only
      have hilt : i < u.length := by
        rcases Nat.lt_or_ge i u.length with h | h
        · exact h
        · rw [List.getElem?_eq_none h] at hc
          cases hc
      have hmem : current ∈ u := List.getElem?_mem hc
      have htest : ((find_poss_parent u current.subClassOf).isSome
          || ldb_attr_cmp "top" current.subClassOf == 0) = true := by
        rw [parent_test_iff]
        rcases hclosed current hmem with h | h
        · exact Or.inr h
        · exact Or.inl h
      rw [if_pos htest]
      exact ih (i + 1) (by omega) (by omega)

theorem parents_closed_perm {l₁ l₂ : List dsdb_class} (hp : l₁.Perm l₂)
    (h : parents_closed l₁) : parents_closed l₂ := by
  intro e he
  rcases h e (hp.symm.subset he) with ht | ⟨p, hp1, hp2⟩
  · exact Or.inl ht
  · exact Or.inr ⟨p, hp.subset hp1, hp2⟩

theorem sort_by_order_idem (l : List dsdb_class) :
    sort_by_order (sort_by_order l) = sort_by_order l := by
  have hs := sort_by_order_sorted l
  unfold sort_by_order at hs ⊢
  exact List.Sorted.insertionSort_eq hs

theorem filterMap_names (f : String → Option dsdb_class) :
    ∀ l : List dsdb_class, (∀ e ∈ l, f e.lDAPDisplayName = some e) →
      (l.map (·.lDAPDisplayName)).filterMap f = l := by
  intro l
  induction l with
  | nil => intro _; rfl
  | cons a rest ih =>
    intro h
    rw [List.map_cons, List.filterMap_cons, h a (List.mem_cons_self _ _)]
    simp only
    rw [ih (fun e he => h e (List.mem_cons_of_mem _ he))]

/-- The classes other than `top` that the names of a chain name are the records
of the chain behind its head. -/
theorem named_classes_names (f : String → Option dsdb_class) (hf : lookup_ok f)
    (t : dsdb_class) (l : List dsdb_class) (ht : f "top" = some t)
    (hself : ∀ e ∈ l, f e.lDAPDisplayName = some e)
    (hnt : ∀ e ∈ l, class_key e ≠ strlower "top") :
    named_classes f ((t :: l).map (·.lDAPDisplayName)) = l := by
  have htk : strlower t.lDAPDisplayName = strlower "top" := hf.name_eq _ _ ht
  have htself : f t.lDAPDisplayName = some t := by
    rw [← ht]
    exact hf.congr _ _ htk
  unfold named_classes
  rw [filterMap_names f (t :: l) (by
    intro e he
    rcases List.mem_cons.1 he with h | h
    · rw [h]; exact htself
    · exact hself e h)]
  have hthead : ¬ (ldb_attr_cmp "top" t.lDAPDisplayName != 0) = true := by
    rw [ldb_attr_cmp_bne_zero]
    exact fun h => h htk.symm
  rw [List.filter_cons, if_neg hthead, List.filter_eq_self]
  intro e he
  rw [ldb_attr_cmp_bne_zero]
  exact fun h => hnt e he h.symm

/-- C31 as stated fails: the schema `defunct_parent_schema` is consistent, and
sorting the input `person` succeeds with the chain `top`, `oldPerson`,
`person`, the defunct parent having been looked up; the names of the chain are
refused when they are the input, with `LDB_ERR_NO_SUCH_ATTRIBUTE`. -/
theorem objectclass_sort_defunct_parent :
    schema_consistent defunct_parent_schema ∧
    objectclass_sort defunct_parent_schema 5 ["person"] =
      .ret (.ok [node (plain_class "top" "top" 0),
        node { plain_class "oldPerson" "top" 1 with isDefunct := true },
        node (plain_class "person" "oldPerson" 2)]) ∧
    objectclass_sort defunct_parent_schema 5 ["top", "oldPerson", "person"] =
      .ret (.error LDB_ERR_NO_SUCH_ATTRIBUTE) := by
  refine ⟨by decide, by decide, by decide⟩

/-- C31, amended: for every present schema and every input on which
`objectclass_sort` succeeds with a chain of classes none of which is defunct,
the names of the classes of the chain, as input, make `objectclass_sort`
succeed with the same fuel and return the same chain: the parent-chain pass
appends nothing to the working list, and the selection loop leaves the order
as it is. -/
theorem objectclass_sort_idempotent (schema : dsdb_schema) (fuel : Nat) (values : List String)
    (chain : List class_list) (classes : List dsdb_class)
    (h : objectclass_sort schema fuel values = .ret (.ok chain))
    (hc : chain.map (·.objectclass) = classes.map some)
    (hdef : ∀ c ∈ classes, c.isDefunct = false) :
    objectclass_sort schema fuel (classes.map (·.lDAPDisplayName)) = .ret (.ok chain) ∧
    find_parent_chain true (dsdb_class_by_lDAPDisplayName schema) fuel
        (named_classes (dsdb_class_by_lDAPDisplayName schema)
          (classes.map (·.lDAPDisplayName))) 0 =
      .ret (named_classes (dsdb_class_by_lDAPDisplayName schema)
        (classes.map (·.lDAPDisplayName))) ∧
    chain = ⟨dsdb_class_by_lDAPDisplayName schema "top"⟩ ::
      (named_classes (dsdb_class_by_lDAPDisplayName schema)
        (classes.map (·.lDAPDisplayName))).map node := by
  have hf := lookup_ok_schema schema
  obtain ⟨-, final, hfinal, hall, -, hchain⟩ := objectclass_sort_on_ok _ fuel values chain h
  obtain ⟨added, -, hbound, -⟩ := find_parent_chain_ret _ hf fuel _ 0 final (Nat.zero_le _) hfinal
  have hclosed := find_parent_chain_closed _ hf fuel _ final hfinal
  have hself := find_parent_chain_self _ hf fuel _ final hfinal (named_classes_self _ hf values)
  have hnt := find_parent_chain_not_top _ hf fuel values final hfinal
  have hperm := sort_by_order_perm final
  -- the classes of the chain
  have hcl : ∃ t, dsdb_class_by_lDAPDisplayName schema "top" = some t ∧
      classes = t :: sort_by_order final := by
    rw [hchain] at hc
    cases classes with
    | nil => simp at hc
    | cons t rest =>
      simp only [List.map_cons, List.cons.injEq, List.map_map] at hc
      refine ⟨t, hc.1, ?_⟩
      have hinj : (sort_by_order final).map some = rest.map some := by
        rw [← hc.2]
        apply List.map_congr_left
        intro a _
        rfl
      rw [List.map_injective_iff.2 (Option.some_injective _) hinj]
  obtain ⟨t, ht, hclasses⟩ := hcl
  have hnamed : named_classes (dsdb_class_by_lDAPDisplayName schema)
      (classes.map (·.lDAPDisplayName)) = sort_by_order final := by
    rw [hclasses]
    exact named_classes_names _ hf t _ ht
      (fun e he => hself e (hperm.subset he)) (fun e he => hnt e (hperm.subset he))
  have hb : (classes.map (·.lDAPDisplayName)).any
      (bad_value (dsdb_class_by_lDAPDisplayName schema)) = false := by
    cases hany : (classes.map (·.lDAPDisplayName)).any
        (bad_value (dsdb_class_by_lDAPDisplayName schema)) with
    | false => rfl
    | true =>
      obtain ⟨v, hv, hbad⟩ := List.any_eq_true.1 hany
      obtain ⟨c, hcm, hcv⟩ := List.mem_map.1 hv
      have hres : dsdb_class_by_lDAPDisplayName schema c.lDAPDisplayName = some c := by
        rw [hclasses] at hcm
        rcases List.mem_cons.1 hcm with h1 | h1
        · rw [h1, ← ht]
          exact hf.congr _ _ (hf.name_eq _ _ ht)
        · exact hself c (hperm.subset h1)
      rw [← hcv] at hbad
      simp only [bad_value, hres, hdef c hcm] at hbad
      cases hbad
  have hlen : (sort_by_order final).length = final.length := hperm.length_eq
  have hstay : find_parent_chain true (dsdb_class_by_lDAPDisplayName schema) fuel
      (sort_by_order final) 0 = .ret (sort_by_order final) :=
    find_parent_chain_stays _ _ (parents_closed_perm hperm.symm hclosed) fuel 0
      (Nat.zero_le _) (by omega)
  refine ⟨?_, ?_, ?_⟩
  · have := objectclass_sort_on_enough (dsdb_class_by_lDAPDisplayName schema) fuel
      (classes.map (·.lDAPDisplayName)) (sort_by_order final) hb (by rw [hnamed]; exact hstay)
      (fun x hx => hall x (hperm.subset hx)) (by omega)
    unfold objectclass_sort
    rw [this, sort_by_order_idem, hchain]
  · rw [hnamed]
    exact hstay
  · rw [hnamed, hchain]

/-- The amended C31 at work: the input `organizationalPerson`,
`securityPrincipal` sorts into the chain `top`, `securityPrincipal`, `person`,
`organizationalPerson`; the four names, as input, sort into the same chain. -/
theorem objectclass_sort_idempotent_witness :
    objectclass_sort sample_schema 5 ["organizationalPerson", "securityPrincipal"] =
      .ret (.ok [node (plain_class "top" "top" 0),
        node (plain_class "securityPrincipal" "top" 1),
        node (plain_class "person" "top" 1),
        node (plain_class "organizationalPerson" "person" 2)]) ∧
    objectclass_sort sample_schema 5
        ["top", "securityPrincipal", "person", "organizationalPerson"] =
      .ret (.ok [node (plain_class "top" "top" 0),
        node (plain_class "securityPrincipal" "top" 1),
        node (plain_class "person" "top" 1),
        node (plain_class "organizationalPerson" "person" 2)]) :=
  ⟨by decide,
    (objectclass_sort_idempotent sample_schema 5 ["organizationalPerson", "securityPrincipal"]
      [node (plain_class "top" "top" 0), node (plain_class "securityPrincipal" "top" 1),
        node (plain_class "person" "top" 1),
        node (plain_class "organizationalPerson" "person" 2)]
      [plain_class "top" "top" 0, plain_class "securityPrincipal" "top" 1,
        plain_class "person" "top" 1, plain_class "organizationalPerson" "person" 2]
      (by decide) (by decide) (by decide)).1⟩

/-! ## Without a schema -/

theorem fix_dn_returns (newdn parent_dn : ldb_dn) : fix_dn newdn parent_dn ≠ .out_of_fuel := by
  unfold fix_dn
  intro h
  simp only at h
  repeat' split at h
  all_goals cases h

theorem check_parent_returns (ldb : ldb_context) (ac : oc_context) :
    check_parent ldb ac ≠ .out_of_fuel := by
  unfold check_parent
  intro h
  split at h
  · split at h <;> cases h
  · split at h
    · cases h
    · split at h
      · cases h
      · rename_i hfix
        exact fix_dn_returns _ _ hfix
      · split at h <;> cases h

/-- C5 as stated fails: with the schema absent, `objectclass_sort` on the single
value `person` does not return the chain `top`, `person`.  The lookup of line
137 goes through the absent schema and resolves nothing, and the call returns
`LDB_ERR_NO_SUCH_ATTRIBUTE` (line 142), whatever the fuel. -/
theorem objectclass_sort_absent_schema_refuses :
    class_lookup none "person" = none ∧
    ∀ fuel, objectclass_sort_on (none : Option dsdb_schema).isSome (class_lookup none) fuel
      ["person"] = .ret (.error LDB_ERR_NO_SUCH_ATTRIBUTE) := by
  refine ⟨rfl, ?_⟩
  intro fuel
  exact objectclass_sort_on_bad _ _ _ _ (by decide)

/-- C5 (amended): with the schema absent nothing is sorted, `objectclass_sort`
is not called.  The add transform goes from the check for a parent straight to
the sanity check of the message and the request sent down, and it never runs
out of fuel; an add it sends down carries the elements of the entry as
supplied, the `objectClass` values in their input order, without `top` put
first, without sorting and without synthesized parents.  `objectclass_modify`
sends the request down as it came. -/
theorem objectclass_schema_absent_unsorted (ldb : ldb_context) (hschema : ldb.schema = none)
    (ac : oc_context) (req : ldb_request) (fuel : Nat) :
    objectclass_do_add ldb ac fuel =
      (match check_parent ldb ac with
      | .fault => .fault
      | .out_of_fuel => .out_of_fuel
      | .ret (.error ret) => .ret (.done ret)
      | .ret (.ok msg) => .ret (finish_add ldb ac msg)) ∧
    objectclass_do_add ldb ac fuel ≠ .out_of_fuel ∧
    (∀ req', objectclass_do_add ldb ac fuel = .ret (.next_request req') →
      req'.message.elements = ac.req.message.elements) ∧
    objectclass_modify ldb req fuel = .ret (.next_request req .original) := by
  have heq : objectclass_do_add ldb ac fuel =
      (match check_parent ldb ac with
      | .fault => .fault
      | .out_of_fuel => .out_of_fuel
      | .ret (.error ret) => .ret (.done ret)
      | .ret (.ok msg) => .ret (finish_add ldb ac msg)) := by
    rw [objectclass_do_add_eq]
    cases hc : check_parent ldb ac with
    | fault => rfl
    | out_of_fuel => rfl
    | ret r =>
      cases r with
      | error e => rfl
      | ok msg => simp only [do_add_transform, hschema]
  refine ⟨heq, ?_, ?_, ?_⟩
  · rw [heq]
    cases hc : check_parent ldb ac with
    | fault => simp
    | out_of_fuel => exact absurd hc (check_parent_returns ldb ac)
    | ret r => cases r <;> simp
  · intro req' h
    rw [heq] at h
    cases hc : check_parent ldb ac with
    | fault => rw [hc] at h; cases h
    | out_of_fuel => rw [hc] at h; cases h
    | ret r =>
      rw [hc] at h
      cases r with
      | error e => cases h
      | ok msg =>
        simp only [finish_add, exec.ret.injEq] at h
        split at h
        · cases h
        · cases h
          exact check_parent_elements hc
  · unfold objectclass_modify
    rw [hschema]
    simp

/-- C5 (amended) at work: without a schema the add of `admins_add` is sent down
with the classes `person`, `top`, `organizationalPerson` as supplied, with no
fuel at all, and `replace_modify` is sent down as it came. -/
theorem objectclass_schema_absent_unsorted_witness :
    bootstrap_ldb.schema = none ∧
    objectclass_do_add bootstrap_ldb admins_add 0 = .ret (.next_request admins_add_unsorted) ∧
    admins_add_unsorted.message.elements =
      [⟨0, "objectclass", ["person", "top", "organizationalPerson"]⟩, ⟨0, "CN", ["Admins"]⟩] ∧
    admins_add_unsorted.message.elements = admins_add.req.message.elements ∧
    objectclass_modify bootstrap_ldb replace_modify 0 =
      .ret (.next_request replace_modify .original) :=
  ⟨rfl, by decide, by decide,
    (objectclass_schema_absent_unsorted bootstrap_ldb rfl admins_add replace_modify 0).2.2.1
      admins_add_unsorted (by decide),
    (objectclass_schema_absent_unsorted bootstrap_ldb rfl admins_add replace_modify 0).2.2.2⟩

end Objectclass
